import Mathlib

/-!
# ToxNetChanneled: channel multiplexing and large packet reassembly

A shallow embedding of `src/mm_tox/services/tox_net_channeled.{hpp,cpp}` and of the
custom packet part of `src/mm_tox/services/tox_service.{hpp,cpp}`.

Conventions of the embedding
* a byte (`uint8_t`) is a `Nat`; a value stored into a byte vector is reduced `% 256`;
* a byte buffer (`std::vector<uint8_t>`, or a pointer plus a size) is a `List Nat`,
  a null `data` pointer is `none`;
* `std::array<T, 10>` is a function `Fin 10 → T`;
* `std::map<peer_id, T>` is a key ordered association list, see `map_get`, `map_modify`;
* `size_t` is 64 bits wide;
* the member `_tox_service` is the state of the service the pointer refers to
  (the service is enabled);
* the tox library and the declarations of `NetChanneledInterface` are not part of the
  sources; what the code needs from them is collected in `Env`.
-/

namespace MM.Tox.Services

set_option maxRecDepth 100000

/-! ## Types -/

/-- The delivery class of a channel, `NetChanneledInterface::channel_type`. -/
inductive channel_type where
  | LOSSY
  | LOSSLESS
deriving DecidableEq, Repr

/-- The environment of the code: the tox library and the integer type `channel_id`, both
declared outside the sources. The two send functions of the library get, besides the
friend number and the bytes, the number of send calls recorded before this one, so that
the outcome of a send may depend on the history in an arbitrary way. -/
structure Env where
  /-- the value returned by `tox_max_custom_packet_size()` -/
  tox_max_custom_packet_size : Nat
  /-- the value of `sizeof(channel_id)`; `channel_id` is an unsigned integer type -/
  sizeof_channel_id : Nat
  /-- every C++ object type has a size of at least one byte -/
  sizeof_channel_id_pos : 0 < sizeof_channel_id
  /-- the result of `tox_friend_send_lossy_packet` -/
  tox_friend_send_lossy_packet : Nat → Nat → List Nat → Bool
  /-- the result of `tox_friend_send_lossless_packet` -/
  tox_friend_send_lossless_packet : Nat → Nat → List Nat → Bool

/-- The receive queues of `ToxService::ToxFriend`. -/
structure ToxFriend where
  packets : List (List Nat)
  packets_lossless : List (List Nat)
  packets_internal : List (List Nat)
  packets_lossless_internal : List (List Nat)
deriving DecidableEq, Repr

/-- A value initialised `ToxFriend`, as `operator[]` of the friend map creates it. -/
def ToxFriend.empty : ToxFriend := ⟨[], [], [], []⟩

/-- One call of `ToxService::friend_send_packet` (`lossless = false`) or of
`ToxService::friend_send_packet_lossless` (`lossless = true`): the arguments, whether the
call reached the tox library, and the value returned. -/
structure SendCall where
  lossless : Bool
  friend_number : Nat
  mem : List Nat
  forwarded : Bool
  result : Bool
deriving DecidableEq, Repr

/-- The part of `ToxService` the packet layer uses: the friend map with its receive
queues, and a trace `sends` of every call of the two send wrappers, oldest first. -/
structure ToxService where
  _tox_friends : List (Nat × ToxFriend)
  sends : List SendCall
deriving DecidableEq, Repr

/-- The state of a `ToxNetChanneled` object. -/
structure ToxNetChanneled where
  _tox_service : ToxService
  _peer_list : List Nat
  _c_type_arr : Fin 10 → channel_type
  _packets : List (Nat × (Fin 10 → List (List Nat)))
  _large_packets_buffer : List (Nat × (Fin 10 → List Nat))

/-! ## Maps -/

/-- Whether a map holds the key (`count(key) != 0`). -/
def map_contains {α : Type} : List (Nat × α) → Nat → Bool
  | [], _ => false
  | (k, _) :: rest, key => if k = key then true else map_contains rest key

/-- The value a map holds under a key, `dflt` (a value initialised element) without one:
what `m[key]` reads. -/
def map_get {α : Type} (dflt : α) : List (Nat × α) → Nat → α
  | [], _ => dflt
  | (k, v) :: rest, key => if k = key then v else map_get dflt rest key

/-- Apply `f` to the value of the first entry under `key`. -/
def map_replace {α : Type} (f : α → α) : List (Nat × α) → Nat → List (Nat × α)
  | [], _ => []
  | (k, v) :: rest, key => if k = key then (k, f v) :: rest else (k, v) :: map_replace f rest key

/-- Insert a new entry in front of the first larger key. -/
def map_insert {α : Type} (key : Nat) (v : α) : List (Nat × α) → List (Nat × α)
  | [] => [(key, v)]
  | (k, w) :: rest => if key < k then (key, v) :: (k, w) :: rest else (k, w) :: map_insert key v rest

/-- The statement `f(m[key])` for a mutating `f`: `operator[]` creates a value initialised
entry when the key is absent, then the entry is changed in place. -/
def map_modify {α : Type} (dflt : α) (f : α → α) (m : List (Nat × α)) (key : Nat) :
    List (Nat × α) :=
  if map_contains m key then map_replace f m key else map_insert key (f dflt) m

/-! ## ToxService: the send wrappers and the receive callbacks -/

/-- Append a call to the trace of the send wrappers. -/
def ToxService.record (ts : ToxService) (c : SendCall) : ToxService :=
  { ts with sends := ts.sends ++ [c] }

/-- The function `ToxService::friend_send_packet`: `size == 0` and a first byte outside of
200..254 are rejected, everything else is handed to `tox_friend_send_lossy_packet`. -/
def friend_send_packet (env : Env) (ts : ToxService) (friend_number : Nat) (mem : List Nat) :
    Bool × ToxService :=
  match mem with
  | [] => (false, ts.record ⟨false, friend_number, mem, false, false⟩)
  | b :: _ =>
    if b < 200 ∨ b > 254 then
      (false, ts.record ⟨false, friend_number, mem, false, false⟩)
    else
      let r := env.tox_friend_send_lossy_packet ts.sends.length friend_number mem
      (r, ts.record ⟨false, friend_number, mem, true, r⟩)

/-- The function `ToxService::friend_send_packet_lossless`: `size == 0` and a first byte
outside of 160..191 are rejected, everything else is handed to
`tox_friend_send_lossless_packet`. -/
def friend_send_packet_lossless (env : Env) (ts : ToxService) (friend_number : Nat)
    (mem : List Nat) : Bool × ToxService :=
  match mem with
  | [] => (false, ts.record ⟨true, friend_number, mem, false, false⟩)
  | b :: _ =>
    if b < 160 ∨ b > 191 then
      (false, ts.record ⟨true, friend_number, mem, false, false⟩)
    else
      let r := env.tox_friend_send_lossless_packet ts.sends.length friend_number mem
      (r, ts.record ⟨true, friend_number, mem, true, r⟩)

/-- The callback `friend_lossy_packet_cb`: the packet is queued in `packets`. -/
def friend_lossy_packet_cb (ts : ToxService) (friend_number : Nat) (data : List Nat) :
    ToxService :=
  { ts with _tox_friends :=
      (map_modify ToxFriend.empty (fun f => { f with packets := f.packets ++ [data] })
        ts._tox_friends friend_number) }

/-- The callback `friend_lossless_packet_cb`: a packet whose first byte is
`MM_TOX_LOSSLESS_PKG_ID_INTERNAL` (160) is queued in `packets_lossless_internal`, any
other in `packets_lossless`. (tox delivers no packet of length 0.) -/
def friend_lossless_packet_cb (ts : ToxService) (friend_number : Nat) (data : List Nat) :
    ToxService :=
  { ts with _tox_friends :=
      (map_modify ToxFriend.empty
        (fun f =>
          if data.head? = some 160 then
            { f with packets_lossless_internal := f.packets_lossless_internal ++ [data] }
          else
            { f with packets_lossless := f.packets_lossless ++ [data] })
        ts._tox_friends friend_number) }

/-- The function `ToxService::friend_packet_each`: nothing for an unknown friend, else `fn`
on every queued lossy packet, oldest first; `fn` works on a state `σ`. -/
def friend_packet_each {σ : Type} (ts : ToxService) (friend_number : Nat)
    (fn : σ → List Nat → σ) (s : σ) : σ :=
  if map_contains ts._tox_friends friend_number then
    (map_get ToxFriend.empty ts._tox_friends friend_number).packets.foldl fn s
  else s

/-- The function `ToxService::friend_packet_each_lossless`. -/
def friend_packet_each_lossless {σ : Type} (ts : ToxService) (friend_number : Nat)
    (fn : σ → List Nat → σ) (s : σ) : σ :=
  if map_contains ts._tox_friends friend_number then
    (map_get ToxFriend.empty ts._tox_friends friend_number).packets_lossless.foldl fn s
  else s

/-- The function `ToxService::pkg_cleanup`: all four queues of every friend are cleared. -/
def pkg_cleanup (ts : ToxService) : ToxService :=
  { ts with _tox_friends := ts._tox_friends.map (fun e => (e.1, ToxFriend.empty)) }

/-! ## ToxNetChanneled -/

/-- The function `toTox`: a `peer_id` converted to the `uint32_t` friend number. -/
def toTox (peer : Nat) : Nat := peer % 2 ^ 32

/-- The function `getMaxPacketSize`:
`tox_max_custom_packet_size() - (sizeof(channel_id) + 3)` in `size_t` arithmetic. -/
def getMaxPacketSize (env : Env) : Nat :=
  Int.toNat (((env.tox_max_custom_packet_size : Int) - ((env.sizeof_channel_id : Int) + 3))
    % 2 ^ 64)

/-- The initialisation `channel_id channel = pk[0] - base`: the difference is taken in
`int` and converted to the unsigned type `channel_id`. -/
def to_channel_id (env : Env) (byte0 base : Nat) : Nat :=
  Int.toNat (((byte0 : Int) - (base : Int)) % 2 ^ (8 * env.sizeof_channel_id))

/-- The statement `_packets[peer][channel].emplace_back(pkt)`. -/
def packets_emplace_back (m : List (Nat × (Fin 10 → List (List Nat)))) (peer : Nat)
    (channel : Fin 10) (pkt : List Nat) : List (Nat × (Fin 10 → List (List Nat))) :=
  map_modify (fun _ => []) (fun arr => Function.update arr channel (arr channel ++ [pkt])) m peer

/-- The body of the callback `pull_fresh_packages` passes to `friend_packet_each`. -/
def lossy_packet_fn (env : Env) (peer : Nat) (st : ToxNetChanneled) (pk : List Nat) :
    ToxNetChanneled :=
  if pk.length < 1 then st
  else if pk.length < 2 then st
  else if pk.length < 3 then st
  else
    let channel := to_channel_id env (pk.getD 0 0) 192
    if h : channel ≥ 10 then st
    else
      { st with _packets :=
          (packets_emplace_back st._packets peer ⟨channel, Nat.lt_of_not_ge h⟩ (pk.drop 2)) }

/-- The body of the callback `pull_fresh_packages` passes to
`friend_packet_each_lossless`. -/
def lossless_packet_fn (env : Env) (peer : Nat) (st : ToxNetChanneled) (pk : List Nat) :
    ToxNetChanneled :=
  if pk.length < 1 then st
  else if pk.length < 2 then st
  else if pk.length < 3 then st
  else
    let channel := to_channel_id env (pk.getD 0 0) 161
    if h : channel ≥ 10 then st
    else
      let ch : Fin 10 := ⟨channel, Nat.lt_of_not_ge h⟩
      let large_packet := pk.getD 1 0 != 0
      if !large_packet then
        { st with _packets := packets_emplace_back st._packets peer ch (pk.drop 2) }
      else
        let lpkg_num := pk.getD 1 0
        -- `auto& lpkg_buff = _large_packets_buffer[peer][channel]`, then resize and memcpy
        let buffer := map_modify (fun _ => []) (fun arr => Function.update arr ch (arr ch ++ pk.drop 2))
          st._large_packets_buffer peer
        if lpkg_num = 2 then
          { st with
            _packets := (packets_emplace_back st._packets peer ch
              (map_get (fun _ => []) buffer peer ch))
            _large_packets_buffer :=
              (map_modify (fun _ => []) (fun arr => Function.update arr ch []) buffer peer) }
        else
          { st with _large_packets_buffer := buffer }

/-- The function `ToxNetChanneled::pull_fresh_packages`: for every peer of `_peer_list`
the queued lossy packets, then the queued lossless packets. -/
def pull_fresh_packages (env : Env) (st : ToxNetChanneled) : ToxNetChanneled :=
  st._peer_list.foldl
    (fun s peer =>
      let s1 := friend_packet_each s._tox_service (toTox peer) (lossy_packet_fn env peer) s
      friend_packet_each_lossless s1._tox_service (toTox peer) (lossless_packet_fn env peer) s1)
    st

/-- The function `ToxNetChanneled::sendPacket`; `data = none` is the null pointer and
`data_size` is the length of the list. -/
def sendPacket (env : Env) (st : ToxNetChanneled) (peer channel : Nat)
    (data : Option (List Nat)) : Bool × ToxNetChanneled :=
  if h : channel ≥ 10 then (false, st)
  else
    match data with
    | none => (false, st)
    | some d =>
      if d.length < 1 then (false, st)
      else
        let ct := st._c_type_arr ⟨channel, Nat.lt_of_not_ge h⟩
        let new_data :=
          (if ct = channel_type.LOSSLESS then [(161 + channel) % 256]
            else [(192 + channel) % 256]) ++ [0] ++ d
        if ct = channel_type.LOSSLESS then
          let r := friend_send_packet_lossless env st._tox_service (toTox peer) new_data
          (r.1, { st with _tox_service := r.2 })
        else
          let r := friend_send_packet env st._tox_service (toTox peer) new_data
          (r.1, { st with _tox_service := r.2 })

/-- The loop of `ToxNetChanneled::sendPacketLarge`. The loop variables are
`remaining_data_size` and `succ`; `fuel` bounds the number of iterations, and `none` says
that the bound was reached with the loop still running. -/
def sendPacketLarge_loop (env : Env) (friend_number channel : Nat) (data : List Nat) :
    Nat → Nat → Bool → ToxService → Option (Bool × ToxService)
  | 0, remaining_data_size, succ, ts =>
    if remaining_data_size > 0 then none else some (succ, ts)
  | fuel + 1, remaining_data_size, succ, ts =>
    if remaining_data_size > 0 then
      let data_this_pk := min remaining_data_size (getMaxPacketSize env)
      let new_data :=
        [(161 + channel) % 256,
          if remaining_data_size ≤ getMaxPacketSize env then 2 else 1]
        ++ (data.drop (data.length - remaining_data_size)).take data_this_pk
      let r := friend_send_packet_lossless env ts friend_number new_data
      let succ1 := succ && r.1
      if !succ1 then some (succ1, r.2)
      else
        sendPacketLarge_loop env friend_number channel data fuel
          (remaining_data_size - data_this_pk) succ1 r.2
    else some (succ, ts)

/-- The function `ToxNetChanneled::sendPacketLarge`, with the iteration bound `fuel` of
its loop. -/
def sendPacketLarge (fuel : Nat) (env : Env) (st : ToxNetChanneled) (peer channel : Nat)
    (data : Option (List Nat)) : Option (Bool × ToxNetChanneled) :=
  if h : channel ≥ 10 then some (false, st)
  else
    match data with
    | none => some (false, st)
    | some d =>
      if d.length < 1 then some (false, st)
      else if st._c_type_arr ⟨channel, Nat.lt_of_not_ge h⟩ ≠ channel_type.LOSSLESS then
        some (false, st)
      else if d.length ≤ getMaxPacketSize env then
        some (sendPacket env st peer channel (some d))
      else
        (sendPacketLarge_loop env (toTox peer) channel d fuel d.length true st._tox_service).map
          (fun r => (r.1, { st with _tox_service := r.2 }))

/-! ## ToxNetChanneled: the Inbox iteration

The visitor `fn` of the three `forEachPacket` functions is a `std::function`; it is
embedded as a function on a visitor state `σ` that gets the state, the peer, the channel
and the bytes of the packet and returns its answer and the new visitor state. The
visitor neither writes through the data pointer nor calls the object it iterates. -/

/-- The ways a run of one of the `forEachPacket` functions can end without a result:
the iteration bound of the model was reached, or a `std::array` of 10 elements was
indexed with 10 or more (undefined behaviour in the source). -/
inductive Fault where
  | bound_reached
  | out_of_range
deriving DecidableEq, Repr

/-- The channels the loop `for (channel_id channel = 0; channel < 10; channel++)` runs
through, in order. -/
def channels : List (Fin 10) := [0, 1, 2, 3, 4, 5, 6, 7, 8, 9]

/-- The loop `for (auto it = vec.begin(); it != vec.end();)` over one bucket, common to
the three `forEachPacket` functions: the iterator `it` is an index into the vector `vec`;
`fn` is called on the element at `it`; on `true` the element is erased and `it` then
refers to the next element, on `false` `it` is incremented; `count` is incremented in
both cases. `fuel` bounds the number of iterations, `none` says that the bound was reached
with the loop still running. -/
def forEach_loop {σ : Type} (fn : σ → Nat → Nat → List Nat → Bool × σ) (peer channel : Nat) :
    Nat → List (List Nat) → Nat → σ → Nat → Option (List (List Nat) × σ × Nat)
  | 0, vec, it, s, count => if it ≠ vec.length then none else some (vec, s, count)
  | fuel + 1, vec, it, s, count =>
    if it ≠ vec.length then
      let r := fn s peer channel (vec.getD it [])
      if r.1 then forEach_loop fn peer channel fuel (vec.eraseIdx it) it r.2 (count + 1)
      else forEach_loop fn peer channel fuel vec (it + 1) r.2 (count + 1)
    else some (vec, s, count)

/-- The loop over the channels of one peer, on the array `ch_data` of its buckets. -/
def forEach_channels {σ : Type} (fn : σ → Nat → Nat → List Nat → Bool × σ) (peer fuel : Nat) :
    List (Fin 10) → (Fin 10 → List (List Nat)) → σ → Nat →
      Option ((Fin 10 → List (List Nat)) × σ × Nat)
  | [], ch_data, s, count => some (ch_data, s, count)
  | channel :: rest, ch_data, s, count =>
    match forEach_loop fn peer channel.val fuel (ch_data channel) 0 s count with
    | none => none
    | some (vec, s1, count1) =>
      forEach_channels fn peer fuel rest (Function.update ch_data channel vec) s1 count1

/-- The loop `for (auto&[peer, ch_data] : _packets)` of `forEachPacket` over the entries
of the map, in key order. -/
def forEach_entries {σ : Type} (fn : σ → Nat → Nat → List Nat → Bool × σ) (fuel : Nat) :
    List (Nat × (Fin 10 → List (List Nat))) → σ → Nat →
      Option (List (Nat × (Fin 10 → List (List Nat))) × σ × Nat)
  | [], s, count => some ([], s, count)
  | (peer, ch_data) :: rest, s, count =>
    match forEach_channels fn peer fuel channels ch_data s count with
    | none => none
    | some (ch_data1, s1, count1) =>
      match forEach_entries fn fuel rest s1 count1 with
      | none => none
      | some (rest1, s2, count2) => some ((peer, ch_data1) :: rest1, s2, count2)

/-- The function `ToxNetChanneled::forEachPacket`: the returned count, the visitor state
and the state of the object afterwards. -/
def forEachPacket {σ : Type} (fuel : Nat) (fn : σ → Nat → Nat → List Nat → Bool × σ) (s : σ)
    (st : ToxNetChanneled) : Except Fault (Nat × σ × ToxNetChanneled) :=
  match forEach_entries fn fuel st._packets s 0 with
  | none => Except.error Fault.bound_reached
  | some (m, s1, count) => Except.ok (count, s1, { st with _packets := m })

/-- The function `ToxNetChanneled::forEachPacketPeer`; `_packets[peer]` creates the entry
of the peer when the map has none. -/
def forEachPacketPeer {σ : Type} (fuel : Nat) (fn : σ → Nat → Nat → List Nat → Bool × σ)
    (s : σ) (st : ToxNetChanneled) (peer : Nat) : Except Fault (Nat × σ × ToxNetChanneled) :=
  match forEach_channels fn peer fuel channels (map_get (fun _ => []) st._packets peer) s 0 with
  | none => Except.error Fault.bound_reached
  | some (ch_data, s1, count) =>
    Except.ok (count, s1,
      { st with _packets := map_modify (fun _ => []) (fun _ => ch_data) st._packets peer })

/-- The function `ToxNetChanneled::forEachPacketPeerChannel`. The source indexes
`_packets[peer][channel]` without a check of `channel`; an index of 10 or more into the
`std::array` of 10 buckets is undefined behaviour, which the embedding reports as
`Fault.out_of_range`. -/
def forEachPacketPeerChannel {σ : Type} (fuel : Nat)
    (fn : σ → Nat → Nat → List Nat → Bool × σ) (s : σ) (st : ToxNetChanneled)
    (peer channel : Nat) : Except Fault (Nat × σ × ToxNetChanneled) :=
  if h : channel < 10 then
    match forEach_loop fn peer channel fuel
        (map_get (fun _ => []) st._packets peer ⟨channel, h⟩) 0 s 0 with
    | none => Except.error Fault.bound_reached
    | some (vec, s1, count) =>
      Except.ok (count, s1,
        { st with _packets :=
            (map_modify (fun _ => []) (fun arr => Function.update arr ⟨channel, h⟩ vec)
              st._packets peer) })
  else Except.error Fault.out_of_range

/-- The function `ToxNetChanneled::clearPackets`: `_packets.clear()`. -/
def clearPackets (st : ToxNetChanneled) : ToxNetChanneled :=
  { st with _packets := [] }

/-! ## Notions used to state the properties -/

/-- The bucket `_packets[peer][channel]` of completed packets (the Inbox of a peer and a
channel), empty when the map has no entry for the peer. -/
def Inbox (st : ToxNetChanneled) (peer : Nat) (channel : Fin 10) : List (List Nat) :=
  map_get (fun _ => []) st._packets peer channel

/-- The buffer `_large_packets_buffer[peer][channel]` (the FragmentBuffer of a peer and a
channel), empty when the map has no entry for the peer. -/
def FragmentBuffer (st : ToxNetChanneled) (peer : Nat) (channel : Fin 10) : List Nat :=
  map_get (fun _ => []) st._large_packets_buffer peer channel

/-- The calls of the send wrappers made between two states of the service. -/
def new_sends (before after : ToxService) : List SendCall :=
  after.sends.drop before.sends.length

/-- The number of chunks of `M` bytes a payload of `n` bytes is cut into: `n / M`, rounded
up. -/
def chunk_count (M n : Nat) : Nat := (n + M - 1) / M

/-- The frame of chunk number `j` (counted from 0) of a payload cut into chunks of `M`
bytes: the byte of the lossless channel, marker 2 for the chunk that holds the end of the
payload and marker 1 for one before it, then the bytes `j * M ..< (j + 1) * M` of the
payload. -/
def fragment (M channel : Nat) (p : List Nat) (j : Nat) : List Nat :=
  [(161 + channel) % 256, if p.length ≤ (j + 1) * M then 2 else 1] ++ (p.drop (j * M)).take M

/-- The frames of all chunks of a payload, in order. -/
def fragments (M channel : Nat) (p : List Nat) : List (List Nat) :=
  (List.range (chunk_count M p.length)).map (fragment M channel p)

/-- Lossless sends of a list of frames, one after the other, stopping after the first send
that fails; the result is `true` when every send succeeded. -/
def send_in_order (env : Env) (friend_number : Nat) :
    List (List Nat) → ToxService → Bool × ToxService
  | [], ts => (true, ts)
  | f :: fs, ts =>
    let r := friend_send_packet_lossless env ts friend_number f
    if r.1 then send_in_order env friend_number fs r.2 else (false, r.2)

/-- The arrival of lossless packets from a friend, in the given order (tox calls
`friend_lossless_packet_cb` for each), followed by one run of `pull_fresh_packages`. -/
def receive_lossless (env : Env) (st : ToxNetChanneled) (friend_number : Nat)
    (frames : List (List Nat)) : ToxNetChanneled :=
  pull_fresh_packages env
    { st with _tox_service :=
        (frames.foldl (fun ts f => friend_lossless_packet_cb ts friend_number f)
          st._tox_service) }

/-- The arrival of lossy packets from a friend, in the given order (tox calls
`friend_lossy_packet_cb` for each), followed by one run of `pull_fresh_packages`. -/
def receive_lossy (env : Env) (st : ToxNetChanneled) (friend_number : Nat)
    (frames : List (List Nat)) : ToxNetChanneled :=
  pull_fresh_packages env
    { st with _tox_service :=
        (frames.foldl (fun ts f => friend_lossy_packet_cb ts friend_number f)
          st._tox_service) }

/-- The queue `packets` of a friend: the lossy packets `friend_packet_each` visits. -/
def lossy_queue (ts : ToxService) (friend_number : Nat) : List (List Nat) :=
  (map_get ToxFriend.empty ts._tox_friends friend_number).packets

/-- The queue `packets_lossless` of a friend: the lossless packets
`friend_packet_each_lossless` visits. -/
def lossless_queue (ts : ToxService) (friend_number : Nat) : List (List Nat) :=
  (map_get ToxFriend.empty ts._tox_friends friend_number).packets_lossless

/-- No packet waits in the lossy or in the lossless receive queue of any friend, the state
`pkg_cleanup` leaves behind. -/
def queues_empty (ts : ToxService) : Prop :=
  ∀ e ∈ ts._tox_friends, e.2.packets = [] ∧ e.2.packets_lossless = []

/-- The peer list holds `peer`, holds no peer twice (it is a `std::set`), and no other
peer of the list shares the tox friend number of `peer`. -/
def known_peer (st : ToxNetChanneled) (peer : Nat) : Prop :=
  peer ∈ st._peer_list ∧ st._peer_list.Nodup ∧
    ∀ q ∈ st._peer_list, toTox q = toTox peer → q = peer

/-- The second state differs from the first at most in the Inbox bucket and in the
FragmentBuffer of the one peer and channel. -/
def same_except (st st1 : ToxNetChanneled) (peer : Nat) (channel : Fin 10) : Prop :=
  st1._tox_service = st._tox_service ∧ st1._peer_list = st._peer_list ∧
  st1._c_type_arr = st._c_type_arr ∧
  ∀ (q : Nat) (d : Fin 10), (q ≠ peer ∨ d ≠ channel) →
    Inbox st1 q d = Inbox st q d ∧ FragmentBuffer st1 q d = FragmentBuffer st q d

/-- A visit of a packet: the peer, the channel and the bytes the visitor is called with. -/
abbrev Visit := Nat × Fin 10 × List Nat

/-- The visits of the packets of one bucket, in arrival order. -/
def bucket_items (peer : Nat) (channel : Fin 10) (vec : List (List Nat)) : List Visit :=
  vec.map (fun pkt => (peer, channel, pkt))

/-- The visits of the packets of the ten buckets of a peer: channel 0 first, arrival order
within a channel. -/
def entry_items (peer : Nat) (ch_data : Fin 10 → List (List Nat)) : List Visit :=
  channels.flatMap (fun channel => bucket_items peer channel (ch_data channel))

/-- The visits of all buffered packets: the scope of `forEachPacket`. -/
def scope_all (st : ToxNetChanneled) : List Visit :=
  st._packets.flatMap (fun e => entry_items e.1 e.2)

/-- The visits of the packets of a peer: the scope of `forEachPacketPeer`. -/
def scope_peer (st : ToxNetChanneled) (peer : Nat) : List Visit :=
  entry_items peer (fun channel => Inbox st peer channel)

/-- The visits of the packets of one peer and channel: the scope of
`forEachPacketPeerChannel`. -/
def scope_peer_channel (st : ToxNetChanneled) (peer : Nat) (channel : Fin 10) : List Visit :=
  bucket_items peer channel (Inbox st peer channel)

/-- One call of the visitor for each visit of the list, in order: the answers, in order,
and the visitor state after the last call. -/
def visit_seq {σ : Type} (fn : σ → Nat → Nat → List Nat → Bool × σ) :
    List Visit → σ → List Bool × σ
  | [], s => ([], s)
  | v :: vs, s =>
    ((fn s v.1 v.2.1.val v.2.2).1 :: (visit_seq fn vs (fn s v.1 v.2.1.val v.2.2).2).1,
      (visit_seq fn vs (fn s v.1 v.2.1.val v.2.2).2).2)

/-- Of the visited packets, those of the one peer and channel for which the answer of
the visitor was `false`, in the order visited. -/
def kept_of (items : List Visit) (answers : List Bool) (peer : Nat) (channel : Fin 10) :
    List (List Nat) :=
  ((items.zip answers).filter
    (fun x => decide (x.1.1 = peer ∧ x.1.2.1 = channel ∧ x.2 = false))).map (fun x => x.1.2.2)

/-- Of the visited packets, those of the one peer and channel, in the order visited. -/
def visited_of (items : List Visit) (peer : Nat) (channel : Fin 10) : List (List Nat) :=
  (items.filter (fun v => decide (v.1 = peer ∧ v.2.1 = channel))).map (fun v => v.2.2)

/-- No bucket of the Inbox holds more than `fuel` packets: `fuel` iterations are enough
for the loop over any bucket. -/
def bucket_bound (st : ToxNetChanneled) (fuel : Nat) : Prop :=
  ∀ e ∈ st._packets, ∀ (channel : Fin 10), (e.2 channel).length ≤ fuel

/-- No two entries of the map `_packets` have the same key, as in every `std::map`. -/
def keys_nodup (st : ToxNetChanneled) : Prop :=
  (st._packets.map Prod.fst).Nodup

/-- A visitor that answers `answer` to every call and counts its calls. -/
def constant_visitor (answer : Bool) : Nat → Nat → Nat → List Nat → Bool × Nat :=
  fun calls _ _ _ => (answer, calls + 1)

/-- A visitor that answers `true` (remove) exactly for the packets that start with the
byte 1, and keeps the list of the packets it was called with. -/
def logging_visitor : List (Nat × Nat × List Nat) → Nat → Nat → List Nat →
    Bool × List (Nat × Nat × List Nat) :=
  fun log peer channel pkt => (decide (pkt.head? = some 1), log ++ [(peer, channel, pkt)])

/-! ## The loop of sendPacketLarge in the arithmetic of size_t -/

/-- The difference `a - b` of two `size_t` values: the difference of the integers, modulo
`2 ^ 64`. -/
def size_t_sub (a b : Nat) : Nat := Int.toNat (((a : Int) - (b : Int)) % 2 ^ 64)

/-- The values of one pass through the body of the loop of `sendPacketLarge`:
`remaining_data_size` at the start of the pass, `data_this_pk`, the source offset
`data_size - remaining_data_size` of the `memcpy`, and the frame `new_data` handed to
`friend_send_packet_lossless`. -/
structure Iteration where
  remaining_data_size : Nat
  data_this_pk : Nat
  offset : Nat
  new_data : List Nat
deriving DecidableEq, Repr

/-- The loop of `ToxNetChanneled::sendPacketLarge` with every subtraction taken in
`size_t`, together with the list of the passes it made. The first component is the
result (`none` when `fuel` passes were made and the loop is still running), the second
has one `Iteration` per pass, in order. -/
def sendPacketLarge_loop_iterations (env : Env) (friend_number channel : Nat)
    (data : List Nat) :
    Nat → Nat → Bool → ToxService → Option (Bool × ToxService) × List Iteration
  | 0, remaining_data_size, succ, ts =>
    (if remaining_data_size > 0 then none else some (succ, ts), [])
  | fuel + 1, remaining_data_size, succ, ts =>
    if remaining_data_size > 0 then
      let data_this_pk := min remaining_data_size (getMaxPacketSize env)
      let offset := size_t_sub data.length remaining_data_size
      let new_data :=
        [(161 + channel) % 256,
          if remaining_data_size ≤ getMaxPacketSize env then 2 else 1]
        ++ (data.drop offset).take data_this_pk
      let r := friend_send_packet_lossless env ts friend_number new_data
      let succ1 := succ && r.1
      if !succ1 then
        (some (succ1, r.2), [⟨remaining_data_size, data_this_pk, offset, new_data⟩])
      else
        let t := sendPacketLarge_loop_iterations env friend_number channel data fuel
          (size_t_sub remaining_data_size data_this_pk) succ1 r.2
        (t.1, ⟨remaining_data_size, data_this_pk, offset, new_data⟩ :: t.2)
    else (some (succ, ts), [])

/-- Lossless packets in the order in which the callback of `pull_fresh_packages` gets
them, each with the peer it came from: the callback on each of them, one after the
other. -/
def ingest_lossless (env : Env) (st : ToxNetChanneled) (log : List (Nat × List Nat)) :
    ToxNetChanneled :=
  log.foldl (fun s e => lossless_packet_fn env e.1 s e.2) st

/-- The packets of a log that came from `peer` with the first byte of the lossless
channel `channel`, in the order of the log. -/
def packets_for (peer channel : Nat) (log : List (Nat × List Nat)) : List (List Nat) :=
  (log.filter (fun e => decide (e.1 = peer ∧ e.2.getD 0 0 = 161 + channel))).map Prod.snd

/-! ## Concrete environments and states -/

/-- An environment with `tox_max_custom_packet_size() = 204` and a `channel_id` of one
byte, hence `getMaxPacketSize() = 200`, in which tox accepts every packet. -/
def env_200 : Env := ⟨204, 1, by decide, fun _ _ _ => true, fun _ _ _ => true⟩

/-- An environment with `getMaxPacketSize() = 2`, in which tox accepts every packet. -/
def env_2 : Env := ⟨6, 1, by decide, fun _ _ _ => true, fun _ _ _ => true⟩

/-- An environment with `getMaxPacketSize() = 2`, in which tox refuses the lossless send
made when one send is on record, and accepts every other packet. -/
def env_2_fail : Env := ⟨6, 1, by decide, fun _ _ _ => true, fun i _ _ => decide (i ≠ 1)⟩

/-- An environment with the sizes of a build against c-toxcore
(`tox_max_custom_packet_size() = 1373`, a `channel_id` of one byte), in which tox accepts
every packet. -/
def env_1373 : Env := ⟨1373, 1, by decide, fun _ _ _ => true, fun _ _ _ => true⟩

/-- A fresh object with the default channel types (all LOSSLESS), the peer 5 known, and
no packet sent or received. -/
def st_lossless : ToxNetChanneled :=
  ⟨⟨[], []⟩, [5], fun _ => channel_type.LOSSLESS, [], []⟩

/-- A fresh object constructed with all ten channels LOSSY, the peer 5 known, and no
packet sent or received. -/
def st_lossy : ToxNetChanneled :=
  ⟨⟨[], []⟩, [5], fun _ => channel_type.LOSSY, [], []⟩

/-- A receiver that knows the peer 5, with two lossless packets from it in the queue of
the service: a standalone packet with the payload 7 and a first fragment with the
payload 9, both on channel 0. -/
def st_queued : ToxNetChanneled :=
  { st_lossless with _tox_service :=
      (friend_lossless_packet_cb
        (friend_lossless_packet_cb st_lossless._tox_service 5 [161, 0, 7]) 5 [161, 1, 9]) }

/-- A receiver that knows the peer 5, with packets of fewer than 3 bytes from it in both
queues of the service. -/
def st_short_queued : ToxNetChanneled :=
  { st_lossless with _tox_service :=
      ⟨[(5, ⟨[[], [192], [192, 0]], [[161], [161, 2]], [], []⟩)], []⟩ }

/-- The buckets of a peer with packets on the channels 0 and 3 only. -/
def buckets_0_3 (l0 l3 : List (List Nat)) : Fin 10 → List (List Nat) :=
  fun channel => if channel = 0 then l0 else if channel = 3 then l3 else []

/-- An object with completed packets of the peers 5 and 7 in the Inbox, and a
FragmentBuffer with the bytes 8, 8 for the peer 5 on channel 0. -/
def st_inbox : ToxNetChanneled :=
  ⟨⟨[], []⟩, [5, 7], fun _ => channel_type.LOSSLESS,
    [(5, buckets_0_3 [[1, 1], [2], [1, 3]] [[9]]), (7, buckets_0_3 [[4]] [[1], [5]])],
    [(5, fun channel => if channel = 0 then [8, 8] else [])]⟩

/-! ## Arithmetic of the chunk count -/

theorem mul_lt_iff_lt_chunk_count (M n j : Nat) (hM : 1 ≤ M) :
    j * M < n ↔ j < chunk_count M n := by
  unfold chunk_count
  rw [Nat.lt_iff_add_one_le (m := j), Nat.le_div_iff_mul_le (by omega), Nat.succ_mul]
  omega

theorem chunk_count_pos (M n : Nat) (hM : 1 ≤ M) (hn : 0 < n) : 0 < chunk_count M n := by
  have := (mul_lt_iff_lt_chunk_count M n 0 hM).1 (by simpa using hn)
  exact this

theorem chunk_count_le (M n : Nat) (hM : 1 ≤ M) : chunk_count M n ≤ n := by
  by_contra h
  have h1 : n < chunk_count M n := by omega
  have h2 := (mul_lt_iff_lt_chunk_count M n n hM).2 h1
  have h3 : n * 1 ≤ n * M := Nat.mul_le_mul_left n hM
  omega

theorem chunk_count_last (M n : Nat) (hM : 1 ≤ M) (hn : 0 < n) :
    (chunk_count M n - 1) * M < n ∧ n ≤ (chunk_count M n - 1) * M + M := by
  have hpos := chunk_count_pos M n hM hn
  constructor
  · exact (mul_lt_iff_lt_chunk_count M n _ hM).2 (by omega)
  · by_contra h
    have h1 : (chunk_count M n - 1 + 1) * M < n := by rw [Nat.succ_mul]; omega
    have h2 := (mul_lt_iff_lt_chunk_count M n _ hM).1 h1
    omega

/-! ## Maps -/

theorem map_get_replace_same {α : Type} (dflt : α) (f : α → α) (m : List (Nat × α)) (key : Nat)
    (h : map_contains m key = true) :
    map_get dflt (map_replace f m key) key = f (map_get dflt m key) := by
  induction m with
  | nil => simp [map_contains] at h
  | cons e rest ih =>
    obtain ⟨k, v⟩ := e
    by_cases hk : k = key
    · simp [map_replace, map_get, hk]
    · simp [map_contains, hk] at h
      simp [map_replace, map_get, hk, ih h]

theorem map_get_replace_ne {α : Type} (dflt : α) (f : α → α) (m : List (Nat × α))
    (key other : Nat) (h : other ≠ key) :
    map_get dflt (map_replace f m key) other = map_get dflt m other := by
  induction m with
  | nil => simp [map_replace]
  | cons e rest ih =>
    obtain ⟨k, v⟩ := e
    by_cases hk : k = key
    · subst hk
      have hne : ¬ k = other := fun h2 => h h2.symm
      simp [map_replace, map_get, hne]
    · by_cases ho : k = other
      · subst ho
        simp [map_replace, map_get, hk]
      · simp [map_replace, map_get, hk, ho, ih]

theorem map_get_insert_same {α : Type} (dflt v : α) (m : List (Nat × α)) (key : Nat)
    (h : map_contains m key = false) :
    map_get dflt (map_insert key v m) key = v := by
  induction m with
  | nil => simp [map_insert, map_get]
  | cons e rest ih =>
    obtain ⟨k, w⟩ := e
    by_cases hk : k = key
    · simp [map_contains, hk] at h
    · simp [map_contains, hk] at h
      by_cases hlt : key < k
      · simp [map_insert, map_get, hlt]
      · simp [map_insert, map_get, hlt, hk, ih h]

theorem map_get_insert_ne {α : Type} (dflt v : α) (m : List (Nat × α)) (key other : Nat)
    (h : other ≠ key) :
    map_get dflt (map_insert key v m) other = map_get dflt m other := by
  induction m with
  | nil => simp [map_insert, map_get]; intro h2; exact absurd h2.symm h
  | cons e rest ih =>
    obtain ⟨k, w⟩ := e
    by_cases hlt : key < k
    · simp [map_insert, map_get, hlt]
      intro h2; exact absurd h2.symm h
    · by_cases ho : k = other
      · subst ho
        simp [map_insert, map_get, hlt]
      · simp [map_insert, map_get, hlt, ho, ih]

theorem map_get_of_not_contains {α : Type} (dflt : α) (m : List (Nat × α)) (key : Nat)
    (h : map_contains m key = false) : map_get dflt m key = dflt := by
  induction m with
  | nil => simp [map_get]
  | cons e rest ih =>
    obtain ⟨k, w⟩ := e
    by_cases hk : k = key
    · simp [map_contains, hk] at h
    · simp [map_contains, hk] at h
      simp [map_get, hk, ih h]

/-- Reading a key after `map_modify` on the same key gives the changed value. -/
theorem map_get_modify_same {α : Type} (dflt : α) (f : α → α) (m : List (Nat × α)) (key : Nat) :
    map_get dflt (map_modify dflt f m key) key = f (map_get dflt m key) := by
  unfold map_modify
  cases h : map_contains m key with
  | true => simp [map_get_replace_same dflt f m key h]
  | false => simp [map_get_insert_same dflt (f dflt) m key h, map_get_of_not_contains dflt m key h]

/-- Reading another key after `map_modify` gives the old value. -/
theorem map_get_modify_ne {α : Type} (dflt : α) (f : α → α) (m : List (Nat × α))
    (key other : Nat) (h : other ≠ key) :
    map_get dflt (map_modify dflt f m key) other = map_get dflt m other := by
  unfold map_modify
  cases map_contains m key with
  | true => simp [map_get_replace_ne dflt f m key other h]
  | false => simp [map_get_insert_ne dflt (f dflt) m key other h]

/-! ## The send wrappers -/

theorem channel_byte_lossless (c : Nat) (hc : c < 10) : (161 + c) % 256 = 161 + c := by
  omega

theorem channel_byte_lossy (c : Nat) (hc : c < 10) : (192 + c) % 256 = 192 + c := by
  omega

/-- A frame whose first byte is in 160..191 passes the checks of
`friend_send_packet_lossless`: the result is the one of the tox library. -/
theorem friend_send_packet_lossless_in_range (env : Env) (ts : ToxService) (fr b : Nat)
    (rest : List Nat) (h1 : 160 ≤ b) (h2 : b ≤ 191) :
    friend_send_packet_lossless env ts fr (b :: rest) =
      (env.tox_friend_send_lossless_packet ts.sends.length fr (b :: rest),
        ts.record ⟨true, fr, b :: rest, true,
          env.tox_friend_send_lossless_packet ts.sends.length fr (b :: rest)⟩) := by
  have h : ¬ (b < 160 ∨ b > 191) := by omega
  simp [friend_send_packet_lossless, h]

theorem friend_send_packet_lossless_fragment (env : Env) (ts : ToxService) (fr M c j : Nat)
    (p : List Nat) (hc : c < 10) :
    friend_send_packet_lossless env ts fr (fragment M c p j) =
      (env.tox_friend_send_lossless_packet ts.sends.length fr (fragment M c p j),
        ts.record ⟨true, fr, fragment M c p j, true,
          env.tox_friend_send_lossless_packet ts.sends.length fr (fragment M c p j)⟩) := by
  have hb := channel_byte_lossless c hc
  unfold fragment
  rw [hb]
  exact friend_send_packet_lossless_in_range env ts fr (161 + c) _ (by omega) (by omega)

/-! ## The loop of sendPacketLarge -/

theorem sendPacketLarge_loop_zero (env : Env) (fr c : Nat) (p : List Nat) (fuel : Nat)
    (succ : Bool) (ts : ToxService) :
    sendPacketLarge_loop env fr c p fuel 0 succ ts = some (succ, ts) := by
  cases fuel <;> simp [sendPacketLarge_loop]

/-- The frame an iteration of the loop builds with `j * M` bytes sent is `fragment j`. -/
theorem loop_frame_eq (M c j : Nat) (p : List Nat) (hj : j * M < p.length) :
    ([(161 + c) % 256, if p.length - j * M ≤ M then 2 else 1]
      ++ (p.drop (p.length - (p.length - j * M))).take (min (p.length - j * M) M))
    = fragment M c p j := by
  unfold fragment
  have h1 : p.length - (p.length - j * M) = j * M := by omega
  have h2 : (p.length - j * M ≤ M) ↔ (p.length ≤ (j + 1) * M) := by
    rw [Nat.succ_mul]; omega
  have h3 : (p.drop (j * M)).take (min (p.length - j * M) M) = (p.drop (j * M)).take M := by
    rcases Nat.le_total (p.length - j * M) M with h | h
    · rw [Nat.min_eq_left h]
      rw [List.take_of_length_le (by simp), List.take_of_length_le (by simpa using h)]
    · rw [Nat.min_eq_right h]
  rw [h1, h3]
  simp only [h2]

/-- The loop of `sendPacketLarge`, started with `j * M` bytes sent, sends the fragments
`j, j + 1, ...` in order up to the first failing send, whatever the tox library answers. -/
theorem sendPacketLarge_loop_eq (env : Env) (fr c : Nat) (p : List Nat)
    (hM : 1 ≤ getMaxPacketSize env) :
    ∀ (fuel j : Nat) (ts : ToxService), j * getMaxPacketSize env < p.length →
      chunk_count (getMaxPacketSize env) p.length - j ≤ fuel →
      sendPacketLarge_loop env fr c p fuel (p.length - j * getMaxPacketSize env) true ts =
        some (send_in_order env fr
          ((List.range' j (chunk_count (getMaxPacketSize env) p.length - j)).map
            (fragment (getMaxPacketSize env) c p)) ts) := by
  intro fuel
  induction fuel with
  | zero =>
    intro j ts hj hfuel
    have := (mul_lt_iff_lt_chunk_count _ _ j hM).1 hj
    omega
  | succ fuel ih =>
    intro j ts hj hfuel
    have hjK := (mul_lt_iff_lt_chunk_count _ _ j hM).1 hj
    have hK : chunk_count (getMaxPacketSize env) p.length - j
        = (chunk_count (getMaxPacketSize env) p.length - (j + 1)) + 1 := by omega
    have hrem : p.length - j * getMaxPacketSize env > 0 := by omega
    rw [hK, List.range'_succ, List.map_cons]
    simp only [sendPacketLarge_loop, send_in_order, hrem, if_true, loop_frame_eq _ c j p hj,
      Bool.true_and]
    cases hr : (friend_send_packet_lossless env ts fr (fragment (getMaxPacketSize env) c p j)).1
    · simp
    · simp only [Bool.not_true, Bool.false_eq_true, if_false, if_true]
      by_cases hlast : p.length - j * getMaxPacketSize env ≤ getMaxPacketSize env
      · have h0 : p.length - j * getMaxPacketSize env
            - min (p.length - j * getMaxPacketSize env) (getMaxPacketSize env) = 0 := by
          rw [Nat.min_eq_left hlast]; omega
        have hnot : ¬ ((j + 1) * getMaxPacketSize env < p.length) := by
          rw [Nat.succ_mul]; omega
        have hK2 : chunk_count (getMaxPacketSize env) p.length - (j + 1) = 0 := by
          have := (mul_lt_iff_lt_chunk_count _ p.length (j + 1) hM).not.1 hnot
          omega
        rw [h0, hK2, sendPacketLarge_loop_zero]
        simp [send_in_order]
      · have hlt : (j + 1) * getMaxPacketSize env < p.length := by
          rw [Nat.succ_mul]; omega
        have hsub : p.length - j * getMaxPacketSize env
            - min (p.length - j * getMaxPacketSize env) (getMaxPacketSize env)
            = p.length - (j + 1) * getMaxPacketSize env := by
          rw [Nat.min_eq_right (by omega), Nat.succ_mul]; omega
        rw [hsub]
        exact ih (j + 1) _ hlt (by omega)

/-! ## Sending fragments in order -/

/-- When tox accepts each of the fragments `j, ..., j + cnt - 1`, all of them are sent. -/
theorem send_in_order_all (env : Env) (fr M c : Nat) (p : List Nat) (hc : c < 10) :
    ∀ (cnt j : Nat) (ts : ToxService),
      (∀ i, i < cnt →
        env.tox_friend_send_lossless_packet (ts.sends.length + i) fr (fragment M c p (j + i))
          = true) →
      send_in_order env fr ((List.range' j cnt).map (fragment M c p)) ts =
        (true, { ts with sends := ts.sends ++
          (List.range' j cnt).map (fun i => ⟨true, fr, fragment M c p i, true, true⟩) }) := by
  intro cnt
  induction cnt with
  | zero => intro j ts _; simp [send_in_order]
  | succ cnt ih =>
    intro j ts h
    have h0 := h 0 (by omega)
    simp only [Nat.add_zero] at h0
    rw [List.range'_succ, List.map_cons, List.map_cons]
    simp only [send_in_order, friend_send_packet_lossless_fragment env ts fr M c j p hc, h0,
      if_true]
    rw [ih (j + 1) _ (by
      intro i hi
      have := h (i + 1) (by omega)
      simpa [ToxService.record, Nat.add_assoc, Nat.add_comm 1 i] using this)]
    simp [ToxService.record]

/-- When tox accepts the fragments `j, ..., j + k - 1` and refuses fragment `j + k`, the
sends stop with the refused one. -/
theorem send_in_order_fail (env : Env) (fr M c : Nat) (p : List Nat) (hc : c < 10) :
    ∀ (k cnt j : Nat) (ts : ToxService), k < cnt →
      (∀ i, i < k →
        env.tox_friend_send_lossless_packet (ts.sends.length + i) fr (fragment M c p (j + i))
          = true) →
      env.tox_friend_send_lossless_packet (ts.sends.length + k) fr (fragment M c p (j + k))
          = false →
      send_in_order env fr ((List.range' j cnt).map (fragment M c p)) ts =
        (false, { ts with sends := ts.sends ++
          ((List.range' j k).map (fun i => ⟨true, fr, fragment M c p i, true, true⟩)
            ++ [⟨true, fr, fragment M c p (j + k), true, false⟩]) }) := by
  intro k
  induction k with
  | zero =>
    intro cnt j ts hk _ hf
    obtain ⟨cnt, rfl⟩ : ∃ n, cnt = n + 1 := ⟨cnt - 1, by omega⟩
    simp only [Nat.add_zero] at hf
    rw [List.range'_succ, List.map_cons]
    simp [send_in_order, friend_send_packet_lossless_fragment env ts fr M c j p hc, hf,
      ToxService.record]
  | succ k ih =>
    intro cnt j ts hk h hf
    obtain ⟨cnt, rfl⟩ : ∃ n, cnt = n + 1 := ⟨cnt - 1, by omega⟩
    have h0 := h 0 (by omega)
    simp only [Nat.add_zero] at h0
    rw [List.range'_succ, List.map_cons, List.range'_succ, List.map_cons]
    simp only [send_in_order, friend_send_packet_lossless_fragment env ts fr M c j p hc, h0,
      if_true]
    rw [ih cnt (j + 1) _ (by omega) (by
      intro i hi
      have := h (i + 1) (by omega)
      simpa [ToxService.record, Nat.add_assoc, Nat.add_comm 1 i] using this) (by
      simpa [ToxService.record, Nat.add_assoc, Nat.add_comm 1 k] using hf)]
    simp [ToxService.record, Nat.add_assoc, Nat.add_comm 1 k]

/-! ## The receive callbacks -/

theorem to_channel_id_base (env : Env) (base c : Nat) (hc : c < 10) :
    to_channel_id env (base + c) base = c := by
  unfold to_channel_id
  have h1 : ((base + c : Nat) : Int) - (base : Int) = (c : Int) := by push_cast; ring
  have h2 : (256 : Nat) ≤ 2 ^ (8 * env.sizeof_channel_id) := by
    have := env.sizeof_channel_id_pos
    calc (256 : Nat) = 2 ^ 8 := by norm_num
      _ ≤ 2 ^ (8 * env.sizeof_channel_id) := Nat.pow_le_pow_right (by norm_num) (by omega)
  have h3 : (c : Int) % 2 ^ (8 * env.sizeof_channel_id) = (c : Int) := by
    apply Int.emod_eq_of_lt (by omega)
    have : (c : Int) < ((2 ^ (8 * env.sizeof_channel_id) : Nat) : Int) := by
      exact_mod_cast (by omega : c < 2 ^ (8 * env.sizeof_channel_id))
    simpa using this
  rw [h1, h3]
  simp

theorem lossless_packet_fn_standalone (env : Env) (peer c : Nat) (hc : c < 10)
    (st : ToxNetChanneled) (b : Nat) (payload : List Nat) :
    lossless_packet_fn env peer st ((161 + c) :: 0 :: b :: payload) =
      { st with _packets := packets_emplace_back st._packets peer ⟨c, hc⟩ (b :: payload) } := by
  have hch := to_channel_id_base env 161 c hc
  have hn : ¬ 10 ≤ c := by omega
  have l2 : ¬ (payload.length + 1 + 1 + 1 < 2) := by omega
  have l3 : ¬ (payload.length + 1 + 1 + 1 < 3) := by omega
  simp [lossless_packet_fn, hch, hn, l2, l3]

theorem lossless_packet_fn_part (env : Env) (peer c : Nat) (hc : c < 10)
    (st : ToxNetChanneled) (b : Nat) (payload : List Nat) :
    lossless_packet_fn env peer st ((161 + c) :: 1 :: b :: payload) =
      { st with _large_packets_buffer :=
          (map_modify (fun _ => [])
            (fun arr => Function.update arr ⟨c, hc⟩ (arr ⟨c, hc⟩ ++ (b :: payload)))
            st._large_packets_buffer peer) } := by
  have hch := to_channel_id_base env 161 c hc
  have hn : ¬ 10 ≤ c := by omega
  have l2 : ¬ (payload.length + 1 + 1 + 1 < 2) := by omega
  have l3 : ¬ (payload.length + 1 + 1 + 1 < 3) := by omega
  simp [lossless_packet_fn, hch, hn, l2, l3]

theorem lossless_packet_fn_last (env : Env) (peer c : Nat) (hc : c < 10)
    (st : ToxNetChanneled) (b : Nat) (payload : List Nat) :
    lossless_packet_fn env peer st ((161 + c) :: 2 :: b :: payload) =
      { st with
        _packets := (packets_emplace_back st._packets peer ⟨c, hc⟩
          (FragmentBuffer st peer ⟨c, hc⟩ ++ (b :: payload)))
        _large_packets_buffer :=
          (map_modify (fun _ => []) (fun arr => Function.update arr ⟨c, hc⟩ [])
            (map_modify (fun _ => [])
              (fun arr => Function.update arr ⟨c, hc⟩ (arr ⟨c, hc⟩ ++ (b :: payload)))
              st._large_packets_buffer peer) peer) } := by
  have hch := to_channel_id_base env 161 c hc
  have hn : ¬ 10 ≤ c := by omega
  have l2 : ¬ (payload.length + 1 + 1 + 1 < 2) := by omega
  have l3 : ¬ (payload.length + 1 + 1 + 1 < 3) := by omega
  simp [lossless_packet_fn, hch, hn, l2, l3, FragmentBuffer, map_get_modify_same]

theorem map_get_modify_update {β : Type} (dflt : Fin 10 → β) (g : β → β)
    (m : List (Nat × (Fin 10 → β))) (peer q : Nat) (ch d : Fin 10) :
    map_get dflt (map_modify dflt (fun arr => Function.update arr ch (g (arr ch))) m peer) q d
      = if q = peer ∧ d = ch then g (map_get dflt m peer ch) else map_get dflt m q d := by
  by_cases hq : q = peer
  · subst hq
    rw [map_get_modify_same]
    by_cases hd : d = ch
    · subst hd; simp
    · simp [hd, Function.update_noteq hd]
  · rw [map_get_modify_ne _ _ _ _ _ hq]
    simp [hq]

/-- Whatever the packet, the callback of the lossless queue leaves the service, the peer
list and the channel types alone. -/
theorem lossless_packet_fn_fields (env : Env) (peer : Nat) (st : ToxNetChanneled)
    (pk : List Nat) :
    (lossless_packet_fn env peer st pk)._tox_service = st._tox_service ∧
    (lossless_packet_fn env peer st pk)._peer_list = st._peer_list ∧
    (lossless_packet_fn env peer st pk)._c_type_arr = st._c_type_arr := by
  unfold lossless_packet_fn
  split_ifs <;> simp
  all_goals split_ifs <;> simp

/-- Whatever the packet, the callback of the lossy queue leaves the service, the peer
list and the channel types alone. -/
theorem lossy_packet_fn_fields (env : Env) (peer : Nat) (st : ToxNetChanneled)
    (pk : List Nat) :
    (lossy_packet_fn env peer st pk)._tox_service = st._tox_service ∧
    (lossy_packet_fn env peer st pk)._peer_list = st._peer_list ∧
    (lossy_packet_fn env peer st pk)._c_type_arr = st._c_type_arr := by
  unfold lossy_packet_fn
  split_ifs <;> simp
  all_goals split_ifs <;> simp

/-- A lossless packet with marker 0 on channel `c`: the payload is appended to the Inbox
bucket, nothing else changes. -/
theorem lossless_step_standalone (env : Env) (peer c : Nat) (hc : c < 10)
    (st : ToxNetChanneled) (b : Nat) (payload : List Nat) :
    Inbox (lossless_packet_fn env peer st ((161 + c) :: 0 :: b :: payload)) peer ⟨c, hc⟩
        = Inbox st peer ⟨c, hc⟩ ++ [b :: payload] ∧
    FragmentBuffer (lossless_packet_fn env peer st ((161 + c) :: 0 :: b :: payload)) peer ⟨c, hc⟩
        = FragmentBuffer st peer ⟨c, hc⟩ ∧
    same_except st (lossless_packet_fn env peer st ((161 + c) :: 0 :: b :: payload)) peer
      ⟨c, hc⟩ := by
  rw [lossless_packet_fn_standalone env peer c hc]
  refine ⟨?_, rfl, rfl, rfl, rfl, ?_⟩
  · simp [Inbox, packets_emplace_back,
      map_get_modify_update (fun _ => []) (fun l => l ++ [b :: payload])]
  · intro q d h
    refine ⟨?_, rfl⟩
    have hne : ¬ (q = peer ∧ d = ⟨c, hc⟩) := by tauto
    simp [Inbox, packets_emplace_back,
      map_get_modify_update (fun _ => []) (fun l => l ++ [b :: payload]), hne]

/-- A lossless packet with marker 1 on channel `c`: the payload is appended to the
FragmentBuffer, nothing else changes. -/
theorem lossless_step_part (env : Env) (peer c : Nat) (hc : c < 10)
    (st : ToxNetChanneled) (b : Nat) (payload : List Nat) :
    Inbox (lossless_packet_fn env peer st ((161 + c) :: 1 :: b :: payload)) peer ⟨c, hc⟩
        = Inbox st peer ⟨c, hc⟩ ∧
    FragmentBuffer (lossless_packet_fn env peer st ((161 + c) :: 1 :: b :: payload)) peer ⟨c, hc⟩
        = FragmentBuffer st peer ⟨c, hc⟩ ++ (b :: payload) ∧
    same_except st (lossless_packet_fn env peer st ((161 + c) :: 1 :: b :: payload)) peer
      ⟨c, hc⟩ := by
  rw [lossless_packet_fn_part env peer c hc]
  refine ⟨rfl, ?_, rfl, rfl, rfl, ?_⟩
  · simp [FragmentBuffer,
      map_get_modify_update (fun _ => []) (fun l => l ++ (b :: payload))]
  · intro q d h
    refine ⟨rfl, ?_⟩
    have hne : ¬ (q = peer ∧ d = ⟨c, hc⟩) := by tauto
    simp [FragmentBuffer,
      map_get_modify_update (fun _ => []) (fun l => l ++ (b :: payload)), hne]

/-- A lossless packet with marker 2 on channel `c`: the FragmentBuffer followed by the
payload becomes one new Inbox entry and the FragmentBuffer is left empty. -/
theorem lossless_step_last (env : Env) (peer c : Nat) (hc : c < 10)
    (st : ToxNetChanneled) (b : Nat) (payload : List Nat) :
    Inbox (lossless_packet_fn env peer st ((161 + c) :: 2 :: b :: payload)) peer ⟨c, hc⟩
        = Inbox st peer ⟨c, hc⟩ ++ [FragmentBuffer st peer ⟨c, hc⟩ ++ (b :: payload)] ∧
    FragmentBuffer (lossless_packet_fn env peer st ((161 + c) :: 2 :: b :: payload)) peer ⟨c, hc⟩
        = [] ∧
    same_except st (lossless_packet_fn env peer st ((161 + c) :: 2 :: b :: payload)) peer
      ⟨c, hc⟩ := by
  rw [lossless_packet_fn_last env peer c hc]
  refine ⟨?_, ?_, rfl, rfl, rfl, ?_⟩
  · simp [Inbox, packets_emplace_back,
      map_get_modify_update (fun _ => [])
        (fun l => l ++ [FragmentBuffer st peer ⟨c, hc⟩ ++ (b :: payload)])]
  · simp [FragmentBuffer,
      map_get_modify_update (fun _ => []) (fun _ => ([] : List Nat))]
  · intro q d h
    have hne : ¬ (q = peer ∧ d = ⟨c, hc⟩) := by tauto
    constructor
    · simp [Inbox, packets_emplace_back,
        map_get_modify_update (fun _ => [])
          (fun l => l ++ [FragmentBuffer st peer ⟨c, hc⟩ ++ (b :: payload)]), hne]
    · simp [FragmentBuffer,
        map_get_modify_update (fun _ => []) (fun _ => ([] : List Nat)),
        map_get_modify_update (fun _ => []) (fun l => l ++ (b :: payload)), hne]

/-! ## Reassembly of the fragments of a payload -/

theorem same_except_refl (st : ToxNetChanneled) (peer : Nat) (ch : Fin 10) :
    same_except st st peer ch :=
  ⟨rfl, rfl, rfl, fun _ _ _ => ⟨rfl, rfl⟩⟩

theorem same_except_trans {st st1 st2 : ToxNetChanneled} {peer : Nat} {ch : Fin 10}
    (h1 : same_except st st1 peer ch) (h2 : same_except st1 st2 peer ch) :
    same_except st st2 peer ch := by
  obtain ⟨a1, b1, c1, d1⟩ := h1
  obtain ⟨a2, b2, c2, d2⟩ := h2
  refine ⟨a2.trans a1, b2.trans b1, c2.trans c1, ?_⟩
  intro q d h
  exact ⟨((d2 q d h).1).trans (d1 q d h).1, ((d2 q d h).2).trans (d1 q d h).2⟩

/-- A chunk before the last one: marker 1 and exactly `M` bytes of payload. -/
theorem fragment_mid (M c j : Nat) (p : List Nat) (hc : c < 10) (hM : 1 ≤ M)
    (h : (j + 1) * M < p.length) :
    ∃ b rest, fragment M c p j = (161 + c) :: 1 :: b :: rest ∧
      b :: rest = (p.drop (j * M)).take M ∧ (b :: rest).length = M := by
  rw [Nat.succ_mul] at h
  have hlen : ((p.drop (j * M)).take M).length = M := by
    rw [List.length_take, List.length_drop]; omega
  have hnot : ¬ p.length ≤ (j + 1) * M := by rw [Nat.succ_mul]; omega
  cases hx : (p.drop (j * M)).take M with
  | nil => rw [hx] at hlen; simp at hlen; omega
  | cons b rest =>
    refine ⟨b, rest, ?_, rfl, ?_⟩
    · simp [fragment, hx, hnot, channel_byte_lossless c hc]
    · rw [← hx]; exact hlen

/-- The last chunk: marker 2 and the rest of the payload, at least 1 and at most `M`
bytes. -/
theorem fragment_last (M c j : Nat) (p : List Nat) (hc : c < 10)
    (h1 : j * M < p.length) (h2 : p.length ≤ (j + 1) * M) :
    ∃ b rest, fragment M c p j = (161 + c) :: 2 :: b :: rest ∧
      b :: rest = p.drop (j * M) ∧ (b :: rest).length = p.length - j * M := by
  have hM : p.length - j * M ≤ M := by rw [Nat.succ_mul] at h2; omega
  have htake : (p.drop (j * M)).take M = p.drop (j * M) :=
    List.take_of_length_le (by simpa using hM)
  cases hx : p.drop (j * M) with
  | nil =>
    have := congrArg List.length hx
    simp at this; omega
  | cons b rest =>
    refine ⟨b, rest, ?_, rfl, ?_⟩
    · unfold fragment
      rw [htake, hx, channel_byte_lossless c hc]
      simp [h2]
    · rw [← hx]; simp

/-- Ingesting the fragments `j, ..., (last)` of a payload, in order: the FragmentBuffer
followed by the bytes of the payload from `j * M` on becomes one new Inbox entry, the
FragmentBuffer is left empty, nothing else changes. -/
theorem ingest_fragments (env : Env) (peer c : Nat) (hc : c < 10) (M : Nat) (p : List Nat)
    (hM : 1 ≤ M) :
    ∀ (cnt j : Nat) (st : ToxNetChanneled), j + cnt + 1 = chunk_count M p.length →
      Inbox (((List.range' j (cnt + 1)).map (fragment M c p)).foldl
          (lossless_packet_fn env peer) st) peer ⟨c, hc⟩
        = Inbox st peer ⟨c, hc⟩ ++ [FragmentBuffer st peer ⟨c, hc⟩ ++ p.drop (j * M)] ∧
      FragmentBuffer (((List.range' j (cnt + 1)).map (fragment M c p)).foldl
          (lossless_packet_fn env peer) st) peer ⟨c, hc⟩ = [] ∧
      same_except st (((List.range' j (cnt + 1)).map (fragment M c p)).foldl
          (lossless_packet_fn env peer) st) peer ⟨c, hc⟩ := by
  intro cnt
  induction cnt with
  | zero =>
    intro j st hK
    have h1 : j * M < p.length := (mul_lt_iff_lt_chunk_count M _ j hM).2 (by omega)
    have h2 : p.length ≤ (j + 1) * M := by
      have := (mul_lt_iff_lt_chunk_count M p.length (j + 1) hM).not.2 (by omega)
      omega
    obtain ⟨b, rest, hf, hpl, _⟩ := fragment_last M c j p hc h1 h2
    simp only [Nat.zero_add, List.range'_one, List.map_cons, List.map_nil, List.foldl_cons,
      List.foldl_nil, hf]
    rw [← hpl]
    exact lossless_step_last env peer c hc st b rest
  | succ cnt ih =>
    intro j st hK
    have h1 : (j + 1) * M < p.length := (mul_lt_iff_lt_chunk_count M _ (j + 1) hM).2 (by omega)
    obtain ⟨b, rest, hf, hpl, _⟩ := fragment_mid M c j p hc hM h1
    rw [List.range'_succ, List.map_cons, List.foldl_cons, hf]
    obtain ⟨s1, s2, s3⟩ := lossless_step_part env peer c hc st b rest
    obtain ⟨i1, i2, i3⟩ := ih (j + 1) (lossless_packet_fn env peer st ((161 + c) :: 1 :: b :: rest))
      (by omega)
    refine ⟨?_, i2, same_except_trans s3 i3⟩
    rw [i1, s1, s2, hpl, List.append_assoc]
    have hd : (p.drop (j * M)).take M ++ p.drop ((j + 1) * M) = p.drop (j * M) := by
      have := List.take_append_drop M (p.drop (j * M))
      rw [List.drop_drop] at this
      rw [Nat.succ_mul]
      exact this
    rw [hd]

/-! ## The receive queues and pull_fresh_packages -/

theorem friend_packet_each_eq {σ : Type} (ts : ToxService) (fr : Nat) (fn : σ → List Nat → σ)
    (s : σ) : friend_packet_each ts fr fn s = (lossy_queue ts fr).foldl fn s := by
  unfold friend_packet_each lossy_queue
  cases h : map_contains ts._tox_friends fr with
  | true => simp
  | false => simp [map_get_of_not_contains _ _ _ h, ToxFriend.empty]

theorem friend_packet_each_lossless_eq {σ : Type} (ts : ToxService) (fr : Nat)
    (fn : σ → List Nat → σ) (s : σ) :
    friend_packet_each_lossless ts fr fn s = (lossless_queue ts fr).foldl fn s := by
  unfold friend_packet_each_lossless lossless_queue
  cases h : map_contains ts._tox_friends fr with
  | true => simp
  | false => simp [map_get_of_not_contains _ _ _ h, ToxFriend.empty]

theorem foldl_lossless_packet_fn_fields (env : Env) (peer : Nat) (l : List (List Nat)) :
    ∀ st : ToxNetChanneled,
      (l.foldl (lossless_packet_fn env peer) st)._tox_service = st._tox_service ∧
      (l.foldl (lossless_packet_fn env peer) st)._peer_list = st._peer_list ∧
      (l.foldl (lossless_packet_fn env peer) st)._c_type_arr = st._c_type_arr := by
  induction l with
  | nil => intro st; exact ⟨rfl, rfl, rfl⟩
  | cons pk l ih =>
    intro st
    obtain ⟨a, b, c⟩ := ih (lossless_packet_fn env peer st pk)
    obtain ⟨a1, b1, c1⟩ := lossless_packet_fn_fields env peer st pk
    exact ⟨a.trans a1, b.trans b1, c.trans c1⟩

theorem foldl_lossy_packet_fn_fields (env : Env) (peer : Nat) (l : List (List Nat)) :
    ∀ st : ToxNetChanneled,
      (l.foldl (lossy_packet_fn env peer) st)._tox_service = st._tox_service ∧
      (l.foldl (lossy_packet_fn env peer) st)._peer_list = st._peer_list ∧
      (l.foldl (lossy_packet_fn env peer) st)._c_type_arr = st._c_type_arr := by
  induction l with
  | nil => intro st; exact ⟨rfl, rfl, rfl⟩
  | cons pk l ih =>
    intro st
    obtain ⟨a, b, c⟩ := ih (lossy_packet_fn env peer st pk)
    obtain ⟨a1, b1, c1⟩ := lossy_packet_fn_fields env peer st pk
    exact ⟨a.trans a1, b.trans b1, c.trans c1⟩

/-- The packets `pull_fresh_packages` ingests for one peer: its lossy queue, then its
lossless queue. -/
theorem pull_step_eq (env : Env) (s : ToxNetChanneled) (q : Nat) :
    friend_packet_each_lossless
        (friend_packet_each s._tox_service (toTox q) (lossy_packet_fn env q) s)._tox_service
        (toTox q) (lossless_packet_fn env q)
        (friend_packet_each s._tox_service (toTox q) (lossy_packet_fn env q) s)
      = (lossless_queue s._tox_service (toTox q)).foldl (lossless_packet_fn env q)
          ((lossy_queue s._tox_service (toTox q)).foldl (lossy_packet_fn env q) s) := by
  rw [friend_packet_each_lossless_eq, friend_packet_each_eq,
    (foldl_lossy_packet_fn_fields env q _ s).1]

/-- With the queues of all other peers of the list empty, `pull_fresh_packages` ingests
the two queues of the one peer, provided the list holds it exactly once. -/
theorem pull_fresh_packages_single (env : Env) (peer : Nat) (ts : ToxService) :
    ∀ (l : List Nat) (s : ToxNetChanneled), s._tox_service = ts → l.Nodup →
      (∀ q ∈ l, q ≠ peer → lossy_queue ts (toTox q) = [] ∧ lossless_queue ts (toTox q) = []) →
      l.foldl
        (fun s q =>
          friend_packet_each_lossless
            (friend_packet_each s._tox_service (toTox q) (lossy_packet_fn env q) s)._tox_service
            (toTox q) (lossless_packet_fn env q)
            (friend_packet_each s._tox_service (toTox q) (lossy_packet_fn env q) s)) s
      = if peer ∈ l then
          (lossless_queue ts (toTox peer)).foldl (lossless_packet_fn env peer)
            ((lossy_queue ts (toTox peer)).foldl (lossy_packet_fn env peer) s)
        else s := by
  intro l
  induction l with
  | nil => intro s _ _ _; simp
  | cons q l ih =>
    intro s hs hnd hq
    rw [List.foldl_cons, pull_step_eq, hs]
    have hnd2 := List.nodup_cons.1 hnd
    have hq2 : ∀ x ∈ l, x ≠ peer →
        lossy_queue ts (toTox x) = [] ∧ lossless_queue ts (toTox x) = [] :=
      fun x hx => hq x (List.mem_cons_of_mem _ hx)
    by_cases hqp : q = peer
    · subst hqp
      have hnot : q ∉ l := hnd2.1
      rw [ih _ (by
        rw [(foldl_lossless_packet_fn_fields env q _ _).1,
          (foldl_lossy_packet_fn_fields env q _ _).1, hs]) hnd2.2 hq2]
      simp [hnot]
    · obtain ⟨e1, e2⟩ := hq q (List.mem_cons_self _ _) hqp
      rw [e1, e2]
      simp only [List.foldl_nil]
      rw [ih s hs hnd2.2 hq2]
      have : (peer ∈ q :: l) ↔ (peer ∈ l) := by
        rw [List.mem_cons]
        constructor
        · rintro (h | h)
          · exact absurd h.symm hqp
          · exact h
        · exact Or.inr
      simp only [this]

theorem queues_empty_get (ts : ToxService) (h : queues_empty ts) (x : Nat) :
    lossy_queue ts x = [] ∧ lossless_queue ts x = [] := by
  unfold lossy_queue lossless_queue
  unfold queues_empty at h
  generalize ts._tox_friends = m at h
  induction m with
  | nil => simp [map_get, ToxFriend.empty]
  | cons e rest ih =>
    obtain ⟨k, v⟩ := e
    by_cases hk : k = x
    · simpa [map_get, hk] using h (k, v) (List.mem_cons_self _ _)
    · simpa [map_get, hk] using ih (fun e he => h e (List.mem_cons_of_mem _ he))

/-- The effect of the arrival of lossless packets, none of them an internal one (first
byte 160), on the queues. -/
theorem deliver_lossless_queues (fr : Nat) (frames : List (List Nat)) :
    ∀ ts : ToxService, (∀ f ∈ frames, f.head? ≠ some 160) →
      lossless_queue (frames.foldl (fun ts f => friend_lossless_packet_cb ts fr f) ts) fr
        = lossless_queue ts fr ++ frames ∧
      lossy_queue (frames.foldl (fun ts f => friend_lossless_packet_cb ts fr f) ts) fr
        = lossy_queue ts fr ∧
      ∀ x, x ≠ fr →
        lossless_queue (frames.foldl (fun ts f => friend_lossless_packet_cb ts fr f) ts) x
          = lossless_queue ts x ∧
        lossy_queue (frames.foldl (fun ts f => friend_lossless_packet_cb ts fr f) ts) x
          = lossy_queue ts x := by
  induction frames with
  | nil => intro ts _; simp
  | cons f frames ih =>
    intro ts h
    have hf : f.head? ≠ some 160 := h f (List.mem_cons_self _ _)
    obtain ⟨i1, i2, i3⟩ := ih (friend_lossless_packet_cb ts fr f)
      (fun g hg => h g (List.mem_cons_of_mem _ hg))
    rw [List.foldl_cons]
    refine ⟨?_, ?_, ?_⟩
    · rw [i1]
      simp [lossless_queue, friend_lossless_packet_cb, map_get_modify_same, hf]
    · rw [i2]
      simp [lossy_queue, friend_lossless_packet_cb, map_get_modify_same, hf]
    · intro x hx
      rw [(i3 x hx).1, (i3 x hx).2]
      simp [lossless_queue, lossy_queue, friend_lossless_packet_cb,
        map_get_modify_ne _ _ _ _ _ hx]

/-- The effect of the arrival of lossy packets on the queues. -/
theorem deliver_lossy_queues (fr : Nat) (frames : List (List Nat)) :
    ∀ ts : ToxService,
      lossy_queue (frames.foldl (fun ts f => friend_lossy_packet_cb ts fr f) ts) fr
        = lossy_queue ts fr ++ frames ∧
      lossless_queue (frames.foldl (fun ts f => friend_lossy_packet_cb ts fr f) ts) fr
        = lossless_queue ts fr ∧
      ∀ x, x ≠ fr →
        lossless_queue (frames.foldl (fun ts f => friend_lossy_packet_cb ts fr f) ts) x
          = lossless_queue ts x ∧
        lossy_queue (frames.foldl (fun ts f => friend_lossy_packet_cb ts fr f) ts) x
          = lossy_queue ts x := by
  induction frames with
  | nil => intro ts; simp
  | cons f frames ih =>
    intro ts
    obtain ⟨i1, i2, i3⟩ := ih (friend_lossy_packet_cb ts fr f)
    rw [List.foldl_cons]
    refine ⟨?_, ?_, ?_⟩
    · rw [i1]
      simp [lossy_queue, friend_lossy_packet_cb, map_get_modify_same]
    · rw [i2]
      simp [lossless_queue, friend_lossy_packet_cb, map_get_modify_same]
    · intro x hx
      rw [(i3 x hx).1, (i3 x hx).2]
      simp [lossless_queue, lossy_queue, friend_lossy_packet_cb,
        map_get_modify_ne _ _ _ _ _ hx]

/-- With all queues empty before and the peer known, lossless packets that arrive from
the peer and one run of `pull_fresh_packages` amount to the lossless callback on each of
the packets, in order. -/
theorem receive_lossless_eq (env : Env) (st : ToxNetChanneled) (peer : Nat)
    (frames : List (List Nat)) (hq : queues_empty st._tox_service) (hp : known_peer st peer)
    (hf : ∀ f ∈ frames, f.head? ≠ some 160) :
    receive_lossless env st (toTox peer) frames =
      frames.foldl (lossless_packet_fn env peer)
        { st with _tox_service :=
            (frames.foldl (fun ts f => friend_lossless_packet_cb ts (toTox peer) f)
              st._tox_service) } := by
  obtain ⟨hmem, hnd, hinj⟩ := hp
  obtain ⟨d1, d2, d3⟩ := deliver_lossless_queues (toTox peer) frames st._tox_service hf
  unfold receive_lossless pull_fresh_packages
  rw [pull_fresh_packages_single env peer _ _ _ rfl hnd]
  · simp only [hmem, if_true]
    rw [d1, d2, (queues_empty_get _ hq _).1, (queues_empty_get _ hq _).2]
    simp
  · intro q hql hqp
    have hne : toTox q ≠ toTox peer := fun h => hqp (hinj q hql h)
    rw [(d3 _ hne).1, (d3 _ hne).2]
    exact ⟨(queues_empty_get _ hq _).1, (queues_empty_get _ hq _).2⟩

/-- With all queues empty before and the peer known, lossy packets that arrive from the
peer and one run of `pull_fresh_packages` amount to the lossy callback on each of the
packets, in order. -/
theorem receive_lossy_eq (env : Env) (st : ToxNetChanneled) (peer : Nat)
    (frames : List (List Nat)) (hq : queues_empty st._tox_service) (hp : known_peer st peer) :
    receive_lossy env st (toTox peer) frames =
      frames.foldl (lossy_packet_fn env peer)
        { st with _tox_service :=
            (frames.foldl (fun ts f => friend_lossy_packet_cb ts (toTox peer) f)
              st._tox_service) } := by
  obtain ⟨hmem, hnd, hinj⟩ := hp
  obtain ⟨d1, d2, d3⟩ := deliver_lossy_queues (toTox peer) frames st._tox_service
  unfold receive_lossy pull_fresh_packages
  rw [pull_fresh_packages_single env peer _ _ _ rfl hnd]
  · simp only [hmem, if_true]
    rw [d1, d2, (queues_empty_get _ hq _).1, (queues_empty_get _ hq _).2]
    simp
  · intro q hql hqp
    have hne : toTox q ≠ toTox peer := fun h => hqp (hinj q hql h)
    rw [(d3 _ hne).1, (d3 _ hne).2]
    exact ⟨(queues_empty_get _ hq _).1, (queues_empty_get _ hq _).2⟩

/-! ## sendPacket and sendPacketLarge -/

/-- On a LOSSLESS channel, a payload longer than `getMaxPacketSize()` is sent as its
fragments, in order, up to the first failing send; the loop returns within
`chunk_count` iterations. -/
theorem sendPacketLarge_large_eq (env : Env) (st : ToxNetChanneled) (peer c fuel : Nat)
    (p : List Nat) (hc : c < 10) (hl : st._c_type_arr ⟨c, hc⟩ = channel_type.LOSSLESS)
    (hM : 1 ≤ getMaxPacketSize env) (hp : getMaxPacketSize env < p.length)
    (hfuel : chunk_count (getMaxPacketSize env) p.length ≤ fuel) :
    sendPacketLarge fuel env st peer c (some p) =
      some ((send_in_order env (toTox peer) (fragments (getMaxPacketSize env) c p)
              st._tox_service).1,
            { st with _tox_service :=
                (send_in_order env (toTox peer) (fragments (getMaxPacketSize env) c p)
                  st._tox_service).2 }) := by
  have hn : ¬ c ≥ 10 := by omega
  have h1 : ¬ p.length < 1 := by omega
  have h2 : ¬ p.length ≤ getMaxPacketSize env := by omega
  have hloop := sendPacketLarge_loop_eq env (toTox peer) c p hM fuel 0 st._tox_service
    (by omega) (by omega)
  simp only [Nat.zero_mul, Nat.sub_zero] at hloop
  unfold sendPacketLarge
  simp only [hn, dite_false, h1, if_false, hl, ne_eq, not_true_eq_false, h2, hloop,
    Option.map_some', fragments, List.range_eq_range']

theorem new_sends_append (ts : ToxService) (l : List SendCall) :
    new_sends ts { ts with sends := ts.sends ++ l } = l := by
  simp [new_sends]

theorem new_sends_record (ts : ToxService) (call : SendCall) :
    new_sends ts (ts.record call) = [call] := by
  simp [new_sends, ToxService.record]

/-! ## sendPacket -/

/-- Each call of `friend_send_packet_lossless` puts exactly one entry on record, with the
arguments and the returned value of the call. -/
theorem friend_send_packet_lossless_record (env : Env) (ts : ToxService) (fr : Nat)
    (mem : List Nat) :
    ∃ fwd, (friend_send_packet_lossless env ts fr mem).2 =
      ts.record ⟨true, fr, mem, fwd, (friend_send_packet_lossless env ts fr mem).1⟩ := by
  unfold friend_send_packet_lossless
  cases mem with
  | nil => exact ⟨false, rfl⟩
  | cons b rest =>
    by_cases h : b < 160 ∨ b > 191
    · exact ⟨false, by simp [h]⟩
    · exact ⟨true, by simp [h]⟩

/-- Each call of `friend_send_packet` puts exactly one entry on record, with the
arguments and the returned value of the call. -/
theorem friend_send_packet_record (env : Env) (ts : ToxService) (fr : Nat)
    (mem : List Nat) :
    ∃ fwd, (friend_send_packet env ts fr mem).2 =
      ts.record ⟨false, fr, mem, fwd, (friend_send_packet env ts fr mem).1⟩ := by
  unfold friend_send_packet
  cases mem with
  | nil => exact ⟨false, rfl⟩
  | cons b rest =>
    by_cases h : b < 200 ∨ b > 254
    · exact ⟨false, by simp [h]⟩
    · exact ⟨true, by simp [h]⟩

/-- The configuration errors of `sendPacket`: nothing is sent, nothing changes. -/
theorem sendPacket_reject (env : Env) (st : ToxNetChanneled) (peer c : Nat)
    (data : Option (List Nat)) (h : 10 ≤ c ∨ data = none ∨ data = some []) :
    sendPacket env st peer c data = (false, st) := by
  unfold sendPacket
  by_cases hc : c ≥ 10
  · simp [hc]
  · rcases h with h | h | h
    · exact absurd h hc
    · subst h; simp
    · subst h; simp

/-- The function `sendPacket` on a LOSSLESS channel: one call of
`friend_send_packet_lossless` with the frame `161 + c`, `0`, payload. -/
theorem sendPacket_lossless_eq (env : Env) (st : ToxNetChanneled) (peer c : Nat)
    (p : List Nat) (hc : c < 10) (hl : st._c_type_arr ⟨c, hc⟩ = channel_type.LOSSLESS)
    (hp : p ≠ []) :
    sendPacket env st peer c (some p) =
      ((friend_send_packet_lossless env st._tox_service (toTox peer)
          ((161 + c) :: 0 :: p)).1,
        { st with _tox_service :=
            (friend_send_packet_lossless env st._tox_service (toTox peer)
              ((161 + c) :: 0 :: p)).2 }) := by
  have hn : ¬ c ≥ 10 := by omega
  have h1 : ¬ p.length < 1 := by
    cases p with
    | nil => exact absurd rfl hp
    | cons _ _ => simp
  unfold sendPacket
  simp only [hn, dite_false, h1, if_false, hl, if_true, channel_byte_lossless c hc,
    List.cons_append, List.nil_append]

/-- The function `sendPacket` on a LOSSY channel: one call of `friend_send_packet` with
the frame `192 + c`, `0`, payload. -/
theorem sendPacket_lossy_eq (env : Env) (st : ToxNetChanneled) (peer c : Nat)
    (p : List Nat) (hc : c < 10) (hl : st._c_type_arr ⟨c, hc⟩ = channel_type.LOSSY)
    (hp : p ≠ []) :
    sendPacket env st peer c (some p) =
      ((friend_send_packet env st._tox_service (toTox peer) ((192 + c) :: 0 :: p)).1,
        { st with _tox_service :=
            (friend_send_packet env st._tox_service (toTox peer) ((192 + c) :: 0 :: p)).2 }) := by
  have hn : ¬ c ≥ 10 := by omega
  have h1 : ¬ p.length < 1 := by
    cases p with
    | nil => exact absurd rfl hp
    | cons _ _ => simp
  have hne : ¬ (channel_type.LOSSY = channel_type.LOSSLESS) := by decide
  unfold sendPacket
  simp only [hn, dite_false, h1, if_false, hl, hne, channel_byte_lossy c hc,
    List.cons_append, List.nil_append]

/-- The sends of a `sendPacket` that passed the configuration checks: exactly one, of the
kind of the channel, with the frame and the result of `sendPacket`. -/
theorem sendPacket_new_sends (env : Env) (st : ToxNetChanneled) (peer c : Nat)
    (p : List Nat) (hc : c < 10) (hp : p ≠ []) :
    ∃ fwd, new_sends st._tox_service (sendPacket env st peer c (some p)).2._tox_service =
      [⟨decide (st._c_type_arr ⟨c, hc⟩ = channel_type.LOSSLESS), toTox peer,
        (if st._c_type_arr ⟨c, hc⟩ = channel_type.LOSSLESS then 161 + c else 192 + c) :: 0 :: p,
        fwd, (sendPacket env st peer c (some p)).1⟩] := by
  cases hl : st._c_type_arr ⟨c, hc⟩ with
  | LOSSLESS =>
    rw [sendPacket_lossless_eq env st peer c p hc hl hp]
    obtain ⟨fwd, h⟩ := friend_send_packet_lossless_record env st._tox_service (toTox peer)
      ((161 + c) :: 0 :: p)
    exact ⟨fwd, by simp only [h, new_sends_record]; simp⟩
  | LOSSY =>
    rw [sendPacket_lossy_eq env st peer c p hc hl hp]
    obtain ⟨fwd, h⟩ := friend_send_packet_record env st._tox_service (toTox peer)
      ((192 + c) :: 0 :: p)
    exact ⟨fwd, by simp only [h, new_sends_record]; simp⟩

/-- Whatever the iteration bound, the answers of tox and the value of
`getMaxPacketSize()`: when the loop of `sendPacketLarge` returns, the calls it has put on
record are lossless sends of frames that start with the byte of the channel. -/
theorem sendPacketLarge_loop_sends (env : Env) (fr c : Nat) (d : List Nat) :
    ∀ (fuel rem : Nat) (succ : Bool) (ts : ToxService) (r : Bool × ToxService),
      sendPacketLarge_loop env fr c d fuel rem succ ts = some r →
      ∃ extra, r.2 = { ts with sends := ts.sends ++ extra } ∧
        ∀ call ∈ extra, call.lossless = true ∧ ∃ rest, call.mem = ((161 + c) % 256) :: rest := by
  intro fuel
  induction fuel with
  | zero =>
    intro rem succ ts r h
    by_cases hrem : rem > 0
    · simp [sendPacketLarge_loop, hrem] at h
    · simp only [sendPacketLarge_loop, hrem, if_false, Option.some.injEq] at h
      exact ⟨[], by rw [← h]; simp, by simp⟩
  | succ fuel ih =>
    intro rem succ ts r h
    by_cases hrem : rem > 0
    · simp only [sendPacketLarge_loop, hrem, if_true] at h
      obtain ⟨fwd, hrec⟩ := friend_send_packet_lossless_record env ts fr
        ([(161 + c) % 256, if rem ≤ getMaxPacketSize env then 2 else 1]
          ++ (d.drop (d.length - rem)).take (min rem (getMaxPacketSize env)))
      have hhead : ∃ rest, ([(161 + c) % 256, if rem ≤ getMaxPacketSize env then 2 else 1]
          ++ (d.drop (d.length - rem)).take (min rem (getMaxPacketSize env)))
          = ((161 + c) % 256) :: rest := ⟨_, rfl⟩
      generalize ([(161 + c) % 256, if rem ≤ getMaxPacketSize env then 2 else 1]
          ++ (d.drop (d.length - rem)).take (min rem (getMaxPacketSize env))) = frame
        at h hrec hhead
      by_cases hstop : (!(succ && (friend_send_packet_lossless env ts fr frame).1)) = true
      · rw [if_pos hstop] at h
        simp only [Option.some.injEq] at h
        refine ⟨[⟨true, fr, frame, fwd, (friend_send_packet_lossless env ts fr frame).1⟩],
          ?_, ?_⟩
        · rw [← h]; exact hrec
        · intro call hcall
          rw [List.mem_singleton] at hcall
          subst hcall
          exact ⟨rfl, hhead⟩
      · rw [if_neg hstop] at h
        obtain ⟨extra, he, hall⟩ := ih _ _ _ _ h
        refine ⟨⟨true, fr, frame, fwd, (friend_send_packet_lossless env ts fr frame).1⟩
          :: extra, ?_, ?_⟩
        · rw [he, hrec]; simp [ToxService.record]
        · intro call hcall
          rcases List.mem_cons.1 hcall with hc1 | hc1
          · subst hc1; exact ⟨rfl, hhead⟩
          · exact hall call hc1
    · simp only [sendPacketLarge_loop, hrem, if_false, Option.some.injEq] at h
      exact ⟨[], by rw [← h]; simp, by simp⟩

/-! ## Single packets: what reaches the receiver -/

/-- On a channel `c < 8` configured LOSSY, `friend_send_packet` refuses the frame of
`sendPacket` (first byte `192 + c < 200`) without calling tox, whatever tox would answer:
`sendPacket` returns false. -/
theorem sendPacket_lossy_low_channel_rejected (env : Env) (st : ToxNetChanneled)
    (peer c : Nat) (p : List Nat) (hc : c < 10) (h8 : c < 8)
    (hl : st._c_type_arr ⟨c, hc⟩ = channel_type.LOSSY) (hp : p ≠ []) :
    (sendPacket env st peer c (some p)).1 = false ∧
      new_sends st._tox_service (sendPacket env st peer c (some p)).2._tox_service
        = [⟨false, toTox peer, (192 + c) :: 0 :: p, false, false⟩] := by
  rw [sendPacket_lossy_eq env st peer c p hc hl hp]
  have h : 192 + c < 200 ∨ 192 + c > 254 := by omega
  simp [friend_send_packet, h, new_sends_record]

/-- On a LOSSLESS channel `c < 10`, a payload that is not empty and that tox accepts
makes the round trip: `sendPacket` returns true, and the frame it sent, arriving at a
receiver with empty queues that knows the sender as `peer`, becomes with one run of
`pull_fresh_packages` exactly one new Inbox entry, equal to the payload. -/
theorem sendPacket_lossless_roundtrip (env renv : Env) (snd rcv : ToxNetChanneled)
    (dest peer c : Nat) (p : List Nat) (hc : c < 10)
    (hl : snd._c_type_arr ⟨c, hc⟩ = channel_type.LOSSLESS) (hp : p ≠ [])
    (hok : env.tox_friend_send_lossless_packet snd._tox_service.sends.length (toTox dest)
      ((161 + c) :: 0 :: p) = true)
    (hq : queues_empty rcv._tox_service) (hk : known_peer rcv peer) :
    (sendPacket env snd dest c (some p)).1 = true ∧
      Inbox (receive_lossless renv rcv (toTox peer)
          ((new_sends snd._tox_service
            (sendPacket env snd dest c (some p)).2._tox_service).map SendCall.mem))
          peer ⟨c, hc⟩
        = Inbox rcv peer ⟨c, hc⟩ ++ [p] := by
  rw [sendPacket_lossless_eq env snd dest c p hc hl hp,
    friend_send_packet_lossless_in_range env _ _ (161 + c) _ (by omega) (by omega), hok]
  refine ⟨rfl, ?_⟩
  simp only [new_sends_record, List.map_cons, List.map_nil]
  rw [receive_lossless_eq renv rcv peer _ hq hk (by
    intro f hf
    rw [List.mem_singleton] at hf
    subst hf
    simp only [List.head?_cons, ne_eq, Option.some.injEq]
    omega)]
  cases p with
  | nil => exact absurd rfl hp
  | cons b rest =>
    simp only [List.foldl_cons, List.foldl_nil]
    rw [(lossless_step_standalone renv peer c hc _ b rest).1]
    simp [Inbox]

theorem sendPacket_first_byte (env : Env) (st : ToxNetChanneled) (peer c : Nat)
    (data : Option (List Nat)) (hc : c < 10) :
    ∀ call ∈ new_sends st._tox_service (sendPacket env st peer c data).2._tox_service,
      ∃ b rest, call.mem = b :: rest ∧ b ≠ 160 ∧
        (call.lossless = true → 161 ≤ b ∧ b ≤ 170) ∧
        (call.lossless = false → 192 ≤ b ∧ b ≤ 201) := by
  intro call hcall
  by_cases hrej : 10 ≤ c ∨ data = none ∨ data = some []
  · rw [sendPacket_reject env st peer c data hrej] at hcall
    simp [new_sends] at hcall
  · cases data with
    | none => exact absurd (Or.inr (Or.inl rfl)) hrej
    | some p =>
      have hp : p ≠ [] := fun h => hrej (Or.inr (Or.inr (by rw [h])))
      obtain ⟨fwd, hs⟩ := sendPacket_new_sends env st peer c p hc hp
      rw [hs, List.mem_singleton] at hcall
      subst hcall
      cases hl : st._c_type_arr ⟨c, hc⟩ with
      | LOSSLESS =>
        refine ⟨161 + c, 0 :: p, by simp, by omega, fun _ => by omega, fun h => ?_⟩
        simp at h
      | LOSSY =>
        refine ⟨192 + c, 0 :: p, by simp, by omega, fun h => ?_, fun _ => by omega⟩
        simp at h

/-- A lossy packet of at least 3 bytes on channel `c`: the bytes after the first two are
appended to the Inbox bucket, whatever the second byte; nothing else changes. -/
theorem lossy_step (env : Env) (peer c : Nat) (hc : c < 10) (st : ToxNetChanneled)
    (m b : Nat) (payload : List Nat) :
    Inbox (lossy_packet_fn env peer st ((192 + c) :: m :: b :: payload)) peer ⟨c, hc⟩
        = Inbox st peer ⟨c, hc⟩ ++ [b :: payload] ∧
    FragmentBuffer (lossy_packet_fn env peer st ((192 + c) :: m :: b :: payload)) peer ⟨c, hc⟩
        = FragmentBuffer st peer ⟨c, hc⟩ ∧
    same_except st (lossy_packet_fn env peer st ((192 + c) :: m :: b :: payload)) peer
      ⟨c, hc⟩ := by
  have hch := to_channel_id_base env 192 c hc
  have hn : ¬ 10 ≤ c := by omega
  have l2 : ¬ (payload.length + 1 + 1 + 1 < 2) := by omega
  have l3 : ¬ (payload.length + 1 + 1 + 1 < 3) := by omega
  have hfn : lossy_packet_fn env peer st ((192 + c) :: m :: b :: payload) =
      { st with _packets := packets_emplace_back st._packets peer ⟨c, hc⟩ (b :: payload) } := by
    simp [lossy_packet_fn, hch, hn, l2, l3]
  rw [hfn]
  refine ⟨?_, rfl, rfl, rfl, rfl, ?_⟩
  · simp [Inbox, packets_emplace_back,
      map_get_modify_update (fun _ => []) (fun l => l ++ [b :: payload])]
  · intro q d h
    refine ⟨?_, rfl⟩
    have hne : ¬ (q = peer ∧ d = ⟨c, hc⟩) := by tauto
    simp [Inbox, packets_emplace_back,
      map_get_modify_update (fun _ => []) (fun l => l ++ [b :: payload]), hne]

/-- On the channels 8 and 9 configured LOSSY, a payload that is not empty and that tox
accepts makes the round trip: the frame starts with 200 or 201, passes the check of
`friend_send_packet`, and becomes exactly one new Inbox entry at the receiver. -/
theorem sendPacket_lossy_high_channel_roundtrip (env renv : Env) (snd rcv : ToxNetChanneled)
    (dest peer c : Nat) (p : List Nat) (hc : c < 10) (h8 : 8 ≤ c)
    (hl : snd._c_type_arr ⟨c, hc⟩ = channel_type.LOSSY) (hp : p ≠ [])
    (hok : env.tox_friend_send_lossy_packet snd._tox_service.sends.length (toTox dest)
      ((192 + c) :: 0 :: p) = true)
    (hq : queues_empty rcv._tox_service) (hk : known_peer rcv peer) :
    (sendPacket env snd dest c (some p)).1 = true ∧
      Inbox (receive_lossy renv rcv (toTox peer)
          ((new_sends snd._tox_service
            (sendPacket env snd dest c (some p)).2._tox_service).map SendCall.mem))
          peer ⟨c, hc⟩
        = Inbox rcv peer ⟨c, hc⟩ ++ [p] := by
  have hin : ¬ (192 + c < 200 ∨ 192 + c > 254) := by omega
  rw [sendPacket_lossy_eq env snd dest c p hc hl hp]
  simp only [friend_send_packet, hin, if_false, hok, new_sends_record, List.map_cons,
    List.map_nil]
  refine ⟨trivial, ?_⟩
  rw [receive_lossy_eq renv rcv peer _ hq hk]
  cases p with
  | nil => exact absurd rfl hp
  | cons b rest =>
    simp only [List.foldl_cons, List.foldl_nil]
    rw [(lossy_step renv peer c hc _ 0 b rest).1]
    simp [Inbox]

/-! ## Packets the receive callbacks drop -/

theorem channel_modulus_ge (env : Env) : (256 : Nat) ≤ 2 ^ (8 * env.sizeof_channel_id) := by
  have := env.sizeof_channel_id_pos
  calc (256 : Nat) = 2 ^ 8 := by norm_num
    _ ≤ 2 ^ (8 * env.sizeof_channel_id) := Nat.pow_le_pow_right (by norm_num) (by omega)

/-- The channel a first byte decodes to, for a byte at or above the base. -/
theorem to_channel_id_of_ge (env : Env) (b base : Nat) (hb : b < 256) (h : base ≤ b) :
    to_channel_id env b base = b - base := by
  unfold to_channel_id
  have hm := channel_modulus_ge env
  have h1 : ((b : Int) - (base : Int)) = ((b - base : Nat) : Int) := by omega
  have h3 : ((b - base : Nat) : Int) % 2 ^ (8 * env.sizeof_channel_id)
      = ((b - base : Nat) : Int) := by
    apply Int.emod_eq_of_lt (by omega)
    have : ((b - base : Nat) : Int) < ((2 ^ (8 * env.sizeof_channel_id) : Nat) : Int) := by
      exact_mod_cast (by omega : b - base < 2 ^ (8 * env.sizeof_channel_id))
    simpa using this
  rw [h1, h3]
  simp

/-- The channel a first byte below the base decodes to: the difference wraps around in
the unsigned type `channel_id`. -/
theorem to_channel_id_of_lt (env : Env) (b base : Nat) (hbase : base ≤ 256) (h : b < base) :
    to_channel_id env b base = 2 ^ (8 * env.sizeof_channel_id) - (base - b) := by
  unfold to_channel_id
  have hm := channel_modulus_ge env
  have hcast : ((2 : Int) ^ (8 * env.sizeof_channel_id))
      = ((2 ^ (8 * env.sizeof_channel_id) : Nat) : Int) := by push_cast; rfl
  have h1 : ((b : Int) - (base : Int)) % 2 ^ (8 * env.sizeof_channel_id)
      = ((b : Int) - (base : Int) + 2 ^ (8 * env.sizeof_channel_id))
        % 2 ^ (8 * env.sizeof_channel_id) := by
    rw [Int.add_emod_self]
  have h2 : ((b : Int) - (base : Int) + 2 ^ (8 * env.sizeof_channel_id))
      = ((2 ^ (8 * env.sizeof_channel_id) - (base - b) : Nat) : Int) := by
    rw [hcast]; omega
  rw [h1, h2]
  have h3 : ((2 ^ (8 * env.sizeof_channel_id) - (base - b) : Nat) : Int)
      % 2 ^ (8 * env.sizeof_channel_id)
      = ((2 ^ (8 * env.sizeof_channel_id) - (base - b) : Nat) : Int) := by
    apply Int.emod_eq_of_lt (by omega)
    rw [hcast]
    exact_mod_cast (by omega :
      2 ^ (8 * env.sizeof_channel_id) - (base - b) < 2 ^ (8 * env.sizeof_channel_id))
  rw [h3]
  simp

/-- A byte decodes to a channel below 10 exactly when it lies in the ten values from the
base on. -/
theorem to_channel_id_lt_ten_iff (env : Env) (b base : Nat) (hb : b < 256)
    (hbase : base ≤ 246) :
    to_channel_id env b base < 10 ↔ (base ≤ b ∧ b < base + 10) := by
  have hm := channel_modulus_ge env
  rcases Nat.lt_or_ge b base with h | h
  · rw [to_channel_id_of_lt env b base (by omega) h]
    constructor
    · intro h1; omega
    · intro h1; omega
  · rw [to_channel_id_of_ge env b base hb h]
    omega

/-- The lossy callback returns the state as it is for a packet of fewer than 3 bytes. -/
theorem lossy_packet_fn_short (env : Env) (peer : Nat) (st : ToxNetChanneled)
    (pk : List Nat) (h : pk.length < 3) : lossy_packet_fn env peer st pk = st := by
  unfold lossy_packet_fn
  split_ifs <;> rfl

/-- The lossless callback returns the state as it is for a packet of fewer than 3
bytes. -/
theorem lossless_packet_fn_short (env : Env) (peer : Nat) (st : ToxNetChanneled)
    (pk : List Nat) (h : pk.length < 3) : lossless_packet_fn env peer st pk = st := by
  unfold lossless_packet_fn
  split_ifs <;> rfl

/-- The lossy callback returns the state as it is for a packet whose first byte decodes
to a channel of 10 or more. -/
theorem lossy_packet_fn_bad_channel (env : Env) (peer : Nat) (st : ToxNetChanneled)
    (pk : List Nat) (h : 10 ≤ to_channel_id env (pk.getD 0 0) 192) :
    lossy_packet_fn env peer st pk = st := by
  unfold lossy_packet_fn
  split_ifs
  all_goals first | rfl | (simp; intro h2; simp at h; omega)

/-- The lossless callback returns the state as it is for a packet whose first byte
decodes to a channel of 10 or more. -/
theorem lossless_packet_fn_bad_channel (env : Env) (peer : Nat) (st : ToxNetChanneled)
    (pk : List Nat) (h : 10 ≤ to_channel_id env (pk.getD 0 0) 161) :
    lossless_packet_fn env peer st pk = st := by
  unfold lossless_packet_fn
  split_ifs
  all_goals first | rfl | (simp; intro h2; simp at h; omega)

/-- What `pull_fresh_packages` does, queue by queue: the service is not changed by the
callbacks, so the queues read for each peer are those of the state at the start. -/
theorem pull_fresh_packages_eq (env : Env) (st : ToxNetChanneled) :
    pull_fresh_packages env st =
      st._peer_list.foldl
        (fun s q =>
          (lossless_queue st._tox_service (toTox q)).foldl (lossless_packet_fn env q)
            ((lossy_queue st._tox_service (toTox q)).foldl (lossy_packet_fn env q) s))
        st ∧
    (pull_fresh_packages env st)._tox_service = st._tox_service := by
  unfold pull_fresh_packages
  have key : ∀ (l : List Nat) (s : ToxNetChanneled), s._tox_service = st._tox_service →
      l.foldl
        (fun s q =>
          friend_packet_each_lossless
            (friend_packet_each s._tox_service (toTox q) (lossy_packet_fn env q) s)._tox_service
            (toTox q) (lossless_packet_fn env q)
            (friend_packet_each s._tox_service (toTox q) (lossy_packet_fn env q) s)) s
      = l.foldl
        (fun s q =>
          (lossless_queue st._tox_service (toTox q)).foldl (lossless_packet_fn env q)
            ((lossy_queue st._tox_service (toTox q)).foldl (lossy_packet_fn env q) s)) s ∧
      (l.foldl
        (fun s q =>
          (lossless_queue st._tox_service (toTox q)).foldl (lossless_packet_fn env q)
            ((lossy_queue st._tox_service (toTox q)).foldl (lossy_packet_fn env q) s))
        s)._tox_service = st._tox_service := by
    intro l
    induction l with
    | nil => intro s hs; exact ⟨rfl, hs⟩
    | cons q l ih =>
      intro s hs
      rw [List.foldl_cons, List.foldl_cons, pull_step_eq, hs]
      exact ih _ (by
        rw [(foldl_lossless_packet_fn_fields env q _ _).1,
          (foldl_lossy_packet_fn_fields env q _ _).1, hs])
  obtain ⟨h1, h2⟩ := key st._peer_list st rfl
  exact ⟨h1, by rw [h1]; exact h2⟩

/-- A run of `pull_fresh_packages` in which every callback call returns the state as it
is (every queue empty, or every queued packet dropped) returns the state as it is. -/
theorem pull_fresh_packages_unchanged (env : Env) (st : ToxNetChanneled)
    (hlossy : ∀ q ∈ st._peer_list, ∀ pk ∈ lossy_queue st._tox_service (toTox q),
      ∀ s, lossy_packet_fn env q s pk = s)
    (hlossless : ∀ q ∈ st._peer_list, ∀ pk ∈ lossless_queue st._tox_service (toTox q),
      ∀ s, lossless_packet_fn env q s pk = s) :
    pull_fresh_packages env st = st := by
  rw [(pull_fresh_packages_eq env st).1]
  have fold_id : ∀ (f : ToxNetChanneled → List Nat → ToxNetChanneled) (l : List (List Nat))
      (s : ToxNetChanneled), (∀ pk ∈ l, ∀ s, f s pk = s) → l.foldl f s = s := by
    intro f l
    induction l with
    | nil => intro s _; rfl
    | cons pk l ih =>
      intro s h
      rw [List.foldl_cons, h pk (List.mem_cons_self _ _)]
      exact ih s (fun x hx => h x (List.mem_cons_of_mem _ hx))
  have key : ∀ (l : List Nat) (s : ToxNetChanneled), (∀ q ∈ l, q ∈ st._peer_list) →
      l.foldl
        (fun s q =>
          (lossless_queue st._tox_service (toTox q)).foldl (lossless_packet_fn env q)
            ((lossy_queue st._tox_service (toTox q)).foldl (lossy_packet_fn env q) s)) s
      = s := by
    intro l
    induction l with
    | nil => intro s _; rfl
    | cons q l ih =>
      intro s hmem
      have hq := hmem q (List.mem_cons_self _ _)
      rw [List.foldl_cons, fold_id _ _ _ (hlossy q hq), fold_id _ _ _ (hlossless q hq)]
      exact ih s (fun x hx => hmem x (List.mem_cons_of_mem _ hx))
  exact key _ st (fun _ h => h)

theorem queues_empty_pkg_cleanup (ts : ToxService) : queues_empty (pkg_cleanup ts) := by
  intro e he
  simp only [pkg_cleanup, List.mem_map] at he
  obtain ⟨x, _, rfl⟩ := he
  exact ⟨rfl, rfl⟩

/-- With every receive queue empty, `pull_fresh_packages` returns the state as it is. -/
theorem pull_fresh_packages_queues_empty (env : Env) (st : ToxNetChanneled)
    (h : queues_empty st._tox_service) : pull_fresh_packages env st = st := by
  apply pull_fresh_packages_unchanged
  · intro q _ pk hpk
    rw [(queues_empty_get _ h _).1] at hpk
    simp at hpk
  · intro q _ pk hpk
    rw [(queues_empty_get _ h _).2] at hpk
    simp at hpk

/-! ## Visits and kept packets -/

theorem visit_seq_length {σ : Type} (fn : σ → Nat → Nat → List Nat → Bool × σ) :
    ∀ (items : List Visit) (s : σ), (visit_seq fn items s).1.length = items.length := by
  intro items
  induction items with
  | nil => intro s; rfl
  | cons v vs ih => intro s; simp [visit_seq, ih]

theorem visit_seq_append {σ : Type} (fn : σ → Nat → Nat → List Nat → Bool × σ) :
    ∀ (a b : List Visit) (s : σ),
      visit_seq fn (a ++ b) s =
        ((visit_seq fn a s).1 ++ (visit_seq fn b (visit_seq fn a s).2).1,
          (visit_seq fn b (visit_seq fn a s).2).2) := by
  intro a
  induction a with
  | nil => intro b s; rfl
  | cons v vs ih =>
    intro b s
    have h := ih b (fn s v.1 v.2.1.val v.2.2).2
    simp [visit_seq, h]

theorem kept_of_nil (answers : List Bool) (peer : Nat) (channel : Fin 10) :
    kept_of [] answers peer channel = [] := by
  simp [kept_of]

theorem kept_of_cons (v : Visit) (items : List Visit) (a : Bool) (answers : List Bool)
    (peer : Nat) (channel : Fin 10) :
    kept_of (v :: items) (a :: answers) peer channel =
      if v.1 = peer ∧ v.2.1 = channel ∧ a = false then
        v.2.2 :: kept_of items answers peer channel
      else kept_of items answers peer channel := by
  unfold kept_of
  rw [List.zip_cons_cons, List.filter_cons]
  split_ifs with h1 h2 h2
  · rfl
  · exact absurd (by simpa using h1) h2
  · exact absurd (by simpa using h2) h1
  · rfl

theorem kept_of_append (a b : List Visit) (x y : List Bool) (peer : Nat) (channel : Fin 10)
    (h : a.length = x.length) :
    kept_of (a ++ b) (x ++ y) peer channel
      = kept_of a x peer channel ++ kept_of b y peer channel := by
  unfold kept_of
  rw [List.zip_append h, List.filter_append, List.map_append]

/-- Visits of other peers or channels leave nothing in the bucket. -/
theorem kept_of_other (items : List Visit) (answers : List Bool) (peer : Nat)
    (channel : Fin 10) (h : ∀ v ∈ items, ¬ (v.1 = peer ∧ v.2.1 = channel)) :
    kept_of items answers peer channel = [] := by
  unfold kept_of
  rw [List.map_eq_nil_iff, List.filter_eq_nil_iff]
  intro x hx
  obtain ⟨v, a⟩ := x
  have hv := (List.of_mem_zip hx).1
  have := h v hv
  simp only [decide_eq_true_eq]
  tauto

/-- The kept packets of a bucket are among its packets, in their order. -/
theorem kept_of_bucket_sublist (peer : Nat) (channel : Fin 10) :
    ∀ (vec : List (List Nat)) (answers : List Bool),
      (kept_of (bucket_items peer channel vec) answers peer channel).Sublist vec := by
  intro vec
  induction vec with
  | nil => intro answers; simp [bucket_items, kept_of]
  | cons pkt vec ih =>
    intro answers
    cases answers with
    | nil => simp [bucket_items, kept_of]
    | cons a answers =>
      have h := kept_of_cons (peer, channel, pkt) (bucket_items peer channel vec) a answers
        peer channel
      simp only [bucket_items, List.map_cons] at h ⊢
      rw [h]
      split_ifs
      · exact (ih answers).cons₂ pkt
      · exact (ih answers).cons pkt

/-- With every answer `true`, nothing is kept. -/
theorem kept_of_all_true (items : List Visit) (answers : List Bool) (peer : Nat)
    (channel : Fin 10) (h : ∀ a ∈ answers, a = true) :
    kept_of items answers peer channel = [] := by
  unfold kept_of
  rw [List.map_eq_nil_iff, List.filter_eq_nil_iff]
  intro x hx
  obtain ⟨v, a⟩ := x
  have ha := h a (List.of_mem_zip hx).2
  simp [ha]

/-- With every answer `false`, the whole bucket is kept. -/
theorem kept_of_bucket_all_false (peer : Nat) (channel : Fin 10) :
    ∀ (vec : List (List Nat)) (answers : List Bool), answers.length = vec.length →
      (∀ a ∈ answers, a = false) →
      kept_of (bucket_items peer channel vec) answers peer channel = vec := by
  intro vec
  induction vec with
  | nil => intro answers _ _; simp [bucket_items, kept_of]
  | cons pkt vec ih =>
    intro answers hlen h
    cases answers with
    | nil => simp at hlen
    | cons a answers =>
      have ha : a = false := h a (List.mem_cons_self _ _)
      have hk := kept_of_cons (peer, channel, pkt) (bucket_items peer channel vec) a answers
        peer channel
      simp only [bucket_items, List.map_cons] at hk ⊢
      rw [hk]
      simp only [ha, and_self, if_true]
      congr 1
      exact ih answers (by simpa using hlen) (fun x hx => h x (List.mem_cons_of_mem _ hx))

/-! ## The loop over one bucket -/

/-- The loop over a bucket, from the iterator position `it` on: the visitor is called
once for each packet from that position to the end, in order; the packets before `it`
stay, of the packets from `it` on those stay for which the answer was `false`; `count`
grows by the number of packets visited. The loop returns within that many iterations. -/
theorem forEach_loop_eq {σ : Type} (fn : σ → Nat → Nat → List Nat → Bool × σ) (peer : Nat)
    (channel : Fin 10) :
    ∀ (fuel : Nat) (vec : List (List Nat)) (it : Nat) (s : σ) (count : Nat),
      it ≤ vec.length → vec.length - it ≤ fuel →
      forEach_loop fn peer channel.val fuel vec it s count =
        some (vec.take it ++
            kept_of (bucket_items peer channel (vec.drop it))
              (visit_seq fn (bucket_items peer channel (vec.drop it)) s).1 peer channel,
          (visit_seq fn (bucket_items peer channel (vec.drop it)) s).2,
          count + (vec.length - it)) := by
  have hend : ∀ (vec : List (List Nat)) (it : Nat) (s : σ) (count : Nat), it = vec.length →
      some (vec, s, count) =
        some (vec.take it ++
            kept_of (bucket_items peer channel (vec.drop it))
              (visit_seq fn (bucket_items peer channel (vec.drop it)) s).1 peer channel,
          (visit_seq fn (bucket_items peer channel (vec.drop it)) s).2,
          count + (vec.length - it)) := by
    intro vec it s count h
    subst h
    simp [bucket_items, visit_seq, kept_of]
  intro fuel
  induction fuel with
  | zero =>
    intro vec it s count h1 h2
    have h : it = vec.length := by omega
    simp only [forEach_loop, h, ne_eq, not_true_eq_false, if_false]
    exact hend vec vec.length s count rfl
  | succ fuel ih =>
    intro vec it s count h1 h2
    by_cases h : it = vec.length
    · simp only [forEach_loop, h, ne_eq, not_true_eq_false, if_false]
      exact hend vec vec.length s count rfl
    · have hlt : it < vec.length := by omega
      have hdrop : vec.drop it = vec[it] :: vec.drop (it + 1) := List.drop_eq_getElem_cons hlt
      have hget : vec.getD it [] = vec[it] := List.getD_eq_getElem vec [] hlt
      simp only [forEach_loop, ne_eq, h, not_false_eq_true, if_true, hget]
      rw [hdrop]
      simp only [bucket_items, List.map_cons, visit_seq]
      cases hr : (fn s peer channel.val vec[it]).1
      · -- the answer is false: the element stays and the iterator moves on
        simp only [Bool.false_eq_true, if_false]
        rw [ih vec (it + 1) _ (count + 1) (by omega) (by omega)]
        rw [kept_of_cons]
        simp only [and_self, if_true, bucket_items]
        rw [List.take_succ, List.getElem?_eq_getElem hlt]
        simp only [Option.toList, List.append_assoc, List.singleton_append]
        congr 3
        omega
      · -- the answer is true: the element is erased and the iterator stays
        simp only [if_true]
        have hlen : (vec.eraseIdx it).length = vec.length - 1 := by
          rw [List.length_eraseIdx]; simp [hlt]
        have htake : (vec.eraseIdx it).take it = vec.take it := by
          rw [List.eraseIdx_eq_take_drop_succ]
          exact List.take_left' (by rw [List.length_take]; omega)
        have hdrop2 : (vec.eraseIdx it).drop it = vec.drop (it + 1) := by
          rw [List.eraseIdx_eq_take_drop_succ]
          exact List.drop_left' (by rw [List.length_take]; omega)
        rw [ih (vec.eraseIdx it) it _ (count + 1) (by omega) (by omega)]
        rw [htake, hdrop2, hlen, kept_of_cons]
        simp only [Bool.true_eq_false, and_false, if_false, bucket_items]
        congr 3
        omega

/-! ## The loop over the channels of a peer -/

theorem bucket_items_length (peer : Nat) (channel : Fin 10) (vec : List (List Nat)) :
    (bucket_items peer channel vec).length = vec.length := by
  simp [bucket_items]

theorem mem_bucket_items {peer : Nat} {channel : Fin 10} {vec : List (List Nat)} {v : Visit}
    (h : v ∈ bucket_items peer channel vec) : v.1 = peer ∧ v.2.1 = channel ∧ v.2.2 ∈ vec := by
  simp only [bucket_items, List.mem_map] at h
  obtain ⟨pkt, hp, rfl⟩ := h
  exact ⟨rfl, rfl, hp⟩

theorem mem_channel_items {peer : Nat} {chs : List (Fin 10)}
    {arr : Fin 10 → List (List Nat)} {v : Visit}
    (h : v ∈ chs.flatMap (fun c => bucket_items peer c (arr c))) :
    v.1 = peer ∧ v.2.1 ∈ chs := by
  rw [List.mem_flatMap] at h
  obtain ⟨c, hc, hv⟩ := h
  obtain ⟨h1, h2, _⟩ := mem_bucket_items hv
  exact ⟨h1, h2 ▸ hc⟩

/-- The loop over a list of distinct channels of a peer: the visitor is called once for
each packet of these buckets, channel by channel and in arrival order within a bucket;
each of these buckets keeps the packets for which the answer was `false`; `count` grows by
the number of packets visited. -/
theorem forEach_channels_eq {σ : Type} (fn : σ → Nat → Nat → List Nat → Bool × σ)
    (peer fuel : Nat) :
    ∀ (chs : List (Fin 10)) (arr : Fin 10 → List (List Nat)) (s : σ) (count : Nat),
      chs.Nodup → (∀ c ∈ chs, (arr c).length ≤ fuel) →
      forEach_channels fn peer fuel chs arr s count =
        some
          ((fun c =>
              if c ∈ chs then
                kept_of (chs.flatMap (fun c => bucket_items peer c (arr c)))
                  (visit_seq fn (chs.flatMap (fun c => bucket_items peer c (arr c))) s).1 peer c
              else arr c),
            (visit_seq fn (chs.flatMap (fun c => bucket_items peer c (arr c))) s).2,
            count + (chs.flatMap (fun c => bucket_items peer c (arr c))).length) := by
  intro chs
  induction chs with
  | nil =>
    intro arr s count _ _
    simp [forEach_channels, visit_seq]
  | cons c cs ih =>
    intro arr s count hnd hfuel
    obtain ⟨hc, hnd2⟩ := List.nodup_cons.1 hnd
    have hloop := forEach_loop_eq fn peer c fuel (arr c) 0 s count (by omega)
      (by have := hfuel c (List.mem_cons_self _ _); omega)
    simp only [List.take_zero, List.nil_append, List.drop_zero, Nat.sub_zero] at hloop
    have hsame : ∀ d ∈ cs,
        Function.update arr c
          (kept_of (bucket_items peer c (arr c))
            (visit_seq fn (bucket_items peer c (arr c)) s).1 peer c) d = arr d := by
      intro d hd
      have hne : d ≠ c := fun h => hc (by rw [← h]; exact hd)
      exact Function.update_noteq hne _ _
    have hitems : cs.flatMap (fun d => bucket_items peer d
        (Function.update arr c
          (kept_of (bucket_items peer c (arr c))
            (visit_seq fn (bucket_items peer c (arr c)) s).1 peer c) d))
        = cs.flatMap (fun d => bucket_items peer d (arr d)) :=
      List.flatMap_congr (fun d hd => by rw [hsame d hd])
    have hih := ih (Function.update arr c
        (kept_of (bucket_items peer c (arr c))
          (visit_seq fn (bucket_items peer c (arr c)) s).1 peer c))
      (visit_seq fn (bucket_items peer c (arr c)) s).2 (count + (arr c).length) hnd2
      (fun d hd => by rw [hsame d hd]; exact hfuel d (List.mem_cons_of_mem _ hd))
    rw [hitems] at hih
    simp only [forEach_channels, hloop, hih, List.flatMap_cons, visit_seq_append]
    congr 1
    refine Prod.ext ?_ (Prod.ext rfl ?_)
    · funext d
      simp only
      have hlen := (visit_seq_length fn (bucket_items peer c (arr c)) s).symm
      rw [kept_of_append _ _ _ _ peer d hlen]
      by_cases hdc : d = c
      · subst hdc
        have hother : kept_of (cs.flatMap (fun d => bucket_items peer d (arr d)))
            (visit_seq fn (cs.flatMap (fun d => bucket_items peer d (arr d)))
              (visit_seq fn (bucket_items peer d (arr d)) s).2).1 peer d = [] :=
          kept_of_other _ _ _ _ (fun v hv h => hc (by
            have := (mem_channel_items hv).2
            rw [h.2] at this
            exact this))
        simp [hc, hother]
      · have hother : kept_of (bucket_items peer c (arr c))
            (visit_seq fn (bucket_items peer c (arr c)) s).1 peer d = [] :=
          kept_of_other _ _ _ _ (fun v hv h => hdc (h.2.symm.trans (mem_bucket_items hv).2.1))
        rw [hother]
        by_cases hd : d ∈ cs
        · simp [hd]
        · simp [hd, hdc, Function.update_noteq hdc]
    · simp only [List.length_append, bucket_items_length]
      omega

/-! ## The loop over the entries of the map -/

theorem channels_nodup : channels.Nodup := by decide

theorem mem_channels (c : Fin 10) : c ∈ channels := by
  revert c; decide

theorem mem_entry_items {peer : Nat} {arr : Fin 10 → List (List Nat)} {v : Visit}
    (h : v ∈ entry_items peer arr) : v.1 = peer ∧ v.2.2 ∈ arr v.2.1 := by
  unfold entry_items at h
  rw [List.mem_flatMap] at h
  obtain ⟨c, _, hv⟩ := h
  obtain ⟨h1, h2, h3⟩ := mem_bucket_items hv
  exact ⟨h1, h2 ▸ h3⟩

theorem mem_entries_items {m : List (Nat × (Fin 10 → List (List Nat)))} {v : Visit}
    (h : v ∈ m.flatMap (fun e => entry_items e.1 e.2)) : v.1 ∈ m.map Prod.fst := by
  rw [List.mem_flatMap] at h
  obtain ⟨e, he, hv⟩ := h
  rw [List.mem_map]
  exact ⟨e, he, (mem_entry_items hv).1.symm⟩

/-- The loop over the ten channels of one peer. -/
theorem forEach_channels_all {σ : Type} (fn : σ → Nat → Nat → List Nat → Bool × σ)
    (peer fuel : Nat) (arr : Fin 10 → List (List Nat)) (s : σ) (count : Nat)
    (hfuel : ∀ c, (arr c).length ≤ fuel) :
    forEach_channels fn peer fuel channels arr s count =
      some
        ((fun c => kept_of (entry_items peer arr) (visit_seq fn (entry_items peer arr) s).1
            peer c),
          (visit_seq fn (entry_items peer arr) s).2,
          count + (entry_items peer arr).length) := by
  rw [forEach_channels_eq fn peer fuel channels arr s count channels_nodup
    (fun c _ => hfuel c)]
  simp only [mem_channels, if_true, entry_items]

/-- The loop of `forEachPacket` over the entries of a map with distinct keys: the visitor
is called once for each buffered packet, entry by entry, channel by channel and in
arrival order within a bucket; each bucket keeps the packets for which the answer was
`false`; `count` grows by the number of packets visited. -/
theorem forEach_entries_eq {σ : Type} (fn : σ → Nat → Nat → List Nat → Bool × σ)
    (fuel : Nat) :
    ∀ (m : List (Nat × (Fin 10 → List (List Nat)))) (s : σ) (count : Nat),
      (m.map Prod.fst).Nodup → (∀ e ∈ m, ∀ c, (e.2 c).length ≤ fuel) →
      forEach_entries fn fuel m s count =
        some
          (m.map (fun e =>
              (e.1, fun c =>
                kept_of (m.flatMap (fun e => entry_items e.1 e.2))
                  (visit_seq fn (m.flatMap (fun e => entry_items e.1 e.2)) s).1 e.1 c)),
            (visit_seq fn (m.flatMap (fun e => entry_items e.1 e.2)) s).2,
            count + (m.flatMap (fun e => entry_items e.1 e.2)).length) := by
  intro m
  induction m with
  | nil => intro s count _ _; simp [forEach_entries, visit_seq]
  | cons e rest ih =>
    intro s count hnd hfuel
    obtain ⟨peer, arr⟩ := e
    simp only [List.map_cons, List.nodup_cons] at hnd
    obtain ⟨hpeer, hnd2⟩ := hnd
    have hch := forEach_channels_all fn peer fuel arr s count
      (hfuel (peer, arr) (List.mem_cons_self _ _))
    have hih := ih (visit_seq fn (entry_items peer arr) s).2
      (count + (entry_items peer arr).length) hnd2
      (fun e he => hfuel e (List.mem_cons_of_mem _ he))
    simp only [forEach_entries, hch, hih, List.flatMap_cons, visit_seq_append, List.map_cons]
    have hlen := (visit_seq_length fn (entry_items peer arr) s).symm
    congr 1
    refine Prod.ext ?_ (Prod.ext rfl ?_)
    · simp only
      congr 1
      · -- the entry of `peer`
        congr 1
        funext c
        rw [kept_of_append _ _ _ _ peer c hlen]
        have hother : kept_of (rest.flatMap (fun e => entry_items e.1 e.2))
            (visit_seq fn (rest.flatMap (fun e => entry_items e.1 e.2))
              (visit_seq fn (entry_items peer arr) s).2).1 peer c = [] :=
          kept_of_other _ _ _ _ (fun v hv h => hpeer (by
            have := mem_entries_items hv
            rw [h.1] at this
            exact this))
        rw [hother, List.append_nil]
      · -- the entries after it
        apply List.map_congr_left
        intro e he
        congr 1
        funext c
        rw [kept_of_append _ _ _ _ e.1 c hlen]
        have hne : e.1 ≠ peer := fun h => hpeer (by
          rw [← h]; exact List.mem_map_of_mem Prod.fst he)
        have hother : kept_of (entry_items peer arr)
            (visit_seq fn (entry_items peer arr) s).1 e.1 c = [] :=
          kept_of_other _ _ _ _ (fun v hv h => hne (h.1.symm.trans (mem_entry_items hv).1))
        rw [hother, List.nil_append]
    · simp only [List.length_append]
      omega

/-- Reading a map whose values were replaced by a function of the key. -/
theorem map_get_map_keys {α : Type} (dflt : α) (g : Nat → α) :
    ∀ (m : List (Nat × α)) (key : Nat),
      map_get dflt (m.map (fun e => (e.1, g e.1))) key
        = if key ∈ m.map Prod.fst then g key else dflt := by
  intro m
  induction m with
  | nil => intro key; simp [map_get]
  | cons e rest ih =>
    intro key
    obtain ⟨k, v⟩ := e
    by_cases hk : k = key
    · subst hk; simp [map_get]
    · have hne : ¬ key = k := fun h => hk h.symm
      simp only [List.map_cons, map_get, hk, if_false, ih key, List.mem_cons, hne, false_or]

/-! ## The three forEachPacket functions -/

theorem map_get_mem_or_default {α : Type} (dflt : α) :
    ∀ (m : List (Nat × α)) (key : Nat),
      map_get dflt m key = dflt ∨ (key, map_get dflt m key) ∈ m := by
  intro m
  induction m with
  | nil => intro key; exact Or.inl rfl
  | cons e rest ih =>
    intro key
    obtain ⟨k, v⟩ := e
    by_cases hk : k = key
    · subst hk; exact Or.inr (by simp [map_get])
    · rcases ih key with h | h
      · exact Or.inl (by simp [map_get, hk, h])
      · exact Or.inr (by simp only [map_get, hk, if_false]; exact List.mem_cons_of_mem _ h)

/-- In a map with distinct keys, reading the key of an entry gives the value of the
entry. -/
theorem map_get_of_mem {α : Type} (dflt : α) :
    ∀ (m : List (Nat × α)), (m.map Prod.fst).Nodup → ∀ e ∈ m, map_get dflt m e.1 = e.2 := by
  intro m
  induction m with
  | nil => intro _ e he; simp at he
  | cons x rest ih =>
    intro hnd e he
    obtain ⟨k, v⟩ := x
    simp only [List.map_cons, List.nodup_cons] at hnd
    rcases List.mem_cons.1 he with h | h
    · subst h; simp [map_get]
    · have hne : k ≠ e.1 := fun hk => hnd.1 (by rw [hk]; exact List.mem_map_of_mem Prod.fst h)
      simp only [map_get, hne, if_false]
      exact ih hnd.2 e h

theorem bucket_bound_inbox (st : ToxNetChanneled) (fuel : Nat) (h : bucket_bound st fuel)
    (peer : Nat) (channel : Fin 10) : (Inbox st peer channel).length ≤ fuel := by
  unfold Inbox
  rcases map_get_mem_or_default (fun _ => ([] : List (List Nat))) st._packets peer with h1 | h1
  · rw [h1]; simp
  · exact h _ h1 channel

/-- The function `forEachPacket` on a map with distinct keys and with enough iterations
for every bucket. -/
theorem forEachPacket_eq {σ : Type} (fuel : Nat) (fn : σ → Nat → Nat → List Nat → Bool × σ)
    (s : σ) (st : ToxNetChanneled) (hk : keys_nodup st) (hf : bucket_bound st fuel) :
    forEachPacket fuel fn s st =
      Except.ok ((scope_all st).length, (visit_seq fn (scope_all st) s).2,
        { st with _packets :=
            (st._packets.map (fun e =>
              (e.1, fun c => kept_of (scope_all st) (visit_seq fn (scope_all st) s).1 e.1 c))) }) := by
  unfold forEachPacket
  rw [forEach_entries_eq fn fuel st._packets s 0 hk hf]
  simp [scope_all]

/-- The Inbox after `forEachPacket`: every bucket holds the packets for which the answer
of the visitor was `false`. -/
theorem forEachPacket_inbox (st : ToxNetChanneled) (answers : List Bool) (peer : Nat)
    (channel : Fin 10) :
    Inbox { st with _packets :=
        (st._packets.map (fun e => (e.1, fun c => kept_of (scope_all st) answers e.1 c))) }
      peer channel = kept_of (scope_all st) answers peer channel := by
  unfold Inbox
  simp only
  rw [map_get_map_keys (fun _ => []) (fun p c => kept_of (scope_all st) answers p c)]
  split_ifs with h
  · rfl
  · exact (kept_of_other _ _ _ _ (fun v hv hv2 => h (by
      have := mem_entries_items hv
      rw [hv2.1] at this
      exact this))).symm

/-- The function `forEachPacketPeer` with enough iterations for every bucket of the
peer. -/
theorem forEachPacketPeer_eq {σ : Type} (fuel : Nat)
    (fn : σ → Nat → Nat → List Nat → Bool × σ) (s : σ) (st : ToxNetChanneled) (peer : Nat)
    (hf : ∀ c, (Inbox st peer c).length ≤ fuel) :
    forEachPacketPeer fuel fn s st peer =
      Except.ok ((scope_peer st peer).length, (visit_seq fn (scope_peer st peer) s).2,
        { st with _packets :=
            (map_modify (fun _ => [])
              (fun _ => fun c =>
                kept_of (scope_peer st peer) (visit_seq fn (scope_peer st peer) s).1 peer c)
              st._packets peer) }) := by
  unfold forEachPacketPeer
  rw [forEach_channels_all fn peer fuel (map_get (fun _ => []) st._packets peer) s 0 hf]
  simp [scope_peer, Inbox]

/-- The function `forEachPacketPeerChannel` for a channel below 10, with enough
iterations for the bucket. -/
theorem forEachPacketPeerChannel_eq {σ : Type} (fuel : Nat)
    (fn : σ → Nat → Nat → List Nat → Bool × σ) (s : σ) (st : ToxNetChanneled)
    (peer channel : Nat) (hc : channel < 10)
    (hf : (Inbox st peer ⟨channel, hc⟩).length ≤ fuel) :
    forEachPacketPeerChannel fuel fn s st peer channel =
      Except.ok ((scope_peer_channel st peer ⟨channel, hc⟩).length,
        (visit_seq fn (scope_peer_channel st peer ⟨channel, hc⟩) s).2,
        { st with _packets :=
            (map_modify (fun _ => [])
              (fun arr => Function.update arr ⟨channel, hc⟩
                (kept_of (scope_peer_channel st peer ⟨channel, hc⟩)
                  (visit_seq fn (scope_peer_channel st peer ⟨channel, hc⟩) s).1 peer
                  ⟨channel, hc⟩))
              st._packets peer) }) := by
  have hloop := forEach_loop_eq fn peer ⟨channel, hc⟩ fuel (Inbox st peer ⟨channel, hc⟩) 0 s 0
    (by omega) (by omega)
  simp only [List.take_zero, List.nil_append, List.drop_zero, Nat.sub_zero, Nat.zero_add]
    at hloop
  unfold forEachPacketPeerChannel
  simp only [hc, dite_true]
  unfold Inbox at hloop
  rw [hloop]
  simp [scope_peer_channel, Inbox, bucket_items_length]

/-! ## Visitors with a constant answer -/

theorem visit_seq_constant {σ : Type} (fn : σ → Nat → Nat → List Nat → Bool × σ) (b : Bool)
    (h : ∀ s p c pkt, (fn s p c pkt).1 = b) :
    ∀ (items : List Visit) (s : σ), ∀ a ∈ (visit_seq fn items s).1, a = b := by
  intro items
  induction items with
  | nil => intro s a ha; simp [visit_seq] at ha
  | cons v vs ih =>
    intro s a ha
    simp only [visit_seq, List.mem_cons] at ha
    rcases ha with ha | ha
    · rw [ha]; exact h _ _ _ _
    · exact ih _ a ha

theorem visited_of_append (a b : List Visit) (peer : Nat) (channel : Fin 10) :
    visited_of (a ++ b) peer channel = visited_of a peer channel ++ visited_of b peer channel := by
  simp [visited_of]

/-- With every answer `false`, the kept packets of a peer and channel are all the
visited packets of that peer and channel. -/
theorem kept_of_all_false (peer : Nat) (channel : Fin 10) :
    ∀ (items : List Visit) (answers : List Bool), answers.length = items.length →
      (∀ a ∈ answers, a = false) →
      kept_of items answers peer channel = visited_of items peer channel := by
  intro items
  induction items with
  | nil => intro answers _ _; simp [kept_of, visited_of]
  | cons v vs ih =>
    intro answers hlen h
    cases answers with
    | nil => simp at hlen
    | cons a answers =>
      have ha : a = false := h a (List.mem_cons_self _ _)
      rw [kept_of_cons, ih answers (by simpa using hlen)
        (fun x hx => h x (List.mem_cons_of_mem _ hx))]
      subst ha
      unfold visited_of
      rw [List.filter_cons]
      by_cases hv : v.1 = peer ∧ v.2.1 = channel
      · simp [hv]
      · have hv2 : ¬ (v.1 = peer ∧ v.2.1 = channel ∧ false = false) := fun x => hv ⟨x.1, x.2.1⟩
        simp [hv, hv2]

theorem visited_of_bucket_items (p : Nat) (c : Fin 10) (vec : List (List Nat)) (peer : Nat)
    (channel : Fin 10) :
    visited_of (bucket_items p c vec) peer channel
      = if p = peer ∧ c = channel then vec else [] := by
  unfold visited_of bucket_items
  by_cases h : p = peer ∧ c = channel
  · simp [h, List.filter_eq_self.2, List.map_map, Function.comp_def]
  · have : List.filter (fun v : Visit => decide (v.1 = peer ∧ v.2.1 = channel))
        (vec.map (fun pkt => (p, c, pkt))) = [] := by
      rw [List.filter_eq_nil_iff]
      intro v hv
      obtain ⟨pkt, _, rfl⟩ := List.mem_map.1 hv
      simpa using h
    rw [this]
    simp [h]

theorem visited_of_channel_items (p : Nat) (arr : Fin 10 → List (List Nat)) (peer : Nat)
    (channel : Fin 10) :
    ∀ (chs : List (Fin 10)), chs.Nodup →
      visited_of (chs.flatMap (fun c => bucket_items p c (arr c))) peer channel
        = if p = peer ∧ channel ∈ chs then arr channel else [] := by
  intro chs
  induction chs with
  | nil => intro _; simp [visited_of]
  | cons c cs ih =>
    intro hnd
    obtain ⟨hc, hnd2⟩ := List.nodup_cons.1 hnd
    rw [List.flatMap_cons, visited_of_append, visited_of_bucket_items, ih hnd2]
    by_cases hp : p = peer
    · by_cases hcc : c = channel
      · subst hcc
        simp [hp, hc]
      · have hcc2 : ¬ channel = c := fun h => hcc h.symm
        simp [hp, hcc, hcc2]
    · simp [hp]

theorem visited_of_entry_items (p : Nat) (arr : Fin 10 → List (List Nat)) (peer : Nat)
    (channel : Fin 10) :
    visited_of (entry_items p arr) peer channel = if p = peer then arr channel else [] := by
  unfold entry_items
  rw [visited_of_channel_items p arr peer channel channels channels_nodup]
  simp [mem_channels]

theorem map_get_not_mem_keys {α : Type} (dflt : α) :
    ∀ (m : List (Nat × α)) (key : Nat), key ∉ m.map Prod.fst → map_get dflt m key = dflt := by
  intro m
  induction m with
  | nil => intro key _; rfl
  | cons e rest ih =>
    intro key h
    obtain ⟨k, v⟩ := e
    simp only [List.map_cons, List.mem_cons, not_or] at h
    have hk : ¬ k = key := fun x => h.1 x.symm
    simp only [map_get, hk, if_false]
    exact ih key h.2

/-- In a map with distinct keys, the visits of all packets that belong to a peer and
channel are the packets of its bucket, in arrival order. -/
theorem visited_of_entries (peer : Nat) (channel : Fin 10) :
    ∀ (m : List (Nat × (Fin 10 → List (List Nat)))), (m.map Prod.fst).Nodup →
      visited_of (m.flatMap (fun e => entry_items e.1 e.2)) peer channel
        = map_get (fun _ => []) m peer channel := by
  intro m
  induction m with
  | nil => intro _; simp [visited_of, map_get]
  | cons e rest ih =>
    intro hnd
    obtain ⟨k, v⟩ := e
    simp only [List.map_cons, List.nodup_cons] at hnd
    rw [List.flatMap_cons, visited_of_append, visited_of_entry_items, ih hnd.2]
    by_cases hk : k = peer
    · subst hk
      simp [map_get, map_get_not_mem_keys _ _ _ hnd.1]
    · simp [map_get, hk]

theorem visited_of_scope_all (st : ToxNetChanneled) (hk : keys_nodup st) (peer : Nat)
    (channel : Fin 10) : visited_of (scope_all st) peer channel = Inbox st peer channel :=
  visited_of_entries peer channel st._packets hk

/-- A map with distinct keys whose values are replaced by what the map holds under each
key is the map itself. -/
theorem map_map_get_self {α : Type} (dflt : α) (m : List (Nat × α))
    (hnd : (m.map Prod.fst).Nodup) :
    m.map (fun e => (e.1, map_get dflt m e.1)) = m := by
  conv_rhs => rw [← List.map_id m]
  apply List.map_congr_left
  intro e he
  rw [map_get_of_mem dflt m hnd e he]
  rfl

/-- The kept packets of a peer and channel are among the visited packets of that peer and
channel, in the order visited. -/
theorem kept_of_sublist_visited (peer : Nat) (channel : Fin 10) :
    ∀ (items : List Visit) (answers : List Bool),
      (kept_of items answers peer channel).Sublist (visited_of items peer channel) := by
  intro items
  induction items with
  | nil => intro answers; simp [kept_of, visited_of]
  | cons v vs ih =>
    intro answers
    cases answers with
    | nil => simp [kept_of]
    | cons a answers =>
      rw [kept_of_cons]
      unfold visited_of
      rw [List.filter_cons]
      by_cases hv : v.1 = peer ∧ v.2.1 = channel
      · simp only [hv, decide_True, if_true, List.map_cons, true_and]
        split_ifs
        · exact (ih answers).cons₂ _
        · exact (ih answers).cons _
      · have hv2 : ¬ (v.1 = peer ∧ v.2.1 = channel ∧ a = false) := fun x => hv ⟨x.1, x.2.1⟩
        simp only [hv, hv2, decide_False, if_false, Bool.false_eq_true]
        exact ih answers

theorem scope_peer_visited (st : ToxNetChanneled) (peer : Nat) (channel : Fin 10) :
    visited_of (scope_peer st peer) peer channel = Inbox st peer channel := by
  unfold scope_peer
  rw [visited_of_entry_items]
  simp

theorem scope_peer_channel_visited (st : ToxNetChanneled) (peer : Nat) (channel : Fin 10) :
    visited_of (scope_peer_channel st peer channel) peer channel = Inbox st peer channel := by
  unfold scope_peer_channel
  rw [visited_of_bucket_items]
  simp

theorem entry_items_empty (peer : Nat) : entry_items peer (fun _ => []) = [] := by
  simp [entry_items, channels, bucket_items]

/-- An index of 10 or more into the buckets of a peer: the run of
`forEachPacketPeerChannel` ends in `Fault.out_of_range`. -/
theorem forEachPacketPeerChannel_out_of_range {σ : Type} (fuel : Nat)
    (fn : σ → Nat → Nat → List Nat → Bool × σ) (s : σ) (st : ToxNetChanneled)
    (peer channel : Nat) (h : 10 ≤ channel) :
    forEachPacketPeerChannel fuel fn s st peer channel = Except.error Fault.out_of_range := by
  have hn : ¬ channel < 10 := by omega
  simp [forEachPacketPeerChannel, hn]

/-! ## The keys of the map stay distinct -/

theorem map_contains_iff_mem_keys {α : Type} :
    ∀ (m : List (Nat × α)) (key : Nat), map_contains m key = true ↔ key ∈ m.map Prod.fst := by
  intro m
  induction m with
  | nil => intro key; simp [map_contains]
  | cons e rest ih =>
    intro key
    obtain ⟨k, v⟩ := e
    by_cases hk : k = key
    · subst hk; simp [map_contains]
    · have hne : ¬ key = k := fun h => hk h.symm
      simp only [map_contains, hk, if_false, ih key, List.map_cons, List.mem_cons, hne,
        false_or]

theorem map_replace_keys {α : Type} (f : α → α) :
    ∀ (m : List (Nat × α)) (key : Nat), (map_replace f m key).map Prod.fst = m.map Prod.fst := by
  intro m
  induction m with
  | nil => intro key; rfl
  | cons e rest ih =>
    intro key
    obtain ⟨k, v⟩ := e
    by_cases hk : k = key
    · simp [map_replace, hk]
    · simp [map_replace, hk, ih key]

theorem map_insert_keys_perm {α : Type} (key : Nat) (v : α) :
    ∀ (m : List (Nat × α)), ((map_insert key v m).map Prod.fst).Perm (key :: m.map Prod.fst) := by
  intro m
  induction m with
  | nil => simp [map_insert]
  | cons e rest ih =>
    obtain ⟨k, w⟩ := e
    by_cases hlt : key < k
    · simp [map_insert, hlt]
    · simp only [map_insert, hlt, if_false, List.map_cons]
      exact ((ih.cons k).trans (List.Perm.swap key k _))

/-- The statement `f(m[key])` keeps the keys of a map distinct. -/
theorem map_modify_keys_nodup {α : Type} (dflt : α) (f : α → α) (m : List (Nat × α))
    (key : Nat) (h : (m.map Prod.fst).Nodup) :
    ((map_modify dflt f m key).map Prod.fst).Nodup := by
  unfold map_modify
  cases hc : map_contains m key with
  | true =>
    simp only [if_true]
    rw [map_replace_keys]
    exact h
  | false =>
    simp only [Bool.false_eq_true, if_false]
    have hnot : key ∉ m.map Prod.fst := by
      intro hmem
      have := (map_contains_iff_mem_keys m key).2 hmem
      rw [hc] at this
      exact Bool.false_ne_true this
    exact (map_insert_keys_perm key (f dflt) m).nodup_iff.2 (List.nodup_cons.2 ⟨hnot, h⟩)

theorem packets_emplace_back_keys_nodup (m : List (Nat × (Fin 10 → List (List Nat))))
    (peer : Nat) (channel : Fin 10) (pkt : List Nat) (h : (m.map Prod.fst).Nodup) :
    ((packets_emplace_back m peer channel pkt).map Prod.fst).Nodup :=
  map_modify_keys_nodup _ _ m peer h

/-- The keys of `_packets` are distinct in a fresh object and stay distinct under the
receive callbacks, `pull_fresh_packages`, `clearPackets` and the three `forEachPacket`
functions. -/
theorem keys_nodup_invariant (env : Env) (st : ToxNetChanneled) (hk : keys_nodup st) :
    keys_nodup (clearPackets st) ∧
    (∀ peer pk, keys_nodup (lossy_packet_fn env peer st pk)) ∧
    (∀ peer pk, keys_nodup (lossless_packet_fn env peer st pk)) ∧
    (∀ (σ : Type) (fuel : Nat) (fn : σ → Nat → Nat → List Nat → Bool × σ) (s : σ)
      (r : Nat × σ × ToxNetChanneled),
      forEachPacket fuel fn s st = Except.ok r → bucket_bound st fuel → keys_nodup r.2.2) ∧
    (∀ (σ : Type) (fuel : Nat) (fn : σ → Nat → Nat → List Nat → Bool × σ) (s : σ)
      (peer : Nat) (r : Nat × σ × ToxNetChanneled),
      forEachPacketPeer fuel fn s st peer = Except.ok r → keys_nodup r.2.2) ∧
    (∀ (σ : Type) (fuel : Nat) (fn : σ → Nat → Nat → List Nat → Bool × σ) (s : σ)
      (peer channel : Nat) (r : Nat × σ × ToxNetChanneled),
      forEachPacketPeerChannel fuel fn s st peer channel = Except.ok r →
        keys_nodup r.2.2) := by
  unfold keys_nodup at hk ⊢
  refine ⟨by simp [clearPackets], ?_, ?_, ?_, ?_, ?_⟩
  · intro peer pk
    unfold lossy_packet_fn
    split_ifs
    all_goals first | exact hk | skip
    simp only
    split_ifs
    · exact hk
    · exact packets_emplace_back_keys_nodup st._packets peer _ _ hk
  · intro peer pk
    unfold lossless_packet_fn
    split_ifs
    all_goals first | exact hk | skip
    simp only
    split_ifs
    all_goals first
      | exact hk
      | exact packets_emplace_back_keys_nodup st._packets peer _ _ hk
  · intro σ fuel fn s r hr hf
    rw [forEachPacket_eq fuel fn s st hk hf] at hr
    simp only [Except.ok.injEq] at hr
    rw [← hr]
    simp only [List.map_map]
    exact hk
  · intro σ fuel fn s peer r hr
    unfold forEachPacketPeer at hr
    split at hr
    · simp at hr
    · simp only [Except.ok.injEq] at hr
      rw [← hr]
      simp only
      exact map_modify_keys_nodup _ _ st._packets peer hk
  · intro σ fuel fn s peer channel r hr
    unfold forEachPacketPeerChannel at hr
    split_ifs at hr with hc
    · split at hr
      · simp at hr
      · simp only [Except.ok.injEq] at hr
        rw [← hr]
        simp only
        exact map_modify_keys_nodup _ _ st._packets peer hk

/-! ## One received packet -/

/-- A packet of at least 3 bytes is its first byte, its second byte and a payload that is
not empty (the bytes from index 2 on). -/
theorem packet_shape (pk : List Nat) (h : 3 ≤ pk.length) :
    ∃ b rest, pk = pk.getD 0 0 :: pk.getD 1 0 :: b :: rest ∧ pk.drop 2 = b :: rest := by
  match pk, h with
  | x :: y :: b :: rest, _ => exact ⟨b, rest, by simp, by simp⟩

/-- A lossless packet on channel `c` with a marker other than 0 and 2: the payload is
appended to the FragmentBuffer, nothing else changes. -/
theorem lossless_step_fragment (env : Env) (peer c : Nat) (hc : c < 10)
    (st : ToxNetChanneled) (m b : Nat) (payload : List Nat) (hm0 : m ≠ 0) (hm2 : m ≠ 2) :
    Inbox (lossless_packet_fn env peer st ((161 + c) :: m :: b :: payload)) peer ⟨c, hc⟩
        = Inbox st peer ⟨c, hc⟩ ∧
    FragmentBuffer (lossless_packet_fn env peer st ((161 + c) :: m :: b :: payload)) peer ⟨c, hc⟩
        = FragmentBuffer st peer ⟨c, hc⟩ ++ (b :: payload) ∧
    same_except st (lossless_packet_fn env peer st ((161 + c) :: m :: b :: payload)) peer
      ⟨c, hc⟩ := by
  have hch := to_channel_id_base env 161 c hc
  have hn : ¬ 10 ≤ c := by omega
  have l2 : ¬ (payload.length + 1 + 1 + 1 < 2) := by omega
  have l3 : ¬ (payload.length + 1 + 1 + 1 < 3) := by omega
  have hfn : lossless_packet_fn env peer st ((161 + c) :: m :: b :: payload) =
      { st with _large_packets_buffer :=
          (map_modify (fun _ => [])
            (fun arr => Function.update arr ⟨c, hc⟩ (arr ⟨c, hc⟩ ++ (b :: payload)))
            st._large_packets_buffer peer) } := by
    simp [lossless_packet_fn, hch, hn, l2, l3, hm0, hm2]
  rw [hfn]
  refine ⟨rfl, ?_, rfl, rfl, rfl, ?_⟩
  · simp [FragmentBuffer,
      map_get_modify_update (fun _ => []) (fun l => l ++ (b :: payload))]
  · intro q d h
    refine ⟨rfl, ?_⟩
    have hne : ¬ (q = peer ∧ d = ⟨c, hc⟩) := by tauto
    simp [FragmentBuffer,
      map_get_modify_update (fun _ => []) (fun l => l ++ (b :: payload)), hne]

/-- The receive callbacks do not look at the service: a change of the service commutes
with them. -/
theorem lossless_packet_fn_service (env : Env) (peer : Nat) (st : ToxNetChanneled)
    (ts : ToxService) (pk : List Nat) :
    lossless_packet_fn env peer { st with _tox_service := ts } pk
      = { lossless_packet_fn env peer st pk with _tox_service := ts } := by
  unfold lossless_packet_fn
  split_ifs <;> try rfl
  all_goals (simp only; split_ifs <;> rfl)

theorem lossy_packet_fn_service (env : Env) (peer : Nat) (st : ToxNetChanneled)
    (ts : ToxService) (pk : List Nat) :
    lossy_packet_fn env peer { st with _tox_service := ts } pk
      = { lossy_packet_fn env peer st pk with _tox_service := ts } := by
  unfold lossy_packet_fn
  split_ifs <;> try rfl
  all_goals (simp only; split_ifs <;> rfl)

/-- One lossless packet that arrives from a known peer at a receiver with empty queues:
after the run of `pull_fresh_packages` the Inbox and the FragmentBuffers are those the
lossless callback produces from the state before. -/
theorem receive_lossless_single (env : Env) (st : ToxNetChanneled) (peer : Nat)
    (pk : List Nat) (hq : queues_empty st._tox_service) (hp : known_peer st peer)
    (hf : pk.head? ≠ some 160) :
    (∀ (q : Nat) (d : Fin 10),
      Inbox (receive_lossless env st (toTox peer) [pk]) q d
        = Inbox (lossless_packet_fn env peer st pk) q d) ∧
    (∀ (q : Nat) (d : Fin 10),
      FragmentBuffer (receive_lossless env st (toTox peer) [pk]) q d
        = FragmentBuffer (lossless_packet_fn env peer st pk) q d) := by
  rw [receive_lossless_eq env st peer [pk] hq hp (by
    intro f hf2
    rw [List.mem_singleton] at hf2
    rw [hf2]; exact hf)]
  simp only [List.foldl_cons, List.foldl_nil]
  rw [lossless_packet_fn_service]
  exact ⟨fun _ _ => rfl, fun _ _ => rfl⟩

/-- One lossy packet that arrives from a known peer at a receiver with empty queues:
after the run of `pull_fresh_packages` the Inbox and the FragmentBuffers are those the
lossy callback produces from the state before. -/
theorem receive_lossy_single (env : Env) (st : ToxNetChanneled) (peer : Nat)
    (pk : List Nat) (hq : queues_empty st._tox_service) (hp : known_peer st peer) :
    (∀ (q : Nat) (d : Fin 10),
      Inbox (receive_lossy env st (toTox peer) [pk]) q d
        = Inbox (lossy_packet_fn env peer st pk) q d) ∧
    (∀ (q : Nat) (d : Fin 10),
      FragmentBuffer (receive_lossy env st (toTox peer) [pk]) q d
        = FragmentBuffer (lossy_packet_fn env peer st pk) q d) := by
  rw [receive_lossy_eq env st peer [pk] hq hp]
  simp only [List.foldl_cons, List.foldl_nil]
  rw [lossy_packet_fn_service]
  exact ⟨fun _ _ => rfl, fun _ _ => rfl⟩

/-- The head of a packet of at least 3 bytes whose first byte is `161 + c` is not the
byte 160 of the internal packets. -/
theorem head_ne_160 (pk : List Nat) (c : Nat) (h : 3 ≤ pk.length)
    (h0 : pk.getD 0 0 = 161 + c) : pk.head? ≠ some 160 := by
  obtain ⟨b, rest, hpk, _⟩ := packet_shape pk h
  rw [hpk, h0]
  simp only [List.head?_cons, ne_eq, Option.some.injEq]
  omega

/-! ## The loop of sendPacketLarge in the arithmetic of size_t -/

theorem size_t_sub_eq (a b : Nat) (hb : b ≤ a) (ha : a < 2 ^ 64) : size_t_sub a b = a - b := by
  unfold size_t_sub
  omega

theorem getMaxPacketSize_lt (env : Env) : getMaxPacketSize env < 2 ^ 64 := by
  unfold getMaxPacketSize
  omega

theorem getMaxPacketSize_add_le (env : Env)
    (hT : env.sizeof_channel_id + 3 ≤ env.tox_max_custom_packet_size) :
    getMaxPacketSize env + (env.sizeof_channel_id + 3) ≤ env.tox_max_custom_packet_size := by
  unfold getMaxPacketSize
  omega

/-- With no byte remaining the loop returns at once, without a pass. -/
theorem sendPacketLarge_loop_iterations_zero (env : Env) (fr c : Nat) (d : List Nat)
    (fuel : Nat) (succ : Bool) (ts : ToxService) :
    sendPacketLarge_loop_iterations env fr c d fuel 0 succ ts = (some (succ, ts), []) := by
  cases fuel <;> simp [sendPacketLarge_loop_iterations]

/-- With a payload whose size is a `size_t` value and at most that many bytes remaining,
no subtraction of the loop wraps: the loop computes what the loop over the natural
numbers computes. -/
theorem sendPacketLarge_loop_iterations_fst (env : Env) (fr c : Nat) (d : List Nat)
    (hd : d.length < 2 ^ 64) :
    ∀ (fuel rem : Nat) (succ : Bool) (ts : ToxService), rem ≤ d.length →
      (sendPacketLarge_loop_iterations env fr c d fuel rem succ ts).1
        = sendPacketLarge_loop env fr c d fuel rem succ ts := by
  intro fuel
  induction fuel with
  | zero => intro rem succ ts _; simp [sendPacketLarge_loop_iterations, sendPacketLarge_loop]
  | succ fuel ih =>
    intro rem succ ts hrem
    by_cases h0 : rem > 0
    · have ho : size_t_sub d.length rem = d.length - rem := size_t_sub_eq _ _ hrem hd
      have hs : size_t_sub rem (min rem (getMaxPacketSize env))
          = rem - min rem (getMaxPacketSize env) :=
        size_t_sub_eq _ _ (Nat.min_le_left _ _) (by omega)
      simp only [sendPacketLarge_loop_iterations, sendPacketLarge_loop, h0, if_true, ho, hs]
      generalize ([(161 + c) % 256, if rem ≤ getMaxPacketSize env then 2 else 1]
          ++ (d.drop (d.length - rem)).take (min rem (getMaxPacketSize env))) = frame
      by_cases hstop : (!(succ && (friend_send_packet_lossless env ts fr frame).1)) = true
      · rw [if_pos hstop, if_pos hstop]
      · rw [if_neg hstop, if_neg hstop]
        exact ih _ _ _ (by omega)
    · simp [sendPacketLarge_loop_iterations, sendPacketLarge_loop, h0]

/-- The passes of the loop, whatever the iteration bound, the answers of tox and the
value of `getMaxPacketSize()`: each pass starts with a positive number of remaining
bytes that is at most the size of the payload, takes the minimum of it and of
`getMaxPacketSize()`, copies from the offset `data_size - remaining_data_size`, which
with the remaining bytes adds up to the size of the payload, and frames the bytes it
copied with the byte of the channel and the marker. -/
theorem sendPacketLarge_loop_iterations_mem (env : Env) (fr c : Nat) (d : List Nat)
    (hd : d.length < 2 ^ 64) :
    ∀ (fuel rem : Nat) (succ : Bool) (ts : ToxService), rem ≤ d.length →
      ∀ it ∈ (sendPacketLarge_loop_iterations env fr c d fuel rem succ ts).2,
        0 < it.remaining_data_size ∧ it.remaining_data_size ≤ rem ∧
        it.data_this_pk = min it.remaining_data_size (getMaxPacketSize env) ∧
        it.offset + it.remaining_data_size = d.length ∧
        it.new_data = [(161 + c) % 256,
            if it.remaining_data_size ≤ getMaxPacketSize env then 2 else 1]
          ++ (d.drop it.offset).take it.data_this_pk := by
  intro fuel
  induction fuel with
  | zero => intro rem succ ts _ it hit; simp [sendPacketLarge_loop_iterations] at hit
  | succ fuel ih =>
    intro rem succ ts hrem it hit
    by_cases h0 : rem > 0
    · have ho : size_t_sub d.length rem = d.length - rem := size_t_sub_eq _ _ hrem hd
      have hs : size_t_sub rem (min rem (getMaxPacketSize env))
          = rem - min rem (getMaxPacketSize env) :=
        size_t_sub_eq _ _ (Nat.min_le_left _ _) (by omega)
      simp only [sendPacketLarge_loop_iterations, h0, if_true, ho, hs] at hit
      have hfirst : ∀ (x : Iteration),
          x = ⟨rem, min rem (getMaxPacketSize env), d.length - rem,
            [(161 + c) % 256, if rem ≤ getMaxPacketSize env then 2 else 1]
              ++ (d.drop (d.length - rem)).take (min rem (getMaxPacketSize env))⟩ →
          0 < x.remaining_data_size ∧ x.remaining_data_size ≤ rem ∧
          x.data_this_pk = min x.remaining_data_size (getMaxPacketSize env) ∧
          x.offset + x.remaining_data_size = d.length ∧
          x.new_data = [(161 + c) % 256,
              if x.remaining_data_size ≤ getMaxPacketSize env then 2 else 1]
            ++ (d.drop x.offset).take x.data_this_pk := by
        intro x hx
        subst hx
        exact ⟨h0, Nat.le_refl _, rfl, by simp only []; omega, rfl⟩
      generalize ([(161 + c) % 256, if rem ≤ getMaxPacketSize env then 2 else 1]
          ++ (d.drop (d.length - rem)).take (min rem (getMaxPacketSize env))) = frame
        at hit hfirst
      by_cases hstop : (!(succ && (friend_send_packet_lossless env ts fr frame).1)) = true
      · rw [if_pos hstop] at hit
        simp only [List.mem_singleton] at hit
        exact hfirst it hit
      · rw [if_neg hstop] at hit
        rcases List.mem_cons.1 hit with h | h
        · exact hfirst it h
        · obtain ⟨a, b, e⟩ := ih _ _ _ (by omega) it h
          exact ⟨a, by omega, e⟩
    · simp [sendPacketLarge_loop_iterations, h0] at hit

/-- From one pass to the next the number of remaining bytes goes down by the
`data_this_pk` of the pass, as a difference of natural numbers: the first pass starts
with the initial value, and each next one with what the previous pass left. -/
theorem sendPacketLarge_loop_iterations_chain (env : Env) (fr c : Nat) (d : List Nat)
    (hd : d.length < 2 ^ 64) :
    ∀ (fuel rem : Nat) (succ : Bool) (ts : ToxService), rem ≤ d.length →
      (∀ it ∈ (sendPacketLarge_loop_iterations env fr c d fuel rem succ ts).2.head?,
        it.remaining_data_size = rem) ∧
      List.Chain' (fun a b : Iteration =>
          b.remaining_data_size + a.data_this_pk = a.remaining_data_size)
        (sendPacketLarge_loop_iterations env fr c d fuel rem succ ts).2 := by
  intro fuel
  induction fuel with
  | zero => intro rem succ ts _; simp [sendPacketLarge_loop_iterations]
  | succ fuel ih =>
    intro rem succ ts hrem
    by_cases h0 : rem > 0
    · have hs : size_t_sub rem (min rem (getMaxPacketSize env))
          = rem - min rem (getMaxPacketSize env) :=
        size_t_sub_eq _ _ (Nat.min_le_left _ _) (by omega)
      simp only [sendPacketLarge_loop_iterations, h0, if_true]
      generalize ([(161 + c) % 256, if rem ≤ getMaxPacketSize env then 2 else 1]
          ++ (d.drop (size_t_sub d.length rem)).take (min rem (getMaxPacketSize env))) = frame
      by_cases hstop : (!(succ && (friend_send_packet_lossless env ts fr frame).1)) = true
      · rw [if_pos hstop]
        simp
      · rw [if_neg hstop]
        obtain ⟨h1, h2⟩ := ih (size_t_sub rem (min rem (getMaxPacketSize env)))
          (succ && (friend_send_packet_lossless env ts fr frame).1)
          (friend_send_packet_lossless env ts fr frame).2
          (by rw [hs]; omega)
        refine ⟨by simp, ?_⟩
        rw [List.chain'_cons']
        refine ⟨?_, h2⟩
        intro y hy
        have := h1 y hy
        simp only []
        rw [this, hs]
        exact Nat.sub_add_cancel (Nat.min_le_left _ _)
    · simp [sendPacketLarge_loop_iterations, h0]

theorem chunk_count_zero (M : Nat) (hM : 1 ≤ M) : chunk_count M 0 = 0 := by
  unfold chunk_count
  exact Nat.div_eq_of_lt (by omega)

theorem chunk_count_step (M n : Nat) (hM : 1 ≤ M) (hn : 0 < n) :
    chunk_count M n = chunk_count M (n - min n M) + 1 := by
  by_cases h : n ≤ M
  · rw [Nat.min_eq_left h, Nat.sub_self, chunk_count_zero M hM]
    unfold chunk_count
    have e : n + M - 1 = (n - 1) + M := by omega
    rw [e, Nat.add_div_right _ (by omega), Nat.div_eq_of_lt (by omega)]
  · rw [Nat.min_eq_right (by omega)]
    unfold chunk_count
    have e : n + M - 1 = (n - M + M - 1) + M := by omega
    rw [e, Nat.add_div_right _ (by omega)]

/-- A run of the loop that returns true has sent the whole payload: it made as many
passes as the payload has chunks, the `data_this_pk` of its passes add up to the number
of bytes it started with, and its last pass took all the bytes that remained, which
leaves exactly 0. -/
theorem sendPacketLarge_loop_iterations_done (env : Env) (fr c : Nat) (d : List Nat)
    (hd : d.length < 2 ^ 64) (hM : 1 ≤ getMaxPacketSize env) :
    ∀ (fuel rem : Nat) (succ : Bool) (ts ts1 : ToxService), rem ≤ d.length →
      (sendPacketLarge_loop_iterations env fr c d fuel rem succ ts).1 = some (true, ts1) →
      (sendPacketLarge_loop_iterations env fr c d fuel rem succ ts).2.length
        = chunk_count (getMaxPacketSize env) rem ∧
      (∀ it ∈ (sendPacketLarge_loop_iterations env fr c d fuel rem succ ts).2.getLast?,
        it.remaining_data_size = it.data_this_pk) ∧
      ((sendPacketLarge_loop_iterations env fr c d fuel rem succ ts).2.map
        Iteration.data_this_pk).sum = rem := by
  intro fuel
  induction fuel with
  | zero =>
    intro rem succ ts ts1 _ hres
    by_cases h0 : rem > 0
    · simp [sendPacketLarge_loop_iterations, h0] at hres
    · have : rem = 0 := by omega
      subst this
      simp [sendPacketLarge_loop_iterations, chunk_count_zero _ hM]
  | succ fuel ih =>
    intro rem succ ts ts1 hrem hres
    by_cases h0 : rem > 0
    · have hs : size_t_sub rem (min rem (getMaxPacketSize env))
          = rem - min rem (getMaxPacketSize env) :=
        size_t_sub_eq _ _ (Nat.min_le_left _ _) (by omega)
      have hmin := Nat.min_le_left rem (getMaxPacketSize env)
      simp only [sendPacketLarge_loop_iterations, h0, if_true, hs] at hres ⊢
      generalize ([(161 + c) % 256, if rem ≤ getMaxPacketSize env then 2 else 1]
          ++ (d.drop (size_t_sub d.length rem)).take (min rem (getMaxPacketSize env))) = frame
        at hres ⊢
      by_cases hstop : (!(succ && (friend_send_packet_lossless env ts fr frame).1)) = true
      · rw [if_pos hstop] at hres
        simp only [Option.some.injEq, Prod.mk.injEq] at hres
        rw [hres.1] at hstop
        simp at hstop
      · rw [if_neg hstop] at hres ⊢
        obtain ⟨i1, i2, i3⟩ := ih _ _ _ ts1 (by omega) hres
        generalize (sendPacketLarge_loop_iterations env fr c d fuel
          (rem - min rem (getMaxPacketSize env))
          (succ && (friend_send_packet_lossless env ts fr frame).1)
          (friend_send_packet_lossless env ts fr frame).2).2 = its at i1 i2 i3 ⊢
        refine ⟨?_, ?_, ?_⟩
        · rw [List.length_cons, i1, ← chunk_count_step _ _ hM h0]
        · cases its with
          | nil =>
            intro it hit
            simp only [List.getLast?_singleton, Option.mem_def, Option.some.injEq] at hit
            subst hit
            simp only [List.length_nil] at i1
            have hz : ¬ (0 * getMaxPacketSize env < rem - min rem (getMaxPacketSize env)) := by
              rw [mul_lt_iff_lt_chunk_count _ _ 0 hM, ← i1]
              omega
            simp only []
            omega
          | cons a l =>
            rw [List.getLast?_cons_cons]
            exact i2
        · rw [List.map_cons, List.sum_cons, i3]
          simp only []
          omega
    · have : rem = 0 := by omega
      subst this
      simp [sendPacketLarge_loop_iterations, chunk_count_zero _ hM]

/-- The frames of the passes are the frames of the calls the loop puts on record, in
order. -/
theorem sendPacketLarge_loop_iterations_sends (env : Env) (fr c : Nat) (d : List Nat) :
    ∀ (fuel rem : Nat) (succ : Bool) (ts : ToxService) (r : Bool × ToxService),
      (sendPacketLarge_loop_iterations env fr c d fuel rem succ ts).1 = some r →
      ∃ extra, r.2 = { ts with sends := ts.sends ++ extra } ∧
        extra.map SendCall.mem
          = (sendPacketLarge_loop_iterations env fr c d fuel rem succ ts).2.map
              Iteration.new_data := by
  intro fuel
  induction fuel with
  | zero =>
    intro rem succ ts r h
    by_cases h0 : rem > 0
    · simp [sendPacketLarge_loop_iterations, h0] at h
    · simp only [sendPacketLarge_loop_iterations, h0, if_false, Option.some.injEq] at h
      subst h
      exact ⟨[], by simp, by simp [sendPacketLarge_loop_iterations]⟩
  | succ fuel ih =>
    intro rem succ ts r h
    by_cases h0 : rem > 0
    · simp only [sendPacketLarge_loop_iterations, h0, if_true] at h ⊢
      obtain ⟨fwd, hrec⟩ := friend_send_packet_lossless_record env ts fr
        ([(161 + c) % 256, if rem ≤ getMaxPacketSize env then 2 else 1]
          ++ (d.drop (size_t_sub d.length rem)).take (min rem (getMaxPacketSize env)))
      generalize ([(161 + c) % 256, if rem ≤ getMaxPacketSize env then 2 else 1]
          ++ (d.drop (size_t_sub d.length rem)).take (min rem (getMaxPacketSize env))) = frame
        at h hrec ⊢
      by_cases hstop : (!(succ && (friend_send_packet_lossless env ts fr frame).1)) = true
      · rw [if_pos hstop] at h ⊢
        simp only [Option.some.injEq] at h
        subst h
        exact ⟨[⟨true, fr, frame, fwd, (friend_send_packet_lossless env ts fr frame).1⟩],
          hrec, by simp⟩
      · rw [if_neg hstop] at h ⊢
        obtain ⟨extra, he, hm⟩ := ih _ _ _ _ h
        refine ⟨⟨true, fr, frame, fwd, (friend_send_packet_lossless env ts fr frame).1⟩
          :: extra, ?_, ?_⟩
        · rw [he, hrec]; simp [ToxService.record]
        · rw [List.map_cons, hm]; simp
    · simp only [sendPacketLarge_loop_iterations, h0, if_false, Option.some.injEq] at h
      subst h
      exact ⟨[], by simp, by simp [sendPacketLarge_loop_iterations, h0]⟩

/-- Whatever the iteration bound and the answers of tox: when the loop of
`sendPacketLarge` returns, each frame it has put on record has at most
`getMaxPacketSize() + 2` bytes. -/
theorem sendPacketLarge_loop_frame_length (env : Env) (fr c : Nat) (d : List Nat) :
    ∀ (fuel rem : Nat) (succ : Bool) (ts : ToxService) (r : Bool × ToxService),
      sendPacketLarge_loop env fr c d fuel rem succ ts = some r →
      ∃ extra, r.2 = { ts with sends := ts.sends ++ extra } ∧
        ∀ call ∈ extra, call.mem.length ≤ getMaxPacketSize env + 2 := by
  intro fuel
  induction fuel with
  | zero =>
    intro rem succ ts r h
    by_cases hrem : rem > 0
    · simp [sendPacketLarge_loop, hrem] at h
    · simp only [sendPacketLarge_loop, hrem, if_false, Option.some.injEq] at h
      exact ⟨[], by rw [← h]; simp, by simp⟩
  | succ fuel ih =>
    intro rem succ ts r h
    by_cases hrem : rem > 0
    · simp only [sendPacketLarge_loop, hrem, if_true] at h
      obtain ⟨fwd, hrec⟩ := friend_send_packet_lossless_record env ts fr
        ([(161 + c) % 256, if rem ≤ getMaxPacketSize env then 2 else 1]
          ++ (d.drop (d.length - rem)).take (min rem (getMaxPacketSize env)))
      have hlen : ([(161 + c) % 256, if rem ≤ getMaxPacketSize env then 2 else 1]
          ++ (d.drop (d.length - rem)).take (min rem (getMaxPacketSize env))).length
          ≤ getMaxPacketSize env + 2 := by
        rw [List.length_append, List.length_take]
        have := Nat.min_le_right rem (getMaxPacketSize env)
        have := Nat.min_le_left (min rem (getMaxPacketSize env))
          (d.drop (d.length - rem)).length
        simp only [List.length_cons, List.length_nil]
        omega
      generalize ([(161 + c) % 256, if rem ≤ getMaxPacketSize env then 2 else 1]
          ++ (d.drop (d.length - rem)).take (min rem (getMaxPacketSize env))) = frame
        at h hrec hlen
      by_cases hstop : (!(succ && (friend_send_packet_lossless env ts fr frame).1)) = true
      · rw [if_pos hstop] at h
        simp only [Option.some.injEq] at h
        refine ⟨[⟨true, fr, frame, fwd, (friend_send_packet_lossless env ts fr frame).1⟩],
          ?_, ?_⟩
        · rw [← h]; exact hrec
        · intro call hcall
          rw [List.mem_singleton] at hcall
          subst hcall
          exact hlen
      · rw [if_neg hstop] at h
        obtain ⟨extra, he, hall⟩ := ih _ _ _ _ h
        refine ⟨⟨true, fr, frame, fwd, (friend_send_packet_lossless env ts fr frame).1⟩
          :: extra, ?_, ?_⟩
        · rw [he, hrec]; simp [ToxService.record]
        · intro call hcall
          rcases List.mem_cons.1 hcall with hc1 | hc1
          · subst hc1; exact hlen
          · exact hall call hc1
    · simp only [sendPacketLarge_loop, hrem, if_false, Option.some.injEq] at h
      exact ⟨[], by rw [← h]; simp, by simp⟩

/-- Each frame `sendPacket` hands to a send wrapper is two bytes longer than the
payload. -/
theorem sendPacket_frame_length (env : Env) (st : ToxNetChanneled) (peer c : Nat)
    (data : Option (List Nat)) :
    ∀ call ∈ new_sends st._tox_service (sendPacket env st peer c data).2._tox_service,
      ∃ p, data = some p ∧ call.mem.length = p.length + 2 := by
  intro call hcall
  by_cases hrej : 10 ≤ c ∨ data = none ∨ data = some []
  · rw [sendPacket_reject env st peer c data hrej] at hcall
    simp [new_sends] at hcall
  · cases data with
    | none => exact absurd (Or.inr (Or.inl rfl)) hrej
    | some p =>
      have hp : p ≠ [] := fun h => hrej (Or.inr (Or.inr (by rw [h])))
      have hc : c < 10 := by
        by_contra h
        exact hrej (Or.inl (by omega))
      obtain ⟨fwd, hs⟩ := sendPacket_new_sends env st peer c p hc hp
      rw [hs, List.mem_singleton] at hcall
      subst hcall
      exact ⟨p, rfl, by simp⟩

/-- The calls `sendPacketLarge` puts on record, when it returns: each frame has at most
`getMaxPacketSize() + 2` bytes. -/
theorem sendPacketLarge_frame_length (env : Env) (st : ToxNetChanneled) (fuel peer c : Nat)
    (data : Option (List Nat)) (r : Bool × ToxNetChanneled)
    (h : sendPacketLarge fuel env st peer c data = some r) :
    ∀ call ∈ new_sends st._tox_service r.2._tox_service,
      call.mem.length ≤ getMaxPacketSize env + 2 := by
  unfold sendPacketLarge at h
  by_cases hc : c ≥ 10
  · simp only [hc, dite_true, Option.some.injEq] at h
    subst h
    simp [new_sends]
  · simp only [hc, dite_false] at h
    cases data with
    | none =>
      simp only [Option.some.injEq] at h
      subst h
      simp [new_sends]
    | some d =>
      simp only [] at h
      by_cases h1 : d.length < 1
      · rw [if_pos h1] at h
        simp only [Option.some.injEq] at h
        subst h
        simp [new_sends]
      · rw [if_neg h1] at h
        by_cases h2 : st._c_type_arr ⟨c, Nat.lt_of_not_ge hc⟩ ≠ channel_type.LOSSLESS
        · rw [if_pos h2] at h
          simp only [Option.some.injEq] at h
          subst h
          simp [new_sends]
        · rw [if_neg h2] at h
          by_cases h3 : d.length ≤ getMaxPacketSize env
          · rw [if_pos h3] at h
            simp only [Option.some.injEq] at h
            subst h
            intro call hcall
            obtain ⟨p, hp, hl⟩ := sendPacket_frame_length env st peer c (some d) call hcall
            simp only [Option.some.injEq] at hp
            subst hp
            omega
          · rw [if_neg h3] at h
            cases hloop : sendPacketLarge_loop env (toTox peer) c d fuel d.length true
                st._tox_service with
            | none => rw [hloop] at h; simp at h
            | some r1 =>
              rw [hloop] at h
              simp only [Option.map_some', Option.some.injEq] at h
              subst h
              obtain ⟨extra, he, hall⟩ := sendPacketLarge_loop_frame_length env (toTox peer)
                c d fuel d.length true st._tox_service r1 hloop
              simp only [he, new_sends_append]
              exact hall

/-! ## Packets of different peers and channels -/

/-- A lossless packet of at least 3 bytes with the first byte `161 + c`, whatever its
marker, changes at most the Inbox bucket and the FragmentBuffer of the peer and `c`. -/
theorem lossless_packet_fn_same_except (env : Env) (peer c : Nat) (hc : c < 10)
    (st : ToxNetChanneled) (pk : List Nat) (hlen : 3 ≤ pk.length)
    (h0 : pk.getD 0 0 = 161 + c) :
    same_except st (lossless_packet_fn env peer st pk) peer ⟨c, hc⟩ := by
  obtain ⟨b, rest, hpk, _⟩ := packet_shape pk hlen
  rw [h0] at hpk
  by_cases hm0 : pk.getD 1 0 = 0
  · rw [hm0] at hpk
    rw [hpk]
    exact (lossless_step_standalone env peer c hc st b rest).2.2
  · by_cases hm2 : pk.getD 1 0 = 2
    · rw [hm2] at hpk
      rw [hpk]
      exact (lossless_step_last env peer c hc st b rest).2.2
    · have h := (lossless_step_fragment env peer c hc st (pk.getD 1 0) b rest hm0 hm2).2.2
      rw [← hpk] at h
      exact h

/-- A lossless packet from `peer` leaves the Inbox bucket and the FragmentBuffer of every
peer and channel alone that is not the peer and the channel of its first byte. -/
theorem lossless_packet_fn_other_key (env : Env) (peer : Nat) (st : ToxNetChanneled)
    (pk : List Nat) (hb : pk.getD 0 0 < 256) (q : Nat) (d : Fin 10)
    (h : q ≠ peer ∨ pk.getD 0 0 ≠ 161 + d.val) :
    Inbox (lossless_packet_fn env peer st pk) q d = Inbox st q d ∧
    FragmentBuffer (lossless_packet_fn env peer st pk) q d = FragmentBuffer st q d := by
  by_cases hlen : pk.length < 3
  · rw [lossless_packet_fn_short env peer st pk hlen]
    exact ⟨rfl, rfl⟩
  · by_cases hch : 10 ≤ to_channel_id env (pk.getD 0 0) 161
    · rw [lossless_packet_fn_bad_channel env peer st pk hch]
      exact ⟨rfl, rfl⟩
    · have hlt : to_channel_id env (pk.getD 0 0) 161 < 10 := by omega
      have hrange := (to_channel_id_lt_ten_iff env (pk.getD 0 0) 161 hb (by decide)).1 hlt
      have h0 : pk.getD 0 0 = 161 + (pk.getD 0 0 - 161) := by omega
      have hc : pk.getD 0 0 - 161 < 10 := by omega
      have hs := lossless_packet_fn_same_except env peer (pk.getD 0 0 - 161) hc st pk
        (by omega) h0
      apply hs.2.2.2 q d
      rcases h with h | h
      · exact Or.inl h
      · right
        intro hd
        apply h
        rw [hd]
        exact h0

/-- A lossy packet from `peer` leaves the Inbox bucket of every peer and channel alone
that is not the peer and the channel of its first byte, and every FragmentBuffer. -/
theorem lossy_packet_fn_other_key (env : Env) (peer : Nat) (st : ToxNetChanneled)
    (pk : List Nat) (hb : pk.getD 0 0 < 256) (q : Nat) (d : Fin 10) :
    ((q ≠ peer ∨ pk.getD 0 0 ≠ 192 + d.val) →
      Inbox (lossy_packet_fn env peer st pk) q d = Inbox st q d) ∧
    FragmentBuffer (lossy_packet_fn env peer st pk) q d = FragmentBuffer st q d := by
  by_cases hlen : pk.length < 3
  · rw [lossy_packet_fn_short env peer st pk hlen]
    exact ⟨fun _ => rfl, rfl⟩
  · by_cases hch : 10 ≤ to_channel_id env (pk.getD 0 0) 192
    · rw [lossy_packet_fn_bad_channel env peer st pk hch]
      exact ⟨fun _ => rfl, rfl⟩
    · have hlt : to_channel_id env (pk.getD 0 0) 192 < 10 := by omega
      have hrange := (to_channel_id_lt_ten_iff env (pk.getD 0 0) 192 hb (by decide)).1 hlt
      have h0 : pk.getD 0 0 = 192 + (pk.getD 0 0 - 192) := by omega
      have hc : pk.getD 0 0 - 192 < 10 := by omega
      obtain ⟨b, rest, hpk, _⟩ := packet_shape pk (by omega)
      have hs := lossy_step env peer (pk.getD 0 0 - 192) hc st (pk.getD 1 0) b rest
      rw [← h0, ← hpk] at hs
      refine ⟨fun h => (hs.2.2.2.2.2 q d ?_).1, ?_⟩
      · rcases h with h | h
        · exact Or.inl h
        · right
          intro hd
          apply h
          rw [hd]
          exact h0
      · by_cases hk : q = peer ∧ d = ⟨pk.getD 0 0 - 192, hc⟩
        · rw [hk.1, hk.2]; exact hs.2.1
        · exact (hs.2.2.2.2.2 q d (by tauto)).2

/-- What a lossless packet with the first byte `161 + c` makes of the Inbox bucket and of
the FragmentBuffer of the peer and `c` depends on nothing but these two and the
packet. -/
theorem lossless_packet_fn_local (env : Env) (peer c : Nat) (hc : c < 10)
    (st st1 : ToxNetChanneled) (pk : List Nat) (h0 : pk.getD 0 0 = 161 + c)
    (hi : Inbox st peer ⟨c, hc⟩ = Inbox st1 peer ⟨c, hc⟩)
    (hf : FragmentBuffer st peer ⟨c, hc⟩ = FragmentBuffer st1 peer ⟨c, hc⟩) :
    Inbox (lossless_packet_fn env peer st pk) peer ⟨c, hc⟩
      = Inbox (lossless_packet_fn env peer st1 pk) peer ⟨c, hc⟩ ∧
    FragmentBuffer (lossless_packet_fn env peer st pk) peer ⟨c, hc⟩
      = FragmentBuffer (lossless_packet_fn env peer st1 pk) peer ⟨c, hc⟩ := by
  by_cases hlen : pk.length < 3
  · rw [lossless_packet_fn_short env peer st pk hlen,
      lossless_packet_fn_short env peer st1 pk hlen]
    exact ⟨hi, hf⟩
  · obtain ⟨b, rest, hpk, _⟩ := packet_shape pk (by omega)
    rw [h0] at hpk
    by_cases hm0 : pk.getD 1 0 = 0
    · rw [hm0] at hpk
      rw [hpk]
      obtain ⟨a1, a2, _⟩ := lossless_step_standalone env peer c hc st b rest
      obtain ⟨b1, b2, _⟩ := lossless_step_standalone env peer c hc st1 b rest
      rw [a1, a2, b1, b2, hi, hf]
      exact ⟨rfl, rfl⟩
    · by_cases hm2 : pk.getD 1 0 = 2
      · rw [hm2] at hpk
        rw [hpk]
        obtain ⟨a1, a2, _⟩ := lossless_step_last env peer c hc st b rest
        obtain ⟨b1, b2, _⟩ := lossless_step_last env peer c hc st1 b rest
        rw [a1, a2, b1, b2, hi, hf]
        exact ⟨rfl, rfl⟩
      · obtain ⟨a1, a2, _⟩ := lossless_step_fragment env peer c hc st (pk.getD 1 0) b rest
          hm0 hm2
        obtain ⟨b1, b2, _⟩ := lossless_step_fragment env peer c hc st1 (pk.getD 1 0) b rest
          hm0 hm2
        rw [← hpk] at a1 a2 b1 b2
        rw [a1, a2, b1, b2, hi, hf]
        exact ⟨rfl, rfl⟩

/-- The Inbox bucket and the FragmentBuffer of a peer and a channel after a log of
lossless packets are those the packets of the log for this peer and channel produce on
their own, whatever else the log holds in between. -/
theorem ingest_lossless_projection (env : Env) (q c : Nat) (hc : c < 10) :
    ∀ (log : List (Nat × List Nat)) (st st1 : ToxNetChanneled),
      (∀ e ∈ log, e.2.getD 0 0 < 256) →
      Inbox st q ⟨c, hc⟩ = Inbox st1 q ⟨c, hc⟩ →
      FragmentBuffer st q ⟨c, hc⟩ = FragmentBuffer st1 q ⟨c, hc⟩ →
      Inbox (ingest_lossless env st log) q ⟨c, hc⟩
        = Inbox ((packets_for q c log).foldl (lossless_packet_fn env q) st1) q ⟨c, hc⟩ ∧
      FragmentBuffer (ingest_lossless env st log) q ⟨c, hc⟩
        = FragmentBuffer ((packets_for q c log).foldl (lossless_packet_fn env q) st1) q
            ⟨c, hc⟩ := by
  intro log
  induction log with
  | nil => intro st st1 _ hi hf; exact ⟨hi, hf⟩
  | cons e rest ih =>
    intro st st1 hb hi hf
    have hbe := hb e (List.mem_cons_self _ _)
    have hbr : ∀ x ∈ rest, x.2.getD 0 0 < 256 :=
      fun x hx => hb x (List.mem_cons_of_mem _ hx)
    have hstep : ingest_lossless env st (e :: rest)
        = ingest_lossless env (lossless_packet_fn env e.1 st e.2) rest := rfl
    rw [hstep]
    by_cases hk : e.1 = q ∧ e.2.getD 0 0 = 161 + c
    · have hd : decide (e.1 = q ∧ e.2.getD 0 0 = 161 + c) = true := decide_eq_true hk
      have hpf : packets_for q c (e :: rest) = e.2 :: packets_for q c rest := by
        simp only [packets_for, List.filter_cons, hd, if_true, List.map_cons]
      rw [hpf, List.foldl_cons]
      obtain ⟨l1, l2⟩ := lossless_packet_fn_local env q c hc st st1 e.2 hk.2 hi hf
      rw [hk.1]
      exact ih _ _ hbr l1 l2
    · have hd : decide (e.1 = q ∧ e.2.getD 0 0 = 161 + c) = false := decide_eq_false hk
      have hpf : packets_for q c (e :: rest) = packets_for q c rest := by
        simp only [packets_for, List.filter_cons, hd, Bool.false_eq_true, if_false]
      rw [hpf]
      obtain ⟨o1, o2⟩ := lossless_packet_fn_other_key env e.1 st e.2 hbe q ⟨c, hc⟩ (by
        by_cases h1 : q = e.1
        · right
          intro h2
          exact hk ⟨h1.symm, h2⟩
        · exact Or.inl h1)
      exact ih _ _ hbr (o1.trans hi) (o2.trans hf)

/-- The Inbox and the FragmentBuffers a fold of the lossless callback produces do not
depend on the service of the state it starts from. -/
theorem foldl_lossless_packet_fn_service (env : Env) (peer : Nat) :
    ∀ (frames : List (List Nat)) (st : ToxNetChanneled) (ts : ToxService),
      frames.foldl (lossless_packet_fn env peer) { st with _tox_service := ts }
        = { frames.foldl (lossless_packet_fn env peer) st with _tox_service := ts } := by
  intro frames
  induction frames with
  | nil => intro st ts; rfl
  | cons f rest ih =>
    intro st ts
    rw [List.foldl_cons, List.foldl_cons, lossless_packet_fn_service, ih]

/-- The lossless packets of one peer, ingested in order, as a log. -/
theorem ingest_lossless_one_peer (env : Env) (peer : Nat) :
    ∀ (frames : List (List Nat)) (st : ToxNetChanneled),
      ingest_lossless env st (frames.map (fun f => (peer, f)))
        = frames.foldl (lossless_packet_fn env peer) st := by
  intro frames
  induction frames with
  | nil => intro st; rfl
  | cons f rest ih =>
    intro st
    simp only [List.map_cons, List.foldl_cons]
    exact ih _

/-! ## A FragmentBuffer that was left behind -/

/-- Lossless packets that arrive from a known peer at a receiver with empty queues: after
the run of `pull_fresh_packages` the Inbox and the FragmentBuffers are those the lossless
callback produces, packet by packet, from the state before. -/
theorem receive_lossless_fold (env : Env) (st : ToxNetChanneled) (peer : Nat)
    (frames : List (List Nat)) (hq : queues_empty st._tox_service) (hp : known_peer st peer)
    (hf : ∀ f ∈ frames, f.head? ≠ some 160) (q : Nat) (d : Fin 10) :
    Inbox (receive_lossless env st (toTox peer) frames) q d
      = Inbox (frames.foldl (lossless_packet_fn env peer) st) q d ∧
    FragmentBuffer (receive_lossless env st (toTox peer) frames) q d
      = FragmentBuffer (frames.foldl (lossless_packet_fn env peer) st) q d := by
  rw [receive_lossless_eq env st peer frames hq hp hf, foldl_lossless_packet_fn_service]
  exact ⟨rfl, rfl⟩

/-- No fragment starts with the byte 160 of the internal packets. -/
theorem fragment_head_ne_160 (M c : Nat) (p : List Nat) (hc : c < 10) (l : List Nat) :
    ∀ f ∈ l.map (fragment M c p), f.head? ≠ some 160 := by
  intro f hf
  obtain ⟨i, _, rfl⟩ := List.mem_map.1 hf
  simp only [fragment, channel_byte_lossless c hc, List.cons_append, List.head?_cons,
    ne_eq, Option.some.injEq]
  omega

/-- Ingesting the fragments `j, ..., j + cnt - 1` of a payload that has more fragments
after them: their bytes are appended to the FragmentBuffer, the Inbox stays as it is. -/
theorem ingest_fragments_partial (env : Env) (peer c : Nat) (hc : c < 10) (M : Nat)
    (p : List Nat) (hM : 1 ≤ M) :
    ∀ (cnt j : Nat) (st : ToxNetChanneled), (j + cnt) * M < p.length →
      Inbox (((List.range' j cnt).map (fragment M c p)).foldl
          (lossless_packet_fn env peer) st) peer ⟨c, hc⟩ = Inbox st peer ⟨c, hc⟩ ∧
      FragmentBuffer (((List.range' j cnt).map (fragment M c p)).foldl
          (lossless_packet_fn env peer) st) peer ⟨c, hc⟩
        = FragmentBuffer st peer ⟨c, hc⟩ ++ (p.drop (j * M)).take (cnt * M) ∧
      same_except st (((List.range' j cnt).map (fragment M c p)).foldl
          (lossless_packet_fn env peer) st) peer ⟨c, hc⟩ := by
  intro cnt
  induction cnt with
  | zero =>
    intro j st _
    refine ⟨rfl, ?_, same_except_refl _ _ _⟩
    simp
  | succ cnt ih =>
    intro j st h
    have hmid : (j + 1) * M < p.length := by
      have : (j + 1) * M ≤ (j + (cnt + 1)) * M := Nat.mul_le_mul_right M (by omega)
      omega
    obtain ⟨b, rest, hfr, hbytes, _⟩ := fragment_mid M c j p hc hM hmid
    obtain ⟨s1, s2, s3⟩ := lossless_step_part env peer c hc st b rest
    rw [List.range'_succ, List.map_cons, List.foldl_cons, hfr]
    obtain ⟨t1, t2, t3⟩ := ih (j + 1)
      (lossless_packet_fn env peer st ((161 + c) :: 1 :: b :: rest))
      (by rw [show j + 1 + cnt = j + (cnt + 1) by omega]; exact h)
    refine ⟨t1.trans s1, ?_, same_except_trans s3 t3⟩
    rw [t2, s2, hbytes, List.append_assoc]
    congr 1
    have hd : List.drop M (List.drop (j * M) p) = List.drop ((j + 1) * M) p := by
      rw [List.drop_drop, Nat.succ_mul]
    rw [Nat.succ_mul cnt M, Nat.add_comm (cnt * M) M, List.take_add, hd]

/-- A lossless packet with marker 0, whatever else it holds, leaves every FragmentBuffer
as it is. -/
theorem lossless_packet_fn_marker_0_buffer (env : Env) (peer : Nat) (st : ToxNetChanneled)
    (pk : List Nat) (h1 : pk.getD 1 0 = 0) :
    (lossless_packet_fn env peer st pk)._large_packets_buffer = st._large_packets_buffer := by
  have hl : (pk.getD 1 0 != 0) = false := by rw [h1]; rfl
  unfold lossless_packet_fn
  simp only [hl, Bool.not_false, if_true]
  split_ifs <;> rfl

/-- A lossy packet, whatever it holds, leaves every FragmentBuffer as it is. -/
theorem lossy_packet_fn_buffer (env : Env) (peer : Nat) (st : ToxNetChanneled)
    (pk : List Nat) :
    (lossy_packet_fn env peer st pk)._large_packets_buffer = st._large_packets_buffer := by
  unfold lossy_packet_fn
  split_ifs <;> try rfl
  all_goals (simp only; split_ifs <;> rfl)

/-- The function `sendPacket` changes nothing but the service. -/
theorem sendPacket_buffer (env : Env) (st : ToxNetChanneled) (peer c : Nat)
    (data : Option (List Nat)) :
    (sendPacket env st peer c data).2._large_packets_buffer = st._large_packets_buffer ∧
    (sendPacket env st peer c data).2._packets = st._packets := by
  unfold sendPacket
  split_ifs
  · exact ⟨rfl, rfl⟩
  · cases data with
    | none => exact ⟨rfl, rfl⟩
    | some d =>
      simp only
      split_ifs <;> exact ⟨rfl, rfl⟩

/-- The function `sendPacketLarge` changes nothing but the service. -/
theorem sendPacketLarge_buffer (env : Env) (st : ToxNetChanneled) (fuel peer c : Nat)
    (data : Option (List Nat)) (r : Bool × ToxNetChanneled)
    (h : sendPacketLarge fuel env st peer c data = some r) :
    r.2._large_packets_buffer = st._large_packets_buffer ∧ r.2._packets = st._packets := by
  unfold sendPacketLarge at h
  by_cases hc : c ≥ 10
  · simp only [hc, dite_true, Option.some.injEq] at h
    subst h
    exact ⟨rfl, rfl⟩
  · simp only [hc, dite_false] at h
    cases data with
    | none =>
      simp only [Option.some.injEq] at h
      subst h
      exact ⟨rfl, rfl⟩
    | some d =>
      simp only [] at h
      by_cases h1 : d.length < 1
      · rw [if_pos h1] at h
        simp only [Option.some.injEq] at h
        subst h
        exact ⟨rfl, rfl⟩
      · rw [if_neg h1] at h
        by_cases h2 : st._c_type_arr ⟨c, Nat.lt_of_not_ge hc⟩ ≠ channel_type.LOSSLESS
        · rw [if_pos h2] at h
          simp only [Option.some.injEq] at h
          subst h
          exact ⟨rfl, rfl⟩
        · rw [if_neg h2] at h
          by_cases h3 : d.length ≤ getMaxPacketSize env
          · rw [if_pos h3] at h
            simp only [Option.some.injEq] at h
            subst h
            exact sendPacket_buffer env st peer c (some d)
          · rw [if_neg h3] at h
            cases hloop : sendPacketLarge_loop env (toTox peer) c d fuel d.length true
                st._tox_service with
            | none => rw [hloop] at h; simp at h
            | some r1 =>
              rw [hloop] at h
              simp only [Option.map_some', Option.some.injEq] at h
              subst h
              exact ⟨rfl, rfl⟩

/-- The three `forEachPacket` functions leave every FragmentBuffer as it is, whatever
the visitor and the iteration bound. -/
theorem forEachPacket_buffer {σ : Type} (fuel : Nat)
    (fn : σ → Nat → Nat → List Nat → Bool × σ) (s : σ) (st : ToxNetChanneled) (peer c : Nat)
    (r : Nat × σ × ToxNetChanneled) :
    (forEachPacket fuel fn s st = Except.ok r →
      r.2.2._large_packets_buffer = st._large_packets_buffer) ∧
    (forEachPacketPeer fuel fn s st peer = Except.ok r →
      r.2.2._large_packets_buffer = st._large_packets_buffer) ∧
    (forEachPacketPeerChannel fuel fn s st peer c = Except.ok r →
      r.2.2._large_packets_buffer = st._large_packets_buffer) := by
  refine ⟨?_, ?_, ?_⟩
  · intro h
    unfold forEachPacket at h
    cases hx : forEach_entries fn fuel st._packets s 0 with
    | none => rw [hx] at h; simp at h
    | some x =>
      rw [hx] at h
      simp only [Except.ok.injEq] at h
      subst h
      rfl
  · intro h
    unfold forEachPacketPeer at h
    cases hx : forEach_channels fn peer fuel channels (map_get (fun _ => []) st._packets peer)
        s 0 with
    | none => rw [hx] at h; simp at h
    | some x =>
      rw [hx] at h
      simp only [Except.ok.injEq] at h
      subst h
      rfl
  · intro h
    unfold forEachPacketPeerChannel at h
    by_cases hc : c < 10
    · simp only [hc, dite_true] at h
      cases hx : forEach_loop fn peer c fuel
          (map_get (fun _ => []) st._packets peer ⟨c, hc⟩) 0 s 0 with
      | none => rw [hx] at h; simp at h
      | some x =>
        rw [hx] at h
        simp only [Except.ok.injEq] at h
        subst h
        rfl
    · simp [hc] at h

/-! ## The claims -/

/-- C1 fails on a channel configured LOSSY: with all ten channels LOSSY and tox accepting
every packet, `sendPacket` of the one byte payload 7 on channel 0 builds the frame
192, 0, 7, which `friend_send_packet` refuses without calling tox (192 < 200), and
returns false; no frame reaches the receiver and its Inbox stays empty, although the
receiver would have taken the frame (the last part). -/
theorem C1_lossy_channel_send_refused :
    (sendPacket env_200 st_lossy 5 0 (some [7])).1 = false ∧
    new_sends st_lossy._tox_service (sendPacket env_200 st_lossy 5 0 (some [7])).2._tox_service
      = [⟨false, 5, [192, 0, 7], false, false⟩] ∧
    env_200.tox_friend_send_lossy_packet 0 5 [192, 0, 7] = true ∧
    Inbox (receive_lossy env_200 st_lossy (toTox 5)
      (((new_sends st_lossy._tox_service
          (sendPacket env_200 st_lossy 5 0 (some [7])).2._tox_service).filter
            (fun s => s.forwarded && s.result)).map SendCall.mem)) 5 ⟨0, by decide⟩ = [] ∧
    Inbox (receive_lossy env_200 st_lossy (toTox 5) [[192, 0, 7]]) 5 ⟨0, by decide⟩ = [[7]] := by
  decide

/-- C2: on a LOSSLESS channel `c < 10`, for a payload longer than
`getMaxPacketSize() >= 1`, with tox accepting every send: `sendPacketLarge` returns true,
and when the frames it sent arrive, in the order sent, at a receiver that knows the
sender as `peer`, has empty receive queues and an empty FragmentBuffer for `peer` and
`c`, then one run of `pull_fresh_packages` appends exactly one entry to the Inbox of
`peer` and `c`, equal to the payload, leaves that FragmentBuffer empty, and changes no
Inbox bucket and no FragmentBuffer of another peer or channel. -/
theorem C2_sendPacketLarge_roundtrip (env renv : Env) (snd rcv : ToxNetChanneled)
    (dest peer c fuel : Nat) (p : List Nat) (hc : c < 10)
    (hl : snd._c_type_arr ⟨c, hc⟩ = channel_type.LOSSLESS)
    (hM : 1 ≤ getMaxPacketSize env) (hp : getMaxPacketSize env < p.length)
    (hfuel : chunk_count (getMaxPacketSize env) p.length ≤ fuel)
    (hok : ∀ j, j < chunk_count (getMaxPacketSize env) p.length →
      env.tox_friend_send_lossless_packet (snd._tox_service.sends.length + j) (toTox dest)
        (fragment (getMaxPacketSize env) c p j) = true)
    (hq : queues_empty rcv._tox_service) (hk : known_peer rcv peer)
    (hb : FragmentBuffer rcv peer ⟨c, hc⟩ = []) :
    ∃ snd1, sendPacketLarge fuel env snd dest c (some p) = some (true, snd1) ∧
      Inbox (receive_lossless renv rcv (toTox peer)
          ((new_sends snd._tox_service snd1._tox_service).map SendCall.mem)) peer ⟨c, hc⟩
        = Inbox rcv peer ⟨c, hc⟩ ++ [p] ∧
      FragmentBuffer (receive_lossless renv rcv (toTox peer)
          ((new_sends snd._tox_service snd1._tox_service).map SendCall.mem)) peer ⟨c, hc⟩
        = [] ∧
      ∀ (q : Nat) (d : Fin 10), (q ≠ peer ∨ d ≠ ⟨c, hc⟩) →
        Inbox (receive_lossless renv rcv (toTox peer)
            ((new_sends snd._tox_service snd1._tox_service).map SendCall.mem)) q d
          = Inbox rcv q d ∧
        FragmentBuffer (receive_lossless renv rcv (toTox peer)
            ((new_sends snd._tox_service snd1._tox_service).map SendCall.mem)) q d
          = FragmentBuffer rcv q d := by
  have hsend := send_in_order_all env (toTox dest) (getMaxPacketSize env) c p hc
    (chunk_count (getMaxPacketSize env) p.length) 0 snd._tox_service
    (by intro i hi; simpa using hok i hi)
  have hrun := sendPacketLarge_large_eq env snd dest c fuel p hc hl hM hp hfuel
  simp only [fragments, List.range_eq_range', hsend] at hrun
  have hpos := chunk_count_pos (getMaxPacketSize env) p.length hM (by omega)
  refine ⟨_, hrun, ?_⟩
  simp only [new_sends_append, List.map_map]
  have hframes : (List.range' 0 (chunk_count (getMaxPacketSize env) p.length)).map
      (SendCall.mem ∘ fun i =>
        (⟨true, toTox dest, fragment (getMaxPacketSize env) c p i, true, true⟩ : SendCall))
      = (List.range' 0 (chunk_count (getMaxPacketSize env) p.length - 1 + 1)).map
          (fragment (getMaxPacketSize env) c p) := by
    rw [Nat.sub_add_cancel hpos]
    apply List.map_congr_left
    intro i _
    rfl
  rw [hframes]
  have hheads : ∀ f ∈ (List.range' 0 (chunk_count (getMaxPacketSize env) p.length - 1 + 1)).map
      (fragment (getMaxPacketSize env) c p), f.head? ≠ some 160 := by
    intro f hf
    obtain ⟨i, _, rfl⟩ := List.mem_map.1 hf
    simp only [fragment, channel_byte_lossless c hc, List.cons_append, List.head?_cons,
      ne_eq, Option.some.injEq]
    omega
  rw [receive_lossless_eq renv rcv peer _ hq hk hheads]
  obtain ⟨i1, i2, i3⟩ := ingest_fragments renv peer c hc (getMaxPacketSize env) p hM
    (chunk_count (getMaxPacketSize env) p.length - 1) 0
    { rcv with _tox_service :=
        (((List.range' 0 (chunk_count (getMaxPacketSize env) p.length - 1 + 1)).map
            (fragment (getMaxPacketSize env) c p)).foldl
          (fun ts f => friend_lossless_packet_cb ts (toTox peer) f) rcv._tox_service) }
    (by omega)
  refine ⟨?_, i2, ?_⟩
  · rw [i1]
    have e1 : FragmentBuffer
        { rcv with _tox_service :=
            (((List.range' 0 (chunk_count (getMaxPacketSize env) p.length - 1 + 1)).map
                (fragment (getMaxPacketSize env) c p)).foldl
              (fun ts f => friend_lossless_packet_cb ts (toTox peer) f) rcv._tox_service) }
        peer ⟨c, hc⟩ = [] := hb
    rw [e1]
    simp [Inbox]
  · intro q d hqd
    exact i3.2.2.2 q d hqd

/-- C2, with `getMaxPacketSize() = 2`: the payload 1, 2, 3, 4, 5 is sent on channel 0
as three frames and arrives as one Inbox entry 1, 2, 3, 4, 5. -/
theorem C2_sendPacketLarge_roundtrip_witness :
    (∃ snd1, sendPacketLarge 3 env_2 st_lossless 9 0 (some [1, 2, 3, 4, 5])
        = some (true, snd1) ∧
      Inbox (receive_lossless env_2 st_lossless (toTox 5)
          ((new_sends st_lossless._tox_service snd1._tox_service).map SendCall.mem)) 5
          ⟨0, by decide⟩
        = Inbox st_lossless 5 ⟨0, by decide⟩ ++ [[1, 2, 3, 4, 5]] ∧
      FragmentBuffer (receive_lossless env_2 st_lossless (toTox 5)
          ((new_sends st_lossless._tox_service snd1._tox_service).map SendCall.mem)) 5
          ⟨0, by decide⟩
        = [] ∧
      ∀ (q : Nat) (d : Fin 10), (q ≠ 5 ∨ d ≠ ⟨0, by decide⟩) →
        Inbox (receive_lossless env_2 st_lossless (toTox 5)
            ((new_sends st_lossless._tox_service snd1._tox_service).map SendCall.mem)) q d
          = Inbox st_lossless q d ∧
        FragmentBuffer (receive_lossless env_2 st_lossless (toTox 5)
            ((new_sends st_lossless._tox_service snd1._tox_service).map SendCall.mem)) q d
          = FragmentBuffer st_lossless q d) ∧
    Inbox (receive_lossless env_2 st_lossless (toTox 5)
        [[161, 1, 1, 2], [161, 1, 3, 4], [161, 2, 5]]) 5 ⟨0, by decide⟩ = [[1, 2, 3, 4, 5]] :=
  ⟨C2_sendPacketLarge_roundtrip env_2 env_2 st_lossless st_lossless 9 5 0 3 [1, 2, 3, 4, 5]
      (by decide) rfl (by decide) (by decide) (by decide) (fun _ _ => rfl)
      (by intro e he; simp [st_lossless] at he)
      ⟨by simp [st_lossless], by simp [st_lossless], by intro q hq _; simpa [st_lossless] using hq⟩
      rfl,
    by decide⟩

/-- C3: on a LOSSLESS channel `c < 10`, with `M = getMaxPacketSize() >= 1`, a payload of
`n > M` bytes and every transport send succeeding, `sendPacketLarge` returns true after
exactly `chunk_count M n` (`n / M` rounded up) lossless sends; send number `j` carries
the frame `161 + c`, marker, payload, where every frame but the last has marker 1 and
exactly `M` payload bytes (the bytes `j * M ..` of the data) and the last one has marker 2
and `n - (chunk_count M n - 1) * M` payload bytes, between 1 and `M`. -/
theorem C3_sendPacketLarge_chunks (env : Env) (st : ToxNetChanneled) (peer c fuel : Nat)
    (p : List Nat) (hc : c < 10) (hl : st._c_type_arr ⟨c, hc⟩ = channel_type.LOSSLESS)
    (hM : 1 ≤ getMaxPacketSize env) (hp : getMaxPacketSize env < p.length)
    (hfuel : chunk_count (getMaxPacketSize env) p.length ≤ fuel)
    (hok : ∀ j, j < chunk_count (getMaxPacketSize env) p.length →
      env.tox_friend_send_lossless_packet (st._tox_service.sends.length + j) (toTox peer)
        (fragment (getMaxPacketSize env) c p j) = true) :
    ∃ st1, sendPacketLarge fuel env st peer c (some p) = some (true, st1) ∧
      (new_sends st._tox_service st1._tox_service).length
        = chunk_count (getMaxPacketSize env) p.length ∧
      (chunk_count (getMaxPacketSize env) p.length - 1) * getMaxPacketSize env < p.length ∧
      p.length ≤ chunk_count (getMaxPacketSize env) p.length * getMaxPacketSize env ∧
      ∀ j, j < chunk_count (getMaxPacketSize env) p.length →
        ∃ payload,
          (new_sends st._tox_service st1._tox_service)[j]? =
            some ⟨true, toTox peer,
              (161 + c) :: (if j + 1 < chunk_count (getMaxPacketSize env) p.length then 1 else 2)
                :: payload, true, true⟩ ∧
          payload = (p.drop (j * getMaxPacketSize env)).take (getMaxPacketSize env) ∧
          payload.length =
            (if j + 1 < chunk_count (getMaxPacketSize env) p.length then getMaxPacketSize env
              else p.length
                - (chunk_count (getMaxPacketSize env) p.length - 1) * getMaxPacketSize env) ∧
          1 ≤ payload.length ∧ payload.length ≤ getMaxPacketSize env := by
  have hsend := send_in_order_all env (toTox peer) (getMaxPacketSize env) c p hc
    (chunk_count (getMaxPacketSize env) p.length) 0 st._tox_service
    (by intro i hi; simpa using hok i hi)
  have hlast := chunk_count_last (getMaxPacketSize env) p.length hM (by omega)
  have hpos := chunk_count_pos (getMaxPacketSize env) p.length hM (by omega)
  have hrun := sendPacketLarge_large_eq env st peer c fuel p hc hl hM hp hfuel
  simp only [fragments, List.range_eq_range', hsend] at hrun
  refine ⟨_, hrun, ?_, hlast.1, ?_, ?_⟩
  · simp [new_sends_append]
  · have h := hlast.2
    have e : (chunk_count (getMaxPacketSize env) p.length - 1) * getMaxPacketSize env
        + getMaxPacketSize env
        = chunk_count (getMaxPacketSize env) p.length * getMaxPacketSize env := by
      rw [← Nat.succ_mul]; congr 1; omega
    omega
  · intro j hj
    simp only [new_sends_append]
    by_cases hjl : j + 1 < chunk_count (getMaxPacketSize env) p.length
    · have hlt := (mul_lt_iff_lt_chunk_count (getMaxPacketSize env) p.length (j + 1) hM).2 hjl
      obtain ⟨b, rest, hf, hpl, hlen⟩ := fragment_mid (getMaxPacketSize env) c j p hc hM hlt
      refine ⟨b :: rest, ?_, hpl, ?_, ?_, ?_⟩
      · rw [List.getElem?_map, List.getElem?_range' _ _ hj]
        simp [hjl, hf]
      · simp only [hjl, if_true]; exact hlen
      · rw [hlen]; exact hM
      · rw [hlen]
    · have hjeq : j = chunk_count (getMaxPacketSize env) p.length - 1 := by omega
      have h1 := (mul_lt_iff_lt_chunk_count (getMaxPacketSize env) p.length j hM).2 hj
      have h2 : p.length ≤ (j + 1) * getMaxPacketSize env := by
        have := (mul_lt_iff_lt_chunk_count (getMaxPacketSize env) p.length (j + 1) hM).not.2 hjl
        omega
      obtain ⟨b, rest, hf, hpl, hlen⟩ := fragment_last (getMaxPacketSize env) c j p hc h1 h2
      have htake : (p.drop (j * getMaxPacketSize env)).take (getMaxPacketSize env)
          = p.drop (j * getMaxPacketSize env) := by
        apply List.take_of_length_le
        rw [Nat.succ_mul] at h2
        simp only [List.length_drop]; omega
      refine ⟨b :: rest, ?_, ?_, ?_, ?_, ?_⟩
      · rw [List.getElem?_map, List.getElem?_range' _ _ hj]
        simp [hjl, hf]
      · rw [htake]; exact hpl
      · simp only [hjl, if_false]; rw [hlen, hjeq]
      · rw [hlen]; omega
      · rw [hlen, Nat.succ_mul] at *; omega

/-- C3, at channel 0 with `getMaxPacketSize() = 200` and 450 bytes: three sends, `[161, 1]`
with 200 bytes, `[161, 1]` with 200 bytes, `[161, 2]` with 50 bytes. -/
theorem C3_sendPacketLarge_chunks_witness :
    (∃ st1, sendPacketLarge 3 env_200 st_lossless 5 0 (some (List.replicate 450 7))
        = some (true, st1) ∧
      (new_sends st_lossless._tox_service st1._tox_service).length
        = chunk_count (getMaxPacketSize env_200) (List.replicate 450 7).length ∧
      (chunk_count (getMaxPacketSize env_200) (List.replicate 450 7).length - 1)
          * getMaxPacketSize env_200 < (List.replicate 450 7).length ∧
      (List.replicate 450 7).length
        ≤ chunk_count (getMaxPacketSize env_200) (List.replicate 450 7).length
          * getMaxPacketSize env_200 ∧
      ∀ j, j < chunk_count (getMaxPacketSize env_200) (List.replicate 450 7).length →
        ∃ payload,
          (new_sends st_lossless._tox_service st1._tox_service)[j]? =
            some ⟨true, toTox 5,
              (161 + 0) ::
                (if j + 1 < chunk_count (getMaxPacketSize env_200) (List.replicate 450 7).length
                  then 1 else 2) :: payload, true, true⟩ ∧
          payload = ((List.replicate 450 7).drop (j * getMaxPacketSize env_200)).take
            (getMaxPacketSize env_200) ∧
          payload.length =
            (if j + 1 < chunk_count (getMaxPacketSize env_200) (List.replicate 450 7).length
              then getMaxPacketSize env_200
              else (List.replicate 450 7).length
                - (chunk_count (getMaxPacketSize env_200) (List.replicate 450 7).length - 1)
                  * getMaxPacketSize env_200) ∧
          1 ≤ payload.length ∧ payload.length ≤ getMaxPacketSize env_200) ∧
    (sendPacketLarge 3 env_200 st_lossless 5 0 (some (List.replicate 450 7))).map
        (fun r => (r.1, (new_sends st_lossless._tox_service r.2._tox_service).map
          (fun s => (s.lossless, s.mem.take 2, s.mem.length - 2))))
      = some (true, [(true, [161, 1], 200), (true, [161, 1], 200), (true, [161, 2], 50)]) :=
  ⟨C3_sendPacketLarge_chunks env_200 st_lossless 5 0 3 (List.replicate 450 7) (by decide) rfl
      (by decide) (by decide) (by decide) (fun _ _ => rfl),
    by decide⟩

/-- C4: on a channel `c < 10` configured LOSSY, `sendPacketLarge` returns false for every
peer and every data (null, empty, short or long), whatever the iteration bound, and
leaves the state as it is: no send wrapper is called, neither the lossy nor the lossless
one. -/
theorem C4_sendPacketLarge_lossy_fails (env : Env) (st : ToxNetChanneled)
    (peer c fuel : Nat) (data : Option (List Nat)) (hc : c < 10)
    (hl : st._c_type_arr ⟨c, hc⟩ = channel_type.LOSSY) :
    sendPacketLarge fuel env st peer c data = some (false, st) ∧
      new_sends st._tox_service st._tox_service = [] := by
  have hn : ¬ c ≥ 10 := by omega
  have hne : ¬ (channel_type.LOSSY = channel_type.LOSSLESS) := by decide
  constructor
  · unfold sendPacketLarge
    cases data with
    | none => simp [hn]
    | some d => simp [hn, hl]
  · simp [new_sends]

/-- C4, on channel 3 of an object with all channels LOSSY: a payload of 5 bytes, longer
than `getMaxPacketSize() = 2`, is refused without a send. -/
theorem C4_sendPacketLarge_lossy_fails_witness :
    sendPacketLarge 0 env_2 st_lossy 5 3 (some [1, 2, 3, 4, 5]) = some (false, st_lossy) ∧
      new_sends st_lossy._tox_service st_lossy._tox_service = [] :=
  C4_sendPacketLarge_lossy_fails env_2 st_lossy 5 3 0 (some [1, 2, 3, 4, 5]) (by decide) rfl

/-- C5: `sendPacket` returns false exactly when the channel is 10 or more, or the data
is null or empty, or the one send wrapper call it makes returns false; in the first
three cases the result is the unchanged state, so no send was tried and neither the
Inbox nor the FragmentBuffers nor the channel types changed. -/
theorem C5_sendPacket_false_iff (env : Env) (st : ToxNetChanneled) (peer c : Nat)
    (data : Option (List Nat)) :
    ((sendPacket env st peer c data).1 = false ↔
      (10 ≤ c ∨ data = none ∨ data = some [] ∨
        ∃ call, new_sends st._tox_service (sendPacket env st peer c data).2._tox_service
            = [call] ∧ call.result = false)) ∧
    ((10 ≤ c ∨ data = none ∨ data = some []) →
      sendPacket env st peer c data = (false, st) ∧
        new_sends st._tox_service (sendPacket env st peer c data).2._tox_service = []) := by
  by_cases hrej : 10 ≤ c ∨ data = none ∨ data = some []
  · have h := sendPacket_reject env st peer c data hrej
    refine ⟨⟨fun _ => ?_, fun _ => by rw [h]⟩, fun _ => ⟨h, by rw [h]; simp [new_sends]⟩⟩
    rcases hrej with h1 | h1 | h1
    · exact Or.inl h1
    · exact Or.inr (Or.inl h1)
    · exact Or.inr (Or.inr (Or.inl h1))
  · refine ⟨?_, fun h => absurd h hrej⟩
    have hc : c < 10 := by
      by_contra h; exact hrej (Or.inl (by omega))
    cases data with
    | none => exact absurd (Or.inr (Or.inl rfl)) hrej
    | some p =>
      have hp : p ≠ [] := fun h => hrej (Or.inr (Or.inr (by rw [h])))
      obtain ⟨fwd, hs⟩ := sendPacket_new_sends env st peer c p hc hp
      constructor
      · intro hf
        exact Or.inr (Or.inr (Or.inr ⟨_, hs, hf⟩))
      · rintro (h | h | h | ⟨call, h1, h2⟩)
        · exact absurd (Or.inl h) hrej
        · exact absurd (Or.inr (Or.inl h)) hrej
        · exact absurd (Or.inr (Or.inr h)) hrej
        · rw [hs] at h1
          have := List.cons.inj h1
          rw [← this.1] at h2
          exact h2

/-- C5, evaluated: channel 10 and the null pointer are refused without a send; on a
LOSSY channel 0 the one send is refused by the wrapper and `sendPacket` returns false;
on a LOSSLESS channel the send is accepted and `sendPacket` returns true. -/
theorem C5_sendPacket_false_iff_witness :
    (sendPacket env_2 st_lossless 5 10 (some [1]) = (false, st_lossless) ∧
      new_sends st_lossless._tox_service
        (sendPacket env_2 st_lossless 5 10 (some [1])).2._tox_service = []) ∧
    (sendPacket env_2 st_lossless 5 0 none = (false, st_lossless) ∧
      new_sends st_lossless._tox_service
        (sendPacket env_2 st_lossless 5 0 none).2._tox_service = []) ∧
    (sendPacket env_2 st_lossy 5 0 (some [1])).1 = false ∧
    (sendPacket env_2 st_lossless 5 0 (some [1])).1 = true :=
  ⟨(C5_sendPacket_false_iff env_2 st_lossless 5 10 (some [1])).2 (Or.inl (by decide)),
    (C5_sendPacket_false_iff env_2 st_lossless 5 0 none).2 (Or.inr (Or.inl rfl)),
    by decide, by decide⟩

/-- C6: for a channel `c < 10` and a payload that is not empty, `sendPacket` makes
exactly one send wrapper call and returns its result: `friend_send_packet_lossless` with
the bytes `161 + c`, `0`, payload when the channel is LOSSLESS, and `friend_send_packet`
with the bytes `192 + c`, `0`, payload when it is LOSSY. -/
theorem C6_sendPacket_frame (env : Env) (st : ToxNetChanneled) (peer c : Nat)
    (p : List Nat) (hc : c < 10) (hp : p ≠ []) :
    (st._c_type_arr ⟨c, hc⟩ = channel_type.LOSSLESS →
      sendPacket env st peer c (some p) =
        ((friend_send_packet_lossless env st._tox_service (toTox peer)
            ([161 + c, 0] ++ p)).1,
          { st with _tox_service :=
              (friend_send_packet_lossless env st._tox_service (toTox peer)
                ([161 + c, 0] ++ p)).2 }) ∧
      ∃ fwd, new_sends st._tox_service (sendPacket env st peer c (some p)).2._tox_service =
        [⟨true, toTox peer, [161 + c, 0] ++ p, fwd, (sendPacket env st peer c (some p)).1⟩]) ∧
    (st._c_type_arr ⟨c, hc⟩ = channel_type.LOSSY →
      sendPacket env st peer c (some p) =
        ((friend_send_packet env st._tox_service (toTox peer) ([192 + c, 0] ++ p)).1,
          { st with _tox_service :=
              (friend_send_packet env st._tox_service (toTox peer) ([192 + c, 0] ++ p)).2 }) ∧
      ∃ fwd, new_sends st._tox_service (sendPacket env st peer c (some p)).2._tox_service =
        [⟨false, toTox peer, [192 + c, 0] ++ p, fwd, (sendPacket env st peer c (some p)).1⟩]) := by
  obtain ⟨fwd, hs⟩ := sendPacket_new_sends env st peer c p hc hp
  constructor
  · intro hl
    refine ⟨sendPacket_lossless_eq env st peer c p hc hl hp, fwd, ?_⟩
    rw [hs]; simp [hl]
  · intro hl
    refine ⟨sendPacket_lossy_eq env st peer c p hc hl hp, fwd, ?_⟩
    rw [hs]; simp [hl]

/-- C6, evaluated on channel 3 with the payload 7, 8: the lossless frame is
163, 0, 7, 8 and the lossy frame is 195, 0, 7, 8. -/
theorem C6_sendPacket_frame_witness :
    (∃ fwd, new_sends st_lossless._tox_service
        (sendPacket env_2 st_lossless 5 3 (some [7, 8])).2._tox_service =
        [⟨true, toTox 5, [161 + 3, 0] ++ [7, 8], fwd,
          (sendPacket env_2 st_lossless 5 3 (some [7, 8])).1⟩]) ∧
    (∃ fwd, new_sends st_lossy._tox_service
        (sendPacket env_2 st_lossy 5 3 (some [7, 8])).2._tox_service =
        [⟨false, toTox 5, [192 + 3, 0] ++ [7, 8], fwd,
          (sendPacket env_2 st_lossy 5 3 (some [7, 8])).1⟩]) :=
  ⟨((C6_sendPacket_frame env_2 st_lossless 5 3 [7, 8] (by decide) (by decide)).1 rfl).2,
    ((C6_sendPacket_frame env_2 st_lossy 5 3 [7, 8] (by decide) (by decide)).2 rfl).2⟩

/-- C7: on a LOSSLESS channel `c < 10`, for a payload of at least 1 and at most
`getMaxPacketSize()` bytes, `sendPacketLarge` is `sendPacket`: the same result and the
same state, reached by one call of `friend_send_packet_lossless` with the frame
`161 + c`, `0`, payload (marker 0), which passes the range check of the wrapper. -/
theorem C7_sendPacketLarge_small (env : Env) (st : ToxNetChanneled) (peer c fuel : Nat)
    (p : List Nat) (hc : c < 10) (hl : st._c_type_arr ⟨c, hc⟩ = channel_type.LOSSLESS)
    (h1 : 1 ≤ p.length) (h2 : p.length ≤ getMaxPacketSize env) :
    sendPacketLarge fuel env st peer c (some p) = some (sendPacket env st peer c (some p)) ∧
    new_sends st._tox_service (sendPacket env st peer c (some p)).2._tox_service =
      [⟨true, toTox peer, [161 + c, 0] ++ p, true, (sendPacket env st peer c (some p)).1⟩] := by
  have hn : ¬ c ≥ 10 := by omega
  have hlen : ¬ p.length < 1 := by omega
  have hp : p ≠ [] := by
    intro h; rw [h] at h1; simp at h1
  constructor
  · unfold sendPacketLarge
    simp only [hn, dite_false, hlen, if_false, hl, ne_eq, not_true_eq_false, h2, if_true]
  · rw [sendPacket_lossless_eq env st peer c p hc hl hp,
      friend_send_packet_lossless_in_range env _ _ (161 + c) _ (by omega) (by omega)]
    simp [new_sends_record]

/-- C7, evaluated with `getMaxPacketSize() = 2` and a payload of exactly 2 bytes. -/
theorem C7_sendPacketLarge_small_witness :
    sendPacketLarge 0 env_2 st_lossless 5 4 (some [7, 8])
      = some (sendPacket env_2 st_lossless 5 4 (some [7, 8])) ∧
    new_sends st_lossless._tox_service
      (sendPacket env_2 st_lossless 5 4 (some [7, 8])).2._tox_service =
      [⟨true, toTox 5, [161 + 4, 0] ++ [7, 8], true,
        (sendPacket env_2 st_lossless 5 4 (some [7, 8])).1⟩] :=
  C7_sendPacketLarge_small env_2 st_lossless 5 4 0 [7, 8] (by decide) rfl (by decide)
    (by decide)

/-- C8: on a LOSSLESS channel with a payload longer than `getMaxPacketSize()`: if the
send of chunk number `k` (counted from 1) is the first one tox refuses, `sendPacketLarge`
returns false and the sends made are exactly those of the chunks 1..k, in order, the last
one failed; if tox refuses none, it returns true after the sends of all chunks. -/
theorem C8_sendPacketLarge_first_failure (env : Env) (st : ToxNetChanneled)
    (peer c fuel : Nat) (p : List Nat) (hc : c < 10)
    (hl : st._c_type_arr ⟨c, hc⟩ = channel_type.LOSSLESS)
    (hM : 1 ≤ getMaxPacketSize env) (hp : getMaxPacketSize env < p.length)
    (hfuel : chunk_count (getMaxPacketSize env) p.length ≤ fuel) :
    (∀ k, 1 ≤ k → k ≤ chunk_count (getMaxPacketSize env) p.length →
      (∀ j, j + 1 < k →
        env.tox_friend_send_lossless_packet (st._tox_service.sends.length + j) (toTox peer)
          (fragment (getMaxPacketSize env) c p j) = true) →
      env.tox_friend_send_lossless_packet (st._tox_service.sends.length + (k - 1)) (toTox peer)
          (fragment (getMaxPacketSize env) c p (k - 1)) = false →
      ∃ st1, sendPacketLarge fuel env st peer c (some p) = some (false, st1) ∧
        new_sends st._tox_service st1._tox_service =
          (List.range k).map (fun j =>
            ⟨true, toTox peer, fragment (getMaxPacketSize env) c p j, true,
              decide (j + 1 < k)⟩)) ∧
    ((∀ j, j < chunk_count (getMaxPacketSize env) p.length →
        env.tox_friend_send_lossless_packet (st._tox_service.sends.length + j) (toTox peer)
          (fragment (getMaxPacketSize env) c p j) = true) →
      ∃ st1, sendPacketLarge fuel env st peer c (some p) = some (true, st1) ∧
        new_sends st._tox_service st1._tox_service =
          (List.range (chunk_count (getMaxPacketSize env) p.length)).map (fun j =>
            ⟨true, toTox peer, fragment (getMaxPacketSize env) c p j, true, true⟩)) := by
  have hrun := sendPacketLarge_large_eq env st peer c fuel p hc hl hM hp hfuel
  simp only [fragments, List.range_eq_range'] at hrun
  constructor
  · intro k hk1 hkK hok hfail
    have hsend := send_in_order_fail env (toTox peer) (getMaxPacketSize env) c p hc (k - 1)
      (chunk_count (getMaxPacketSize env) p.length) 0 st._tox_service (by omega)
      (by intro i hi; simpa using hok i (by omega)) (by simpa using hfail)
    rw [hsend] at hrun
    refine ⟨_, hrun, ?_⟩
    rw [new_sends_append]
    obtain ⟨k, rfl⟩ : ∃ m, k = m + 1 := ⟨k - 1, by omega⟩
    simp only [Nat.add_sub_cancel, Nat.zero_add]
    rw [List.range_succ, List.map_append, List.map_singleton, ← List.range_eq_range']
    congr 1
    · apply List.map_congr_left
      intro j hj
      have : j < k := List.mem_range.1 hj
      simp [this]
    · simp
  · intro hok
    have hsend := send_in_order_all env (toTox peer) (getMaxPacketSize env) c p hc
      (chunk_count (getMaxPacketSize env) p.length) 0 st._tox_service
      (by intro i hi; simpa using hok i hi)
    rw [hsend] at hrun
    refine ⟨_, hrun, ?_⟩
    rw [new_sends_append, List.range_eq_range']

/-- C8, with `getMaxPacketSize() = 2` and the payload 1, 2, 3, 4, 5 (three chunks): when
tox refuses the second send, there are two sends and the result is false; when tox accepts
all, there are three and the result is true. -/
theorem C8_sendPacketLarge_first_failure_witness :
    (∃ st1, sendPacketLarge 3 env_2_fail st_lossless 5 0 (some [1, 2, 3, 4, 5])
        = some (false, st1) ∧
      new_sends st_lossless._tox_service st1._tox_service =
        (List.range 2).map (fun j =>
          ⟨true, toTox 5, fragment (getMaxPacketSize env_2_fail) 0 [1, 2, 3, 4, 5] j, true,
            decide (j + 1 < 2)⟩)) ∧
    (∃ st1, sendPacketLarge 3 env_2 st_lossless 5 0 (some [1, 2, 3, 4, 5])
        = some (true, st1) ∧
      new_sends st_lossless._tox_service st1._tox_service =
        (List.range (chunk_count (getMaxPacketSize env_2) [1, 2, 3, 4, 5].length)).map (fun j =>
          ⟨true, toTox 5, fragment (getMaxPacketSize env_2) 0 [1, 2, 3, 4, 5] j, true,
            true⟩)) :=
  ⟨(C8_sendPacketLarge_first_failure env_2_fail st_lossless 5 0 3 [1, 2, 3, 4, 5] (by decide)
      rfl (by decide) (by decide) (by decide)).1 2 (by decide) (by decide)
      (fun j hj => by
        have : j = 0 := by omega
        subst this; rfl)
      rfl,
    (C8_sendPacketLarge_first_failure env_2 st_lossless 5 0 3 [1, 2, 3, 4, 5] (by decide)
      rfl (by decide) (by decide) (by decide)).2 (fun _ _ => rfl)⟩

/-- C9, as stated, fails: with `tox_max_custom_packet_size() = 1373` and a `channel_id`
of one byte, `getMaxPacketSize()` is 1369, not 1373 - 2 = 1371. -/
theorem C9_counterexample :
    getMaxPacketSize env_1373 = 1369 ∧
      getMaxPacketSize env_1373 ≠ env_1373.tox_max_custom_packet_size - 2 := by
  decide

/-- C9, amended: when the transport maximum is at least `sizeof(channel_id) + 3` (and
fits `size_t`), `getMaxPacketSize()` is the transport maximum minus
`sizeof(channel_id) + 3`; with the 2 bytes the senders put in front of the payload, a
frame stays at least `sizeof(channel_id) + 1 >= 2` bytes below the transport maximum. -/
theorem C9_getMaxPacketSize_amended (env : Env)
    (h1 : env.sizeof_channel_id + 3 ≤ env.tox_max_custom_packet_size)
    (h2 : env.tox_max_custom_packet_size < 2 ^ 64) :
    getMaxPacketSize env = env.tox_max_custom_packet_size - (env.sizeof_channel_id + 3) ∧
      getMaxPacketSize env + 2 + (env.sizeof_channel_id + 1) = env.tox_max_custom_packet_size ∧
      getMaxPacketSize env + 2 + 2 ≤ env.tox_max_custom_packet_size := by
  have hpos := env.sizeof_channel_id_pos
  have hval : getMaxPacketSize env
      = env.tox_max_custom_packet_size - (env.sizeof_channel_id + 3) := by
    unfold getMaxPacketSize
    have e : ((env.tox_max_custom_packet_size : Int) - ((env.sizeof_channel_id : Int) + 3))
        = ((env.tox_max_custom_packet_size - (env.sizeof_channel_id + 3) : Nat) : Int) := by
      omega
    rw [e]
    have hlt : ((env.tox_max_custom_packet_size - (env.sizeof_channel_id + 3) : Nat) : Int)
        < 2 ^ 64 := by
      have : env.tox_max_custom_packet_size - (env.sizeof_channel_id + 3) < 2 ^ 64 := by omega
      exact_mod_cast this
    rw [Int.emod_eq_of_lt (by omega) hlt]
    simp
  refine ⟨hval, ?_, ?_⟩ <;> omega

/-- C9, amended, with the sizes of a build against c-toxcore: 1373 - (1 + 3) = 1369. -/
theorem C9_getMaxPacketSize_amended_witness :
    getMaxPacketSize env_1373
        = env_1373.tox_max_custom_packet_size - (env_1373.sizeof_channel_id + 3) ∧
      getMaxPacketSize env_1373 + 2 + (env_1373.sizeof_channel_id + 1)
        = env_1373.tox_max_custom_packet_size ∧
      getMaxPacketSize env_1373 + 2 + 2 ≤ env_1373.tox_max_custom_packet_size :=
  C9_getMaxPacketSize_amended env_1373 (by decide) (by decide)

/-- C10: for every configuration of the channel types, every channel `c < 10` and every
data, each frame `sendPacket` or `sendPacketLarge` hands to a send wrapper starts with a
byte that is not 160: a byte in 161..170 for a lossless send and a byte in 192..201 for a
lossy send. For `sendPacketLarge` this holds whenever its loop returns, and the loop
returns within `data_size` iterations when `getMaxPacketSize() >= 1`. -/
theorem C10_first_byte_never_160 (env : Env) (st : ToxNetChanneled) (peer c : Nat)
    (data : Option (List Nat)) (hc : c < 10) :
    (∀ call ∈ new_sends st._tox_service (sendPacket env st peer c data).2._tox_service,
      ∃ b rest, call.mem = b :: rest ∧ b ≠ 160 ∧
        (call.lossless = true → 161 ≤ b ∧ b ≤ 170) ∧
        (call.lossless = false → 192 ≤ b ∧ b ≤ 201)) ∧
    (∀ fuel r, sendPacketLarge fuel env st peer c data = some r →
      ∀ call ∈ new_sends st._tox_service r.2._tox_service,
        ∃ b rest, call.mem = b :: rest ∧ b ≠ 160 ∧
          (call.lossless = true → 161 ≤ b ∧ b ≤ 170) ∧
          (call.lossless = false → 192 ≤ b ∧ b ≤ 201)) ∧
    (1 ≤ getMaxPacketSize env → ∀ fuel, (data.getD []).length ≤ fuel →
      ∃ r, sendPacketLarge fuel env st peer c data = some r) := by
  have hn : ¬ c ≥ 10 := by omega
  refine ⟨sendPacket_first_byte env st peer c data hc, ?_, ?_⟩
  · intro fuel r hr call hcall
    unfold sendPacketLarge at hr
    simp only [hn, dite_false] at hr
    cases data with
    | none =>
      simp only [Option.some.injEq] at hr
      rw [← hr] at hcall; simp [new_sends] at hcall
    | some d =>
      simp only at hr
      split_ifs at hr with h1 h2 h3
      · simp only [Option.some.injEq] at hr
        rw [← hr] at hcall; simp [new_sends] at hcall
      · simp only [Option.some.injEq] at hr
        rw [← hr] at hcall; simp [new_sends] at hcall
      · simp only [Option.some.injEq] at hr
        rw [← hr] at hcall
        exact sendPacket_first_byte env st peer c (some d) hc call hcall
      · rw [Option.map_eq_some'] at hr
        obtain ⟨r0, hloop, hr0⟩ := hr
        obtain ⟨extra, he, hall⟩ := sendPacketLarge_loop_sends env _ c d _ _ _ _ _ hloop
        rw [← hr0] at hcall
        simp only [he, new_sends_append] at hcall
        obtain ⟨hless, rest, hmem⟩ := hall call hcall
        rw [channel_byte_lossless c hc] at hmem
        refine ⟨161 + c, rest, hmem, by omega, fun _ => by omega, fun h => ?_⟩
        rw [hless] at h; simp at h
  · intro hM fuel hfuel
    unfold sendPacketLarge
    simp only [hn, dite_false]
    cases data with
    | none => exact ⟨_, rfl⟩
    | some d =>
      simp only
      split_ifs with h1 h2 h3
      · exact ⟨_, rfl⟩
      · exact ⟨_, rfl⟩
      · exact ⟨_, rfl⟩
      · have hK : chunk_count (getMaxPacketSize env) d.length ≤ fuel :=
          Nat.le_trans (chunk_count_le _ _ hM) (by simpa using hfuel)
        have hloop := sendPacketLarge_loop_eq env (toTox peer) c d hM fuel 0 st._tox_service
          (by omega) (by omega)
        simp only [Nat.zero_mul, Nat.sub_zero] at hloop
        rw [hloop]
        exact ⟨_, rfl⟩

/-- C10, evaluated: the first bytes of the frames of a small lossless send, a small lossy
send and a large send on channel 9 are 170, 201 and 170, 170, 170. -/
theorem C10_first_byte_never_160_witness :
    (∃ r, sendPacketLarge 5 env_2 st_lossless 5 9 (some [1, 2, 3, 4, 5]) = some r) ∧
    (new_sends st_lossless._tox_service
      (sendPacket env_2 st_lossless 5 9 (some [1])).2._tox_service).map
        (fun s => s.mem.head?) = [some 170] ∧
    (new_sends st_lossy._tox_service
      (sendPacket env_2 st_lossy 5 9 (some [1])).2._tox_service).map
        (fun s => s.mem.head?) = [some 201] ∧
    (sendPacketLarge 5 env_2 st_lossless 5 9 (some [1, 2, 3, 4, 5])).map
      (fun r => (new_sends st_lossless._tox_service r.2._tox_service).map
        (fun s => s.mem.head?)) = some [some 170, some 170, some 170] :=
  ⟨(C10_first_byte_never_160 env_2 st_lossless 5 9 (some [1, 2, 3, 4, 5]) (by decide)).2.2
      (by decide) 5 (by decide),
    by decide, by decide, by decide⟩

/-- C11 fails: `friend_send_packet` refuses every first byte below 200. With all ten
channels LOSSY and tox accepting every packet, the frames `sendPacket` builds for the
channels 0..7 (first bytes 192..199) are refused by the wrapper without a call of tox;
only the frames of the channels 8 and 9 (first bytes 200, 201) are forwarded. -/
theorem C11_lossy_frame_refused_locally :
    friend_send_packet env_200 st_lossy._tox_service 5 [192, 0, 7]
      = (false, st_lossy._tox_service.record ⟨false, 5, [192, 0, 7], false, false⟩) ∧
    (List.range 10).map (fun c =>
      (new_sends st_lossy._tox_service
        (sendPacket env_200 st_lossy 5 c (some [7])).2._tox_service).map
          (fun s => (s.mem, s.forwarded, s.result)))
      = [[([192, 0, 7], false, false)], [([193, 0, 7], false, false)],
         [([194, 0, 7], false, false)], [([195, 0, 7], false, false)],
         [([196, 0, 7], false, false)], [([197, 0, 7], false, false)],
         [([198, 0, 7], false, false)], [([199, 0, 7], false, false)],
         [([200, 0, 7], true, true)], [([201, 0, 7], true, true)]] := by
  decide

/-- C12: a raw packet of length 0, 1 or 2, whatever its bytes, is dropped by the lossy
and by the lossless callback: the callback is total and returns the state as it is (no
Inbox entry, no FragmentBuffer byte); and a run of `pull_fresh_packages` over queues that
hold only such packets returns the state as it is. -/
theorem C12_short_packets_dropped (env : Env) (st : ToxNetChanneled)
    (hlossy : ∀ q ∈ st._peer_list, ∀ pk ∈ lossy_queue st._tox_service (toTox q),
      pk.length < 3)
    (hlossless : ∀ q ∈ st._peer_list, ∀ pk ∈ lossless_queue st._tox_service (toTox q),
      pk.length < 3) :
    pull_fresh_packages env st = st ∧
    ∀ (peer : Nat) (s : ToxNetChanneled) (pk : List Nat), pk.length < 3 →
      lossy_packet_fn env peer s pk = s ∧ lossless_packet_fn env peer s pk = s := by
  constructor
  · apply pull_fresh_packages_unchanged
    · intro q hq pk hpk s
      exact lossy_packet_fn_short env q s pk (hlossy q hq pk hpk)
    · intro q hq pk hpk s
      exact lossless_packet_fn_short env q s pk (hlossless q hq pk hpk)
  · intro peer s pk h
    exact ⟨lossy_packet_fn_short env peer s pk h, lossless_packet_fn_short env peer s pk h⟩

/-- C12, with the packets `[]`, `[192]`, `[192, 0]` in the lossy queue and `[161]`,
`[161, 2]` in the lossless queue of the peer 5. -/
theorem C12_short_packets_dropped_witness :
    pull_fresh_packages env_2 st_short_queued = st_short_queued ∧
    ∀ (peer : Nat) (s : ToxNetChanneled) (pk : List Nat), pk.length < 3 →
      lossy_packet_fn env_2 peer s pk = s ∧ lossless_packet_fn env_2 peer s pk = s :=
  C12_short_packets_dropped env_2 st_short_queued (by decide) (by decide)

/-- C13: for a raw packet with first byte `b` (a byte, so below 256): `b - 192` decodes
to a channel below 10 exactly for `b` in 192..201 and `b - 161` exactly for `b` in
161..170 (a byte below the base wraps around to a channel of 10 or more); the lossy
callback returns the state as it is when the channel is 10 or more, that is for every `b`
outside 192..201, and the lossless callback does for every `b` outside 161..170, among
them 160. The index into the array of 10 buckets is formed only below 10. -/
theorem C13_invalid_channel_dropped (env : Env) (st : ToxNetChanneled) (peer : Nat)
    (pk : List Nat) (hb : pk.getD 0 0 < 256) :
    (to_channel_id env (pk.getD 0 0) 192 < 10 ↔ (192 ≤ pk.getD 0 0 ∧ pk.getD 0 0 ≤ 201)) ∧
    (to_channel_id env (pk.getD 0 0) 161 < 10 ↔ (161 ≤ pk.getD 0 0 ∧ pk.getD 0 0 ≤ 170)) ∧
    (10 ≤ to_channel_id env (pk.getD 0 0) 192 → lossy_packet_fn env peer st pk = st) ∧
    (10 ≤ to_channel_id env (pk.getD 0 0) 161 → lossless_packet_fn env peer st pk = st) ∧
    (¬ (192 ≤ pk.getD 0 0 ∧ pk.getD 0 0 ≤ 201) → lossy_packet_fn env peer st pk = st) ∧
    (¬ (161 ≤ pk.getD 0 0 ∧ pk.getD 0 0 ≤ 170) → lossless_packet_fn env peer st pk = st) := by
  have h1 := to_channel_id_lt_ten_iff env (pk.getD 0 0) 192 hb (by omega)
  have h2 := to_channel_id_lt_ten_iff env (pk.getD 0 0) 161 hb (by omega)
  have e1 : (to_channel_id env (pk.getD 0 0) 192 < 10
      ↔ (192 ≤ pk.getD 0 0 ∧ pk.getD 0 0 ≤ 201)) := by rw [h1]; omega
  have e2 : (to_channel_id env (pk.getD 0 0) 161 < 10
      ↔ (161 ≤ pk.getD 0 0 ∧ pk.getD 0 0 ≤ 170)) := by rw [h2]; omega
  refine ⟨e1, e2, lossy_packet_fn_bad_channel env peer st pk,
    lossless_packet_fn_bad_channel env peer st pk, ?_, ?_⟩
  · intro h
    exact lossy_packet_fn_bad_channel env peer st pk (by
      have := e1.not.2 h
      omega)
  · intro h
    exact lossless_packet_fn_bad_channel env peer st pk (by
      have := e2.not.2 h
      omega)

/-- C13, for the packet 160, 2, 7: the lossless callback and the lossy callback both
drop it, also with a FragmentBuffer in progress. -/
theorem C13_invalid_channel_dropped_witness :
    lossless_packet_fn env_2 5 st_inbox [160, 2, 7] = st_inbox ∧
    lossy_packet_fn env_2 5 st_inbox [160, 2, 7] = st_inbox :=
  ⟨(C13_invalid_channel_dropped env_2 st_inbox 5 [160, 2, 7] (by decide)).2.2.2.2.2
      (by decide),
    (C13_invalid_channel_dropped env_2 st_inbox 5 [160, 2, 7] (by decide)).2.2.2.2.1
      (by decide)⟩

/-- C14: on an Inbox with `N` buffered packets (the map has distinct keys, `fuel`
iterations are enough for every bucket): `forEachPacket` with a visitor that answers
`true` to every call returns `N` and leaves every bucket of every peer and channel empty;
with a visitor that answers `false` to every call it returns `N` and leaves the state as
it is, so that a second `forEachPacket`, with any visitor, visits the same `N` packets in
the same order. -/
theorem C14_forEachPacket_all_true_all_false {σ : Type} (fuel : Nat)
    (fn : σ → Nat → Nat → List Nat → Bool × σ) (s : σ) (st : ToxNetChanneled)
    (hk : keys_nodup st) (hf : bucket_bound st fuel) :
    ((∀ s p c pkt, (fn s p c pkt).1 = true) →
      ∃ st1, forEachPacket fuel fn s st =
          Except.ok ((scope_all st).length, (visit_seq fn (scope_all st) s).2, st1) ∧
        ∀ (peer : Nat) (channel : Fin 10), Inbox st1 peer channel = []) ∧
    ((∀ s p c pkt, (fn s p c pkt).1 = false) →
      forEachPacket fuel fn s st =
          Except.ok ((scope_all st).length, (visit_seq fn (scope_all st) s).2, st) ∧
        ∀ (fn2 : σ → Nat → Nat → List Nat → Bool × σ) (s2 : σ),
          ∃ st2, forEachPacket fuel fn2 s2 st =
            Except.ok ((scope_all st).length, (visit_seq fn2 (scope_all st) s2).2, st2)) := by
  constructor
  · intro h
    refine ⟨_, forEachPacket_eq fuel fn s st hk hf, ?_⟩
    intro peer channel
    rw [forEachPacket_inbox]
    exact kept_of_all_true _ _ _ _ (visit_seq_constant fn true h _ _)
  · intro h
    refine ⟨?_, fun fn2 s2 => ⟨_, forEachPacket_eq fuel fn2 s2 st hk hf⟩⟩
    rw [forEachPacket_eq fuel fn s st hk hf]
    have hmap : st._packets.map (fun e =>
        (e.1, fun c => kept_of (scope_all st) (visit_seq fn (scope_all st) s).1 e.1 c))
        = st._packets := by
      have hkept : ∀ (p : Nat),
          (fun c => kept_of (scope_all st) (visit_seq fn (scope_all st) s).1 p c)
            = map_get (fun _ => []) st._packets p := by
        intro p
        funext c
        rw [kept_of_all_false p c _ _ (visit_seq_length fn _ _)
          (visit_seq_constant fn false h _ _), visited_of_scope_all st hk]
        rfl
      simp only [hkept]
      exact map_map_get_self _ _ hk
    rw [hmap]

/-- C14, on an Inbox with 7 packets of the peers 5 and 7: the visitor that answers `true`
is called 7 times and leaves no packet; the visitor that answers `false` is called 7
times and leaves the state as it is. -/
theorem C14_forEachPacket_all_true_all_false_witness :
    (∃ st1, forEachPacket 3 (constant_visitor true) 0 st_inbox =
        Except.ok ((scope_all st_inbox).length,
          (visit_seq (constant_visitor true) (scope_all st_inbox) 0).2, st1) ∧
      ∀ (peer : Nat) (channel : Fin 10), Inbox st1 peer channel = []) ∧
    forEachPacket 3 (constant_visitor false) 0 st_inbox =
        Except.ok ((scope_all st_inbox).length,
          (visit_seq (constant_visitor false) (scope_all st_inbox) 0).2, st_inbox) ∧
    (scope_all st_inbox).length = 7 ∧
    (visit_seq (constant_visitor true) (scope_all st_inbox) 0).2 = 7 :=
  ⟨(C14_forEachPacket_all_true_all_false 3 (constant_visitor true) 0 st_inbox
      (by unfold keys_nodup; decide) (by unfold bucket_bound; decide)).1 (fun _ _ _ _ => rfl),
    ((C14_forEachPacket_all_true_all_false 3 (constant_visitor false) 0 st_inbox
      (by unfold keys_nodup; decide) (by unfold bucket_bound; decide)).2
        (fun _ _ _ _ => rfl)).1,
    by decide, by decide⟩

/-- C15: whatever the visitor answers, `forEachPacket` returns the number of packets
buffered in all buckets, `forEachPacketPeer` the number of packets in the ten buckets of
the peer, and `forEachPacketPeerChannel` (channel below 10) the number of packets in the
one bucket, each counted before the call (the map has distinct keys, `fuel` iterations
are enough for every bucket). -/
theorem C15_forEach_returns_scope_size {σ : Type} (fuel : Nat)
    (fn : σ → Nat → Nat → List Nat → Bool × σ) (s : σ) (st : ToxNetChanneled)
    (peer channel : Nat) (hc : channel < 10) (hk : keys_nodup st)
    (hf : bucket_bound st fuel) :
    (∃ s1 st1, forEachPacket fuel fn s st =
      Except.ok
        ((st._packets.map (fun e => (channels.map (fun c => (e.2 c).length)).sum)).sum,
          s1, st1)) ∧
    (∃ s1 st1, forEachPacketPeer fuel fn s st peer =
      Except.ok ((channels.map (fun c => (Inbox st peer c).length)).sum, s1, st1)) ∧
    (∃ s1 st1, forEachPacketPeerChannel fuel fn s st peer channel =
      Except.ok ((Inbox st peer ⟨channel, hc⟩).length, s1, st1)) := by
  have hentry : ∀ (p : Nat) (arr : Fin 10 → List (List Nat)),
      (entry_items p arr).length = (channels.map (fun c => (arr c).length)).sum := by
    intro p arr
    unfold entry_items
    rw [List.length_flatMap]
    congr 1
    apply List.map_congr_left
    intro c _
    simp [bucket_items_length]
  have hall : (scope_all st).length
      = (st._packets.map (fun e => (channels.map (fun c => (e.2 c).length)).sum)).sum := by
    unfold scope_all
    rw [List.length_flatMap]
    congr 1
    apply List.map_congr_left
    intro e _
    simp [hentry]
  have h1 := forEachPacket_eq fuel fn s st hk hf
  rw [hall] at h1
  have h2 := forEachPacketPeer_eq fuel fn s st peer (bucket_bound_inbox st fuel hf peer)
  have hpeer : (scope_peer st peer).length
      = (channels.map (fun c => (Inbox st peer c).length)).sum :=
    hentry peer (fun c => Inbox st peer c)
  rw [hpeer] at h2
  have h3 := forEachPacketPeerChannel_eq fuel fn s st peer channel hc
    (bucket_bound_inbox st fuel hf peer ⟨channel, hc⟩)
  simp only [scope_peer_channel, bucket_items_length] at h3
  exact ⟨⟨_, _, h1⟩, ⟨_, _, h2⟩, ⟨_, _, h3⟩⟩

/-- C15, on an Inbox with 7 packets, 4 of them of the peer 5 and 3 of these on channel
0, with a visitor that removes some of them: the returned counts are 7, 4 and 3. -/
theorem C15_forEach_returns_scope_size_witness :
    (∃ s1 st1, forEachPacket 3 logging_visitor [] st_inbox =
      Except.ok
        ((st_inbox._packets.map (fun e => (channels.map (fun c => (e.2 c).length)).sum)).sum,
          s1, st1)) ∧
    (∃ s1 st1, forEachPacketPeer 3 logging_visitor [] st_inbox 5 =
      Except.ok ((channels.map (fun c => (Inbox st_inbox 5 c).length)).sum, s1, st1)) ∧
    (∃ s1 st1, forEachPacketPeerChannel 3 logging_visitor [] st_inbox 5 0 =
      Except.ok ((Inbox st_inbox 5 ⟨0, by decide⟩).length, s1, st1)) ∧
    (st_inbox._packets.map (fun e => (channels.map (fun c => (e.2 c).length)).sum)).sum = 7 ∧
    (channels.map (fun c => (Inbox st_inbox 5 c).length)).sum = 4 ∧
    (Inbox st_inbox 5 ⟨0, by decide⟩).length = 3 :=
  ⟨(C15_forEach_returns_scope_size 3 logging_visitor [] st_inbox 5 0 (by decide)
      (by unfold keys_nodup; decide) (by unfold bucket_bound; decide)).1,
    (C15_forEach_returns_scope_size 3 logging_visitor [] st_inbox 5 0 (by decide)
      (by unfold keys_nodup; decide) (by unfold bucket_bound; decide)).2.1,
    (C15_forEach_returns_scope_size 3 logging_visitor [] st_inbox 5 0 (by decide)
      (by unfold keys_nodup; decide) (by unfold bucket_bound; decide)).2.2,
    by decide, by decide, by decide⟩

/-- C16: each of `forEachPacket`, `forEachPacketPeer` and `forEachPacketPeerChannel`
(channel below 10) calls the visitor once for each visit of its scope, in the order of
the scope (`visit_seq`), whatever the answers; the visits of the scope that belong to
one bucket are the packets of that bucket, each once and in arrival order; afterwards a
bucket in scope holds the packets of its visits for which the answer was `false`
(`kept_of`), a subsequence of its previous entries, and every bucket out of scope is as
before (the map has distinct keys, `fuel` iterations are enough for every bucket). -/
theorem C16_forEach_visits_once_keeps_false {σ : Type} (fuel : Nat)
    (fn : σ → Nat → Nat → List Nat → Bool × σ) (s : σ) (st : ToxNetChanneled)
    (peer channel : Nat) (hc : channel < 10) (hk : keys_nodup st)
    (hf : bucket_bound st fuel) :
    (∃ st1, forEachPacket fuel fn s st =
        Except.ok ((scope_all st).length, (visit_seq fn (scope_all st) s).2, st1) ∧
      ∀ (q : Nat) (d : Fin 10),
        Inbox st1 q d = kept_of (scope_all st) (visit_seq fn (scope_all st) s).1 q d ∧
        visited_of (scope_all st) q d = Inbox st q d ∧
        (Inbox st1 q d).Sublist (Inbox st q d)) ∧
    (∃ st1, forEachPacketPeer fuel fn s st peer =
        Except.ok ((scope_peer st peer).length, (visit_seq fn (scope_peer st peer) s).2,
          st1) ∧
      (∀ (d : Fin 10),
        Inbox st1 peer d
          = kept_of (scope_peer st peer) (visit_seq fn (scope_peer st peer) s).1 peer d ∧
        visited_of (scope_peer st peer) peer d = Inbox st peer d ∧
        (Inbox st1 peer d).Sublist (Inbox st peer d)) ∧
      ∀ (q : Nat) (d : Fin 10), q ≠ peer → Inbox st1 q d = Inbox st q d) ∧
    (∃ st1, forEachPacketPeerChannel fuel fn s st peer channel =
        Except.ok ((scope_peer_channel st peer ⟨channel, hc⟩).length,
          (visit_seq fn (scope_peer_channel st peer ⟨channel, hc⟩) s).2, st1) ∧
      Inbox st1 peer ⟨channel, hc⟩
        = kept_of (scope_peer_channel st peer ⟨channel, hc⟩)
            (visit_seq fn (scope_peer_channel st peer ⟨channel, hc⟩) s).1 peer
            ⟨channel, hc⟩ ∧
      scope_peer_channel st peer ⟨channel, hc⟩
        = (Inbox st peer ⟨channel, hc⟩).map (fun pkt => (peer, ⟨channel, hc⟩, pkt)) ∧
      (Inbox st1 peer ⟨channel, hc⟩).Sublist (Inbox st peer ⟨channel, hc⟩) ∧
      ∀ (q : Nat) (d : Fin 10), (q ≠ peer ∨ d ≠ ⟨channel, hc⟩) →
        Inbox st1 q d = Inbox st q d) := by
  refine ⟨⟨_, forEachPacket_eq fuel fn s st hk hf, ?_⟩,
    ⟨_, forEachPacketPeer_eq fuel fn s st peer (bucket_bound_inbox st fuel hf peer), ?_, ?_⟩,
    ⟨_, forEachPacketPeerChannel_eq fuel fn s st peer channel hc
      (bucket_bound_inbox st fuel hf peer ⟨channel, hc⟩), ?_, rfl, ?_, ?_⟩⟩
  · intro q d
    have h1 := forEachPacket_inbox st (visit_seq fn (scope_all st) s).1 q d
    refine ⟨h1, visited_of_scope_all st hk q d, ?_⟩
    rw [h1, ← visited_of_scope_all st hk q d]
    exact kept_of_sublist_visited q d _ _
  · intro d
    have h1 : Inbox { st with _packets :=
          (map_modify (fun _ => [])
            (fun _ => fun c =>
              kept_of (scope_peer st peer) (visit_seq fn (scope_peer st peer) s).1 peer c)
            st._packets peer) } peer d
        = kept_of (scope_peer st peer) (visit_seq fn (scope_peer st peer) s).1 peer d := by
      simp [Inbox, map_get_modify_same]
    refine ⟨h1, scope_peer_visited st peer d, ?_⟩
    rw [h1, ← scope_peer_visited st peer d]
    exact kept_of_sublist_visited peer d _ _
  · intro q d hq
    simp [Inbox, map_get_modify_ne _ _ _ _ _ hq]
  · simp [Inbox, map_get_modify_update (fun _ => [])
      (fun _ => kept_of (scope_peer_channel st peer ⟨channel, hc⟩)
        (visit_seq fn (scope_peer_channel st peer ⟨channel, hc⟩) s).1 peer ⟨channel, hc⟩)]
  · have h1 : Inbox { st with _packets :=
          (map_modify (fun _ => [])
            (fun arr => Function.update arr ⟨channel, hc⟩
              (kept_of (scope_peer_channel st peer ⟨channel, hc⟩)
                (visit_seq fn (scope_peer_channel st peer ⟨channel, hc⟩) s).1 peer
                ⟨channel, hc⟩))
            st._packets peer) } peer ⟨channel, hc⟩
        = kept_of (scope_peer_channel st peer ⟨channel, hc⟩)
            (visit_seq fn (scope_peer_channel st peer ⟨channel, hc⟩) s).1 peer
            ⟨channel, hc⟩ := by
      simp [Inbox, map_get_modify_update (fun _ => [])
        (fun _ => kept_of (scope_peer_channel st peer ⟨channel, hc⟩)
          (visit_seq fn (scope_peer_channel st peer ⟨channel, hc⟩) s).1 peer ⟨channel, hc⟩)]
    rw [h1, ← scope_peer_channel_visited st peer ⟨channel, hc⟩]
    exact kept_of_sublist_visited peer ⟨channel, hc⟩ _ _
  · intro q d hqd
    have hne : ¬ (q = peer ∧ d = ⟨channel, hc⟩) := by tauto
    simp [Inbox, map_get_modify_update (fun _ => [])
      (fun _ => kept_of (scope_peer_channel st peer ⟨channel, hc⟩)
        (visit_seq fn (scope_peer_channel st peer ⟨channel, hc⟩) s).1 peer ⟨channel, hc⟩),
      hne]

/-- C16, on an Inbox with the packets `[1, 1]`, `[2]`, `[1, 3]` of the peer 5 on channel
0 and a visitor that removes the packets that start with 1: the visitor is called with
the three packets in arrival order, and the packet `[2]` stays. -/
theorem C16_forEach_visits_once_keeps_false_witness :
    (∃ st1, forEachPacketPeerChannel 3 logging_visitor [] st_inbox 5 0 =
        Except.ok ((scope_peer_channel st_inbox 5 ⟨0, by decide⟩).length,
          (visit_seq logging_visitor (scope_peer_channel st_inbox 5 ⟨0, by decide⟩) []).2,
          st1) ∧
      Inbox st1 5 ⟨0, by decide⟩
        = kept_of (scope_peer_channel st_inbox 5 ⟨0, by decide⟩)
            (visit_seq logging_visitor (scope_peer_channel st_inbox 5 ⟨0, by decide⟩) []).1 5
            ⟨0, by decide⟩ ∧
      scope_peer_channel st_inbox 5 ⟨0, by decide⟩
        = (Inbox st_inbox 5 ⟨0, by decide⟩).map (fun pkt => (5, ⟨0, by decide⟩, pkt)) ∧
      (Inbox st1 5 ⟨0, by decide⟩).Sublist (Inbox st_inbox 5 ⟨0, by decide⟩) ∧
      ∀ (q : Nat) (d : Fin 10), (q ≠ 5 ∨ d ≠ ⟨0, by decide⟩) →
        Inbox st1 q d = Inbox st_inbox q d) ∧
    (visit_seq logging_visitor (scope_peer_channel st_inbox 5 ⟨0, by decide⟩) []).2
      = [(5, 0, [1, 1]), (5, 0, [2]), (5, 0, [1, 3])] ∧
    kept_of (scope_peer_channel st_inbox 5 ⟨0, by decide⟩)
        (visit_seq logging_visitor (scope_peer_channel st_inbox 5 ⟨0, by decide⟩) []).1 5
        ⟨0, by decide⟩ = [[2]] ∧
    (visit_seq logging_visitor (scope_all st_inbox) []).2
      = [(5, 0, [1, 1]), (5, 0, [2]), (5, 0, [1, 3]), (5, 3, [9]), (7, 0, [4]), (7, 3, [1]),
          (7, 3, [5])] :=
  ⟨(C16_forEach_visits_once_keeps_false 3 logging_visitor [] st_inbox 5 0 (by decide)
      (by unfold keys_nodup; decide) (by unfold bucket_bound; decide)).2.2,
    by decide, by decide, by decide⟩

/-- C17: after `clearPackets` every Inbox bucket is empty, and a following
`forEachPacket`, `forEachPacketPeer` or `forEachPacketPeerChannel` (channel below 10),
whatever the iteration bound, returns 0 with the state of the visitor as it was (the
visitor is not called) and with every bucket still empty. -/
theorem C17_forEach_after_clearPackets {σ : Type} (fuel : Nat)
    (fn : σ → Nat → Nat → List Nat → Bool × σ) (s : σ) (st : ToxNetChanneled)
    (peer channel : Nat) (hc : channel < 10) :
    (∀ (q : Nat) (d : Fin 10), Inbox (clearPackets st) q d = []) ∧
    forEachPacket fuel fn s (clearPackets st) = Except.ok (0, s, clearPackets st) ∧
    (∃ st1, forEachPacketPeer fuel fn s (clearPackets st) peer = Except.ok (0, s, st1) ∧
      ∀ (q : Nat) (d : Fin 10), Inbox st1 q d = []) ∧
    (∃ st1, forEachPacketPeerChannel fuel fn s (clearPackets st) peer channel
        = Except.ok (0, s, st1) ∧
      ∀ (q : Nat) (d : Fin 10), Inbox st1 q d = []) := by
  have hempty : ∀ (q : Nat) (d : Fin 10), Inbox (clearPackets st) q d = [] :=
    fun _ _ => rfl
  have hscope : scope_peer (clearPackets st) peer = [] := entry_items_empty peer
  have hscope2 : scope_peer_channel (clearPackets st) peer ⟨channel, hc⟩ = [] := rfl
  refine ⟨hempty, rfl, ?_, ?_⟩
  · have h := forEachPacketPeer_eq fuel fn s (clearPackets st) peer
      (fun c => by rw [hempty]; exact Nat.zero_le _)
    rw [hscope] at h
    refine ⟨_, h, ?_⟩
    intro q d
    by_cases hq : q = peer
    · subst hq
      simp [Inbox, map_get_modify_same, kept_of]
    · simp only [Inbox]
      rw [map_get_modify_ne _ _ _ _ _ hq]
      exact hempty q d
  · have h := forEachPacketPeerChannel_eq fuel fn s (clearPackets st) peer channel hc
      (by rw [hempty]; exact Nat.zero_le _)
    rw [hscope2] at h
    refine ⟨_, h, ?_⟩
    intro q d
    simp only [Inbox]
    rw [map_get_modify_update (fun _ => []) (fun _ => kept_of [] (visit_seq fn [] s).1 peer
      ⟨channel, hc⟩)]
    split_ifs
    · simp [kept_of]
    · exact hempty q d

/-- C17, after `clearPackets` on an Inbox with 7 packets: a visitor that counts its calls
stays at 0 calls in each of the three functions, with no iteration allowed. -/
theorem C17_forEach_after_clearPackets_witness :
    forEachPacket 0 (constant_visitor true) 0 (clearPackets st_inbox)
      = Except.ok (0, 0, clearPackets st_inbox) ∧
    (∃ st1, forEachPacketPeer 0 (constant_visitor true) 0 (clearPackets st_inbox) 5
        = Except.ok (0, 0, st1) ∧
      ∀ (q : Nat) (d : Fin 10), Inbox st1 q d = []) ∧
    (∃ st1, forEachPacketPeerChannel 0 (constant_visitor true) 0 (clearPackets st_inbox) 5 3
        = Except.ok (0, 0, st1) ∧
      ∀ (q : Nat) (d : Fin 10), Inbox st1 q d = []) :=
  (C17_forEach_after_clearPackets 0 (constant_visitor true) 0 st_inbox 5 3 (by decide)).2

/-- C18: `clearPackets` empties the Inbox and leaves the FragmentBuffers, the channel
types, the peer list and the service as they are; a fragment with marker 2 on channel
`c < 10` ingested after `clearPackets` emits one packet that starts with the bytes the
FragmentBuffer held before the clear. -/
theorem C18_clearPackets_keeps_fragment_buffers (env : Env) (st : ToxNetChanneled)
    (peer c b : Nat) (payload : List Nat) (hc : c < 10) :
    (clearPackets st)._large_packets_buffer = st._large_packets_buffer ∧
    (clearPackets st)._c_type_arr = st._c_type_arr ∧
    (clearPackets st)._peer_list = st._peer_list ∧
    (clearPackets st)._tox_service = st._tox_service ∧
    (∀ (q : Nat) (d : Fin 10), FragmentBuffer (clearPackets st) q d = FragmentBuffer st q d) ∧
    (∀ (q : Nat) (d : Fin 10), Inbox (clearPackets st) q d = []) ∧
    Inbox (lossless_packet_fn env peer (clearPackets st) ((161 + c) :: 2 :: b :: payload))
        peer ⟨c, hc⟩
      = [FragmentBuffer st peer ⟨c, hc⟩ ++ (b :: payload)] := by
  refine ⟨rfl, rfl, rfl, rfl, fun _ _ => rfl, fun _ _ => rfl, ?_⟩
  rw [(lossless_step_last env peer c hc (clearPackets st) b payload).1]
  rfl

/-- C18, on a state with the bytes 8, 8 in the FragmentBuffer of the peer 5 and
channel 0: after `clearPackets`, the fragment 161, 2, 7 emits the packet 8, 8, 7. -/
theorem C18_clearPackets_keeps_fragment_buffers_witness :
    Inbox (lossless_packet_fn env_2 5 (clearPackets st_inbox) ((161 + 0) :: 2 :: 7 :: []))
        5 ⟨0, by decide⟩
      = [FragmentBuffer st_inbox 5 ⟨0, by decide⟩ ++ (7 :: [])] ∧
    Inbox (lossless_packet_fn env_2 5 (clearPackets st_inbox) [161, 2, 7]) 5 ⟨0, by decide⟩
      = [[8, 8, 7]] :=
  ⟨(C18_clearPackets_keeps_fragment_buffers env_2 st_inbox 5 0 7 [] (by decide)).2.2.2.2.2.2,
    by decide⟩

/-- C19 fails: `forEachPacketPeerChannel` has no check of the channel. Called with
channel 10 it indexes the array of the 10 buckets of the peer with 10, which is
undefined behaviour (`Fault.out_of_range`), where `sendPacket` and `sendPacketLarge`
return false and leave the state as it is. -/
theorem C19_forEachPacketPeerChannel_no_channel_check :
    forEachPacketPeerChannel 3 (constant_visitor false) 0 st_inbox 5 10
      = Except.error Fault.out_of_range ∧
    sendPacket env_2 st_inbox 5 10 (some [1]) = (false, st_inbox) ∧
    sendPacketLarge 3 env_2 st_inbox 5 10 (some [1, 2, 3]) = some (false, st_inbox) :=
  ⟨rfl, rfl, rfl⟩

/-- C20, as stated, fails: `pull_fresh_packages` leaves the queues of the service as they
are. With the packets 161, 0, 7 and 161, 1, 9 of the peer 5 queued, one run puts the
packet 7 into the Inbox and the byte 9 into the FragmentBuffer; a second run, with no new
arrival, puts the packet 7 into the Inbox once more and the byte 9 into the
FragmentBuffer once more. -/
theorem C20_counterexample :
    lossless_queue (pull_fresh_packages env_2 st_queued)._tox_service 5
      = [[161, 0, 7], [161, 1, 9]] ∧
    Inbox (pull_fresh_packages env_2 st_queued) 5 ⟨0, by decide⟩ = [[7]] ∧
    FragmentBuffer (pull_fresh_packages env_2 st_queued) 5 ⟨0, by decide⟩ = [9] ∧
    Inbox (pull_fresh_packages env_2 (pull_fresh_packages env_2 st_queued)) 5 ⟨0, by decide⟩
      = [[7], [7]] ∧
    FragmentBuffer (pull_fresh_packages env_2 (pull_fresh_packages env_2 st_queued)) 5
      ⟨0, by decide⟩ = [9, 9] := by
  decide

/-- C20, amended: a run of `pull_fresh_packages` passes, for every peer of the peer list
in turn, each packet of the lossy queue and then each packet of the lossless queue of the
peer to the callback once, and leaves the service with its queues as it is;
`pkg_cleanup` empties the queues; a run of `pull_fresh_packages` that follows
`pkg_cleanup` with no new arrival returns the state as it is (no Inbox entry, no
FragmentBuffer byte). -/
theorem C20_pull_fresh_packages_amended (env : Env) (st : ToxNetChanneled) :
    pull_fresh_packages env st =
      st._peer_list.foldl
        (fun s q =>
          (lossless_queue st._tox_service (toTox q)).foldl (lossless_packet_fn env q)
            ((lossy_queue st._tox_service (toTox q)).foldl (lossy_packet_fn env q) s))
        st ∧
    (pull_fresh_packages env st)._tox_service = st._tox_service ∧
    queues_empty (pkg_cleanup (pull_fresh_packages env st)._tox_service) ∧
    pull_fresh_packages env
        { pull_fresh_packages env st with
          _tox_service := pkg_cleanup (pull_fresh_packages env st)._tox_service }
      = { pull_fresh_packages env st with
          _tox_service := pkg_cleanup (pull_fresh_packages env st)._tox_service } :=
  ⟨(pull_fresh_packages_eq env st).1, (pull_fresh_packages_eq env st).2,
    queues_empty_pkg_cleanup _,
    pull_fresh_packages_queues_empty env _ (queues_empty_pkg_cleanup _)⟩

/-- C21: a lossless packet of at least 3 bytes with first byte `161 + c` (`c < 10`) and
marker 1 sets the FragmentBuffer of the peer and `c` to its previous content followed by
the bytes of the packet from index 2 on (an absent buffer counts as empty), and leaves
every Inbox bucket and every other FragmentBuffer as it is; so does the lossless
callback on any state, and so does a run of `pull_fresh_packages` after the arrival of
the packet from a known peer at a receiver with empty queues. -/
theorem C21_marker_1_appends_to_buffer (env : Env) (st : ToxNetChanneled) (peer c : Nat)
    (pk : List Nat) (hc : c < 10) (hlen : 3 ≤ pk.length) (h0 : pk.getD 0 0 = 161 + c)
    (h1 : pk.getD 1 0 = 1) :
    (FragmentBuffer (lossless_packet_fn env peer st pk) peer ⟨c, hc⟩
        = FragmentBuffer st peer ⟨c, hc⟩ ++ pk.drop 2 ∧
      (∀ (q : Nat) (d : Fin 10), Inbox (lossless_packet_fn env peer st pk) q d = Inbox st q d) ∧
      ∀ (q : Nat) (d : Fin 10), (q ≠ peer ∨ d ≠ ⟨c, hc⟩) →
        FragmentBuffer (lossless_packet_fn env peer st pk) q d = FragmentBuffer st q d) ∧
    (queues_empty st._tox_service → known_peer st peer →
      FragmentBuffer (receive_lossless env st (toTox peer) [pk]) peer ⟨c, hc⟩
        = FragmentBuffer st peer ⟨c, hc⟩ ++ pk.drop 2 ∧
      (∀ (q : Nat) (d : Fin 10),
        Inbox (receive_lossless env st (toTox peer) [pk]) q d = Inbox st q d) ∧
      ∀ (q : Nat) (d : Fin 10), (q ≠ peer ∨ d ≠ ⟨c, hc⟩) →
        FragmentBuffer (receive_lossless env st (toTox peer) [pk]) q d
          = FragmentBuffer st q d) := by
  obtain ⟨b, rest, hpk, hdrop⟩ := packet_shape pk hlen
  have hhead := head_ne_160 pk c hlen h0
  rw [h0, h1] at hpk
  obtain ⟨s1, s2, s3⟩ := lossless_step_fragment env peer c hc st 1 b rest (by decide)
    (by decide)
  rw [← hpk] at s1 s2 s3
  rw [← hdrop] at s2
  have key : FragmentBuffer (lossless_packet_fn env peer st pk) peer ⟨c, hc⟩
        = FragmentBuffer st peer ⟨c, hc⟩ ++ pk.drop 2 ∧
      (∀ (q : Nat) (d : Fin 10), Inbox (lossless_packet_fn env peer st pk) q d = Inbox st q d) ∧
      ∀ (q : Nat) (d : Fin 10), (q ≠ peer ∨ d ≠ ⟨c, hc⟩) →
        FragmentBuffer (lossless_packet_fn env peer st pk) q d = FragmentBuffer st q d := by
    refine ⟨s2, ?_, fun q d h => (s3.2.2.2 q d h).2⟩
    intro q d
    by_cases h : q = peer ∧ d = ⟨c, hc⟩
    · rw [h.1, h.2]; exact s1
    · exact (s3.2.2.2 q d (by tauto)).1
  refine ⟨key, fun hq hk => ?_⟩
  obtain ⟨r1, r2⟩ := receive_lossless_single env st peer pk hq hk hhead
  simp only [r1, r2]
  exact key

/-- C21, on a state with the bytes 8, 8 in the FragmentBuffer of the peer 5 and channel
0: the packet 161, 1, 6, 7 makes it 8, 8, 6, 7 and adds nothing to the Inbox. -/
theorem C21_marker_1_appends_to_buffer_witness :
    (FragmentBuffer (lossless_packet_fn env_2 5 st_inbox [161, 1, 6, 7]) 5 ⟨0, by decide⟩
        = FragmentBuffer st_inbox 5 ⟨0, by decide⟩ ++ [161, 1, 6, 7].drop 2 ∧
      (∀ (q : Nat) (d : Fin 10),
        Inbox (lossless_packet_fn env_2 5 st_inbox [161, 1, 6, 7]) q d = Inbox st_inbox q d) ∧
      ∀ (q : Nat) (d : Fin 10), (q ≠ 5 ∨ d ≠ ⟨0, by decide⟩) →
        FragmentBuffer (lossless_packet_fn env_2 5 st_inbox [161, 1, 6, 7]) q d
          = FragmentBuffer st_inbox q d) ∧
    FragmentBuffer (receive_lossless env_2 st_inbox (toTox 5) [[161, 1, 6, 7]]) 5
      ⟨0, by decide⟩ = [8, 8, 6, 7] :=
  ⟨(C21_marker_1_appends_to_buffer env_2 st_inbox 5 0 [161, 1, 6, 7] (by decide) (by decide)
      (by decide) (by decide)).1,
    by decide⟩

/-- C22: a lossless packet of at least 3 bytes with first byte `161 + c` (`c < 10`) and
marker 2 appends exactly one entry to the tail of the Inbox bucket of the peer and `c`,
equal to the previous FragmentBuffer of the peer and `c` followed by the bytes of the
packet from index 2 on, leaves that FragmentBuffer empty, and changes no other Inbox
bucket and no other FragmentBuffer; so does the lossless callback on any state, and so
does a run of `pull_fresh_packages` after the arrival of the packet from a known peer at
a receiver with empty queues. -/
theorem C22_marker_2_emits_buffer (env : Env) (st : ToxNetChanneled) (peer c : Nat)
    (pk : List Nat) (hc : c < 10) (hlen : 3 ≤ pk.length) (h0 : pk.getD 0 0 = 161 + c)
    (h1 : pk.getD 1 0 = 2) :
    (Inbox (lossless_packet_fn env peer st pk) peer ⟨c, hc⟩
        = Inbox st peer ⟨c, hc⟩ ++ [FragmentBuffer st peer ⟨c, hc⟩ ++ pk.drop 2] ∧
      FragmentBuffer (lossless_packet_fn env peer st pk) peer ⟨c, hc⟩ = [] ∧
      ∀ (q : Nat) (d : Fin 10), (q ≠ peer ∨ d ≠ ⟨c, hc⟩) →
        Inbox (lossless_packet_fn env peer st pk) q d = Inbox st q d ∧
        FragmentBuffer (lossless_packet_fn env peer st pk) q d = FragmentBuffer st q d) ∧
    (queues_empty st._tox_service → known_peer st peer →
      Inbox (receive_lossless env st (toTox peer) [pk]) peer ⟨c, hc⟩
        = Inbox st peer ⟨c, hc⟩ ++ [FragmentBuffer st peer ⟨c, hc⟩ ++ pk.drop 2] ∧
      FragmentBuffer (receive_lossless env st (toTox peer) [pk]) peer ⟨c, hc⟩ = [] ∧
      ∀ (q : Nat) (d : Fin 10), (q ≠ peer ∨ d ≠ ⟨c, hc⟩) →
        Inbox (receive_lossless env st (toTox peer) [pk]) q d = Inbox st q d ∧
        FragmentBuffer (receive_lossless env st (toTox peer) [pk]) q d
          = FragmentBuffer st q d) := by
  obtain ⟨b, rest, hpk, hdrop⟩ := packet_shape pk hlen
  have hhead := head_ne_160 pk c hlen h0
  rw [h0, h1] at hpk
  obtain ⟨s1, s2, s3⟩ := lossless_step_last env peer c hc st b rest
  rw [← hpk] at s1 s2 s3
  rw [← hdrop] at s1
  have key : Inbox (lossless_packet_fn env peer st pk) peer ⟨c, hc⟩
        = Inbox st peer ⟨c, hc⟩ ++ [FragmentBuffer st peer ⟨c, hc⟩ ++ pk.drop 2] ∧
      FragmentBuffer (lossless_packet_fn env peer st pk) peer ⟨c, hc⟩ = [] ∧
      ∀ (q : Nat) (d : Fin 10), (q ≠ peer ∨ d ≠ ⟨c, hc⟩) →
        Inbox (lossless_packet_fn env peer st pk) q d = Inbox st q d ∧
        FragmentBuffer (lossless_packet_fn env peer st pk) q d = FragmentBuffer st q d :=
    ⟨s1, s2, s3.2.2.2⟩
  refine ⟨key, fun hq hk => ?_⟩
  obtain ⟨r1, r2⟩ := receive_lossless_single env st peer pk hq hk hhead
  simp only [r1, r2]
  exact key

/-- C22, on a state with the bytes 8, 8 in the FragmentBuffer and three packets in the
Inbox bucket of the peer 5 and channel 0: the packet 161, 2, 6, 7 appends the entry
8, 8, 6, 7 and empties the FragmentBuffer. -/
theorem C22_marker_2_emits_buffer_witness :
    (Inbox (lossless_packet_fn env_2 5 st_inbox [161, 2, 6, 7]) 5 ⟨0, by decide⟩
        = Inbox st_inbox 5 ⟨0, by decide⟩
          ++ [FragmentBuffer st_inbox 5 ⟨0, by decide⟩ ++ [161, 2, 6, 7].drop 2] ∧
      FragmentBuffer (lossless_packet_fn env_2 5 st_inbox [161, 2, 6, 7]) 5 ⟨0, by decide⟩
        = [] ∧
      ∀ (q : Nat) (d : Fin 10), (q ≠ 5 ∨ d ≠ ⟨0, by decide⟩) →
        Inbox (lossless_packet_fn env_2 5 st_inbox [161, 2, 6, 7]) q d = Inbox st_inbox q d ∧
        FragmentBuffer (lossless_packet_fn env_2 5 st_inbox [161, 2, 6, 7]) q d
          = FragmentBuffer st_inbox q d) ∧
    Inbox (receive_lossless env_2 st_inbox (toTox 5) [[161, 2, 6, 7]]) 5 ⟨0, by decide⟩
      = [[1, 1], [2], [1, 3], [8, 8, 6, 7]] :=
  ⟨(C22_marker_2_emits_buffer env_2 st_inbox 5 0 [161, 2, 6, 7] (by decide) (by decide)
      (by decide) (by decide)).1,
    by decide⟩

/-- C23: a lossless packet of at least 3 bytes with first byte `161 + c` (`c < 10`) and
marker 0 appends the bytes of the packet from index 2 on as one new entry at the tail of
the Inbox bucket of the peer and `c`, and leaves every other Inbox bucket and every
FragmentBuffer, the one of the peer and `c` included, as it is; so does the lossless
callback on any state, and so does a run of `pull_fresh_packages` after the arrival of
the packet from a known peer at a receiver with empty queues. -/
theorem C23_marker_0_bypasses_buffer (env : Env) (st : ToxNetChanneled) (peer c : Nat)
    (pk : List Nat) (hc : c < 10) (hlen : 3 ≤ pk.length) (h0 : pk.getD 0 0 = 161 + c)
    (h1 : pk.getD 1 0 = 0) :
    (Inbox (lossless_packet_fn env peer st pk) peer ⟨c, hc⟩
        = Inbox st peer ⟨c, hc⟩ ++ [pk.drop 2] ∧
      (∀ (q : Nat) (d : Fin 10),
        FragmentBuffer (lossless_packet_fn env peer st pk) q d = FragmentBuffer st q d) ∧
      ∀ (q : Nat) (d : Fin 10), (q ≠ peer ∨ d ≠ ⟨c, hc⟩) →
        Inbox (lossless_packet_fn env peer st pk) q d = Inbox st q d) ∧
    (queues_empty st._tox_service → known_peer st peer →
      Inbox (receive_lossless env st (toTox peer) [pk]) peer ⟨c, hc⟩
        = Inbox st peer ⟨c, hc⟩ ++ [pk.drop 2] ∧
      (∀ (q : Nat) (d : Fin 10),
        FragmentBuffer (receive_lossless env st (toTox peer) [pk]) q d
          = FragmentBuffer st q d) ∧
      ∀ (q : Nat) (d : Fin 10), (q ≠ peer ∨ d ≠ ⟨c, hc⟩) →
        Inbox (receive_lossless env st (toTox peer) [pk]) q d = Inbox st q d) := by
  obtain ⟨b, rest, hpk, hdrop⟩ := packet_shape pk hlen
  have hhead := head_ne_160 pk c hlen h0
  rw [h0, h1] at hpk
  obtain ⟨s1, s2, s3⟩ := lossless_step_standalone env peer c hc st b rest
  rw [← hpk] at s1 s2 s3
  rw [← hdrop] at s1
  have key : Inbox (lossless_packet_fn env peer st pk) peer ⟨c, hc⟩
        = Inbox st peer ⟨c, hc⟩ ++ [pk.drop 2] ∧
      (∀ (q : Nat) (d : Fin 10),
        FragmentBuffer (lossless_packet_fn env peer st pk) q d = FragmentBuffer st q d) ∧
      ∀ (q : Nat) (d : Fin 10), (q ≠ peer ∨ d ≠ ⟨c, hc⟩) →
        Inbox (lossless_packet_fn env peer st pk) q d = Inbox st q d := by
    refine ⟨s1, ?_, fun q d h => (s3.2.2.2 q d h).1⟩
    intro q d
    by_cases h : q = peer ∧ d = ⟨c, hc⟩
    · rw [h.1, h.2]; exact s2
    · exact (s3.2.2.2 q d (by tauto)).2
  refine ⟨key, fun hq hk => ?_⟩
  obtain ⟨r1, r2⟩ := receive_lossless_single env st peer pk hq hk hhead
  simp only [r1, r2]
  exact key

/-- C23, on a state with the bytes 8, 8 in the FragmentBuffer of the peer 5 and channel
0: the packet 161, 0, 6, 7 appends the entry 6, 7 and the FragmentBuffer still holds
8, 8. -/
theorem C23_marker_0_bypasses_buffer_witness :
    (Inbox (lossless_packet_fn env_2 5 st_inbox [161, 0, 6, 7]) 5 ⟨0, by decide⟩
        = Inbox st_inbox 5 ⟨0, by decide⟩ ++ [[161, 0, 6, 7].drop 2] ∧
      (∀ (q : Nat) (d : Fin 10),
        FragmentBuffer (lossless_packet_fn env_2 5 st_inbox [161, 0, 6, 7]) q d
          = FragmentBuffer st_inbox q d) ∧
      ∀ (q : Nat) (d : Fin 10), (q ≠ 5 ∨ d ≠ ⟨0, by decide⟩) →
        Inbox (lossless_packet_fn env_2 5 st_inbox [161, 0, 6, 7]) q d = Inbox st_inbox q d) ∧
    Inbox (receive_lossless env_2 st_inbox (toTox 5) [[161, 0, 6, 7]]) 5 ⟨0, by decide⟩
      = [[1, 1], [2], [1, 3], [6, 7]] ∧
    FragmentBuffer (receive_lossless env_2 st_inbox (toTox 5) [[161, 0, 6, 7]]) 5
      ⟨0, by decide⟩ = [8, 8] :=
  ⟨(C23_marker_0_bypasses_buffer env_2 st_inbox 5 0 [161, 0, 6, 7] (by decide) (by decide)
      (by decide) (by decide)).1,
    by decide, by decide⟩

/-- C24: a lossy packet of at least 3 bytes with first byte `192 + c` (`c < 10`) appends
the bytes of the packet from index 2 on as one new entry at the tail of the Inbox bucket
of the peer and `c`, whatever its second byte and whatever the types of the channels, and
changes no other Inbox bucket and no FragmentBuffer; so does the lossy callback on any
state, and so does a run of `pull_fresh_packages` after the arrival of the packet from a
known peer at a receiver with empty queues. -/
theorem C24_lossy_packet_to_inbox (env : Env) (st : ToxNetChanneled) (peer c : Nat)
    (pk : List Nat) (hc : c < 10) (hlen : 3 ≤ pk.length) (h0 : pk.getD 0 0 = 192 + c) :
    (Inbox (lossy_packet_fn env peer st pk) peer ⟨c, hc⟩
        = Inbox st peer ⟨c, hc⟩ ++ [pk.drop 2] ∧
      (∀ (q : Nat) (d : Fin 10),
        FragmentBuffer (lossy_packet_fn env peer st pk) q d = FragmentBuffer st q d) ∧
      ∀ (q : Nat) (d : Fin 10), (q ≠ peer ∨ d ≠ ⟨c, hc⟩) →
        Inbox (lossy_packet_fn env peer st pk) q d = Inbox st q d) ∧
    (queues_empty st._tox_service → known_peer st peer →
      Inbox (receive_lossy env st (toTox peer) [pk]) peer ⟨c, hc⟩
        = Inbox st peer ⟨c, hc⟩ ++ [pk.drop 2] ∧
      (∀ (q : Nat) (d : Fin 10),
        FragmentBuffer (receive_lossy env st (toTox peer) [pk]) q d = FragmentBuffer st q d) ∧
      ∀ (q : Nat) (d : Fin 10), (q ≠ peer ∨ d ≠ ⟨c, hc⟩) →
        Inbox (receive_lossy env st (toTox peer) [pk]) q d = Inbox st q d) := by
  obtain ⟨b, rest, hpk, hdrop⟩ := packet_shape pk hlen
  rw [h0] at hpk
  obtain ⟨s1, s2, s3⟩ := lossy_step env peer c hc st (pk.getD 1 0) b rest
  rw [← hpk] at s1 s2 s3
  rw [← hdrop] at s1
  have key : Inbox (lossy_packet_fn env peer st pk) peer ⟨c, hc⟩
        = Inbox st peer ⟨c, hc⟩ ++ [pk.drop 2] ∧
      (∀ (q : Nat) (d : Fin 10),
        FragmentBuffer (lossy_packet_fn env peer st pk) q d = FragmentBuffer st q d) ∧
      ∀ (q : Nat) (d : Fin 10), (q ≠ peer ∨ d ≠ ⟨c, hc⟩) →
        Inbox (lossy_packet_fn env peer st pk) q d = Inbox st q d := by
    refine ⟨s1, ?_, fun q d h => (s3.2.2.2 q d h).1⟩
    intro q d
    by_cases h : q = peer ∧ d = ⟨c, hc⟩
    · rw [h.1, h.2]; exact s2
    · exact (s3.2.2.2 q d (by tauto)).2
  refine ⟨key, fun hq hk => ?_⟩
  obtain ⟨r1, r2⟩ := receive_lossy_single env st peer pk hq hk
  simp only [r1, r2]
  exact key

/-- C24, on an object with all channels LOSSLESS: the lossy packet 195, 2, 6, 7 (second
byte 2) appends the entry 6, 7 to the Inbox bucket of the peer 5 and channel 3. -/
theorem C24_lossy_packet_to_inbox_witness :
    (Inbox (lossy_packet_fn env_2 5 st_inbox [195, 2, 6, 7]) 5 ⟨3, by decide⟩
        = Inbox st_inbox 5 ⟨3, by decide⟩ ++ [[195, 2, 6, 7].drop 2] ∧
      (∀ (q : Nat) (d : Fin 10),
        FragmentBuffer (lossy_packet_fn env_2 5 st_inbox [195, 2, 6, 7]) q d
          = FragmentBuffer st_inbox q d) ∧
      ∀ (q : Nat) (d : Fin 10), (q ≠ 5 ∨ d ≠ ⟨3, by decide⟩) →
        Inbox (lossy_packet_fn env_2 5 st_inbox [195, 2, 6, 7]) q d = Inbox st_inbox q d) ∧
    Inbox (receive_lossy env_2 st_inbox (toTox 5) [[195, 2, 6, 7]]) 5 ⟨3, by decide⟩
      = [[9], [6, 7]] :=
  ⟨(C24_lossy_packet_to_inbox env_2 st_inbox 5 3 [195, 2, 6, 7] (by decide) (by decide)
      (by decide)).1,
    by decide⟩

/-- C25: a lossless packet of at least 3 bytes with first byte `161 + c` (`c < 10`) and
marker 2 that is ingested while the FragmentBuffer of the peer and `c` is empty (or
absent) is not dropped: exactly one entry is appended to the Inbox bucket of the peer and
`c`, equal to the bytes of the packet from index 2 on, which are not empty, and the
FragmentBuffer is left empty. -/
theorem C25_terminal_fragment_without_buffer (env : Env) (st : ToxNetChanneled)
    (peer c : Nat) (pk : List Nat) (hc : c < 10) (hlen : 3 ≤ pk.length)
    (h0 : pk.getD 0 0 = 161 + c) (h1 : pk.getD 1 0 = 2)
    (hb : FragmentBuffer st peer ⟨c, hc⟩ = []) :
    Inbox (lossless_packet_fn env peer st pk) peer ⟨c, hc⟩
      = Inbox st peer ⟨c, hc⟩ ++ [pk.drop 2] ∧
    pk.drop 2 ≠ [] ∧
    FragmentBuffer (lossless_packet_fn env peer st pk) peer ⟨c, hc⟩ = [] ∧
    (queues_empty st._tox_service → known_peer st peer →
      Inbox (receive_lossless env st (toTox peer) [pk]) peer ⟨c, hc⟩
        = Inbox st peer ⟨c, hc⟩ ++ [pk.drop 2] ∧
      FragmentBuffer (receive_lossless env st (toTox peer) [pk]) peer ⟨c, hc⟩ = []) := by
  obtain ⟨b, rest, hpk, hdrop⟩ := packet_shape pk hlen
  have hhead := head_ne_160 pk c hlen h0
  have hne : pk.drop 2 ≠ [] := by rw [hdrop]; simp
  rw [h0, h1] at hpk
  obtain ⟨s1, s2, _⟩ := lossless_step_last env peer c hc st b rest
  rw [← hpk] at s1 s2
  rw [← hdrop, hb, List.nil_append] at s1
  refine ⟨s1, hne, s2, fun hq hk => ?_⟩
  obtain ⟨r1, r2⟩ := receive_lossless_single env st peer pk hq hk hhead
  simp only [r1, r2]
  exact ⟨s1, s2⟩

/-- C25, on a fresh receiver (no FragmentBuffer at all): the packet 161, 2, 7 arriving
from the peer 5 becomes the Inbox entry 7. -/
theorem C25_terminal_fragment_without_buffer_witness :
    Inbox (lossless_packet_fn env_2 5 st_lossless [161, 2, 7]) 5 ⟨0, by decide⟩
      = Inbox st_lossless 5 ⟨0, by decide⟩ ++ [[161, 2, 7].drop 2] ∧
    [161, 2, 7].drop 2 ≠ [] ∧
    FragmentBuffer (lossless_packet_fn env_2 5 st_lossless [161, 2, 7]) 5 ⟨0, by decide⟩ = [] ∧
    (queues_empty st_lossless._tox_service → known_peer st_lossless 5 →
      Inbox (receive_lossless env_2 st_lossless (toTox 5) [[161, 2, 7]]) 5 ⟨0, by decide⟩
        = Inbox st_lossless 5 ⟨0, by decide⟩ ++ [[161, 2, 7].drop 2] ∧
      FragmentBuffer (receive_lossless env_2 st_lossless (toTox 5) [[161, 2, 7]]) 5
        ⟨0, by decide⟩ = []) :=
  C25_terminal_fragment_without_buffer env_2 st_lossless 5 0 [161, 2, 7] (by decide)
    (by decide) (by decide) (by decide) rfl

/-- C26: a lossless packet (first byte below 256) that comes from `peer` leaves the Inbox
bucket and the FragmentBuffer of every peer and channel alone that is not `peer` and the
channel of its first byte, and so does a lossy packet; hence after any log of lossless
packets in which the packets for a first peer and channel are, in order, the fragments of
a payload `pay1` and the packets for a second peer and channel the fragments of a payload
`pay2`, however the two sequences and other packets are interleaved, the first Inbox
bucket has one new entry, the first FragmentBuffer of before followed by `pay1`, the
second one the second FragmentBuffer followed by `pay2`, both FragmentBuffers are empty,
and a peer and channel without a packet in the log is as before; the lossless packets
that arrive from one known peer and a run of `pull_fresh_packages` are such a log. -/
theorem C26_channels_and_peers_independent (env : Env) (st : ToxNetChanneled) :
    (∀ (peer : Nat) (pk : List Nat) (q : Nat) (d : Fin 10), pk.getD 0 0 < 256 →
      (q ≠ peer ∨ pk.getD 0 0 ≠ 161 + d.val) →
      Inbox (lossless_packet_fn env peer st pk) q d = Inbox st q d ∧
      FragmentBuffer (lossless_packet_fn env peer st pk) q d = FragmentBuffer st q d) ∧
    (∀ (peer : Nat) (pk : List Nat) (q : Nat) (d : Fin 10), pk.getD 0 0 < 256 →
      (q ≠ peer ∨ pk.getD 0 0 ≠ 192 + d.val) →
      Inbox (lossy_packet_fn env peer st pk) q d = Inbox st q d ∧
      FragmentBuffer (lossy_packet_fn env peer st pk) q d = FragmentBuffer st q d) ∧
    (∀ (log : List (Nat × List Nat)) (M p1 c1 p2 c2 : Nat) (hc1 : c1 < 10) (hc2 : c2 < 10)
        (pay1 pay2 : List Nat),
      1 ≤ M → pay1 ≠ [] → pay2 ≠ [] → (∀ e ∈ log, e.2.getD 0 0 < 256) →
      packets_for p1 c1 log = fragments M c1 pay1 →
      packets_for p2 c2 log = fragments M c2 pay2 →
      Inbox (ingest_lossless env st log) p1 ⟨c1, hc1⟩
        = Inbox st p1 ⟨c1, hc1⟩ ++ [FragmentBuffer st p1 ⟨c1, hc1⟩ ++ pay1] ∧
      FragmentBuffer (ingest_lossless env st log) p1 ⟨c1, hc1⟩ = [] ∧
      Inbox (ingest_lossless env st log) p2 ⟨c2, hc2⟩
        = Inbox st p2 ⟨c2, hc2⟩ ++ [FragmentBuffer st p2 ⟨c2, hc2⟩ ++ pay2] ∧
      FragmentBuffer (ingest_lossless env st log) p2 ⟨c2, hc2⟩ = [] ∧
      ∀ (q d : Nat) (hd : d < 10), packets_for q d log = [] →
        Inbox (ingest_lossless env st log) q ⟨d, hd⟩ = Inbox st q ⟨d, hd⟩ ∧
        FragmentBuffer (ingest_lossless env st log) q ⟨d, hd⟩
          = FragmentBuffer st q ⟨d, hd⟩) ∧
    (∀ (peer : Nat) (frames : List (List Nat)),
      queues_empty st._tox_service → known_peer st peer →
      (∀ f ∈ frames, f.head? ≠ some 160) →
      ∀ (q : Nat) (d : Fin 10),
        Inbox (receive_lossless env st (toTox peer) frames) q d
          = Inbox (ingest_lossless env st (frames.map (fun f => (peer, f)))) q d ∧
        FragmentBuffer (receive_lossless env st (toTox peer) frames) q d
          = FragmentBuffer (ingest_lossless env st (frames.map (fun f => (peer, f)))) q d) := by
  refine ⟨?_, ?_, ?_, ?_⟩
  · intro peer pk q d hb h
    exact lossless_packet_fn_other_key env peer st pk hb q d h
  · intro peer pk q d hb h
    obtain ⟨a, b⟩ := lossy_packet_fn_other_key env peer st pk hb q d
    exact ⟨a h, b⟩
  · intro log M p1 c1 p2 c2 hc1 hc2 pay1 pay2 hM hp1 hp2 hb h1 h2
    have one : ∀ (p c : Nat) (hc : c < 10) (pay : List Nat), pay ≠ [] →
        packets_for p c log = fragments M c pay →
        Inbox (ingest_lossless env st log) p ⟨c, hc⟩
          = Inbox st p ⟨c, hc⟩ ++ [FragmentBuffer st p ⟨c, hc⟩ ++ pay] ∧
        FragmentBuffer (ingest_lossless env st log) p ⟨c, hc⟩ = [] := by
      intro p c hc pay hpay hfr
      obtain ⟨e1, e2⟩ := ingest_lossless_projection env p c hc log st st hb rfl rfl
      have hpos : 0 < pay.length := List.length_pos.2 hpay
      have hK := chunk_count_pos M pay.length hM hpos
      obtain ⟨g1, g2, _⟩ := ingest_fragments env p c hc M pay hM
        (chunk_count M pay.length - 1) 0 st (by omega)
      have hr : chunk_count M pay.length - 1 + 1 = chunk_count M pay.length := by omega
      rw [hr, ← List.range_eq_range'] at g1 g2
      rw [e1, e2, hfr]
      unfold fragments
      rw [g1, g2]
      simp
    obtain ⟨a1, a2⟩ := one p1 c1 hc1 pay1 hp1 h1
    obtain ⟨b1, b2⟩ := one p2 c2 hc2 pay2 hp2 h2
    refine ⟨a1, a2, b1, b2, ?_⟩
    intro q d hd hnone
    obtain ⟨e1, e2⟩ := ingest_lossless_projection env q d hd log st st hb rfl rfl
    rw [e1, e2, hnone]
    exact ⟨rfl, rfl⟩
  · intro peer frames hq hk hf q d
    rw [receive_lossless_eq env st peer frames hq hk hf, ingest_lossless_one_peer,
      foldl_lossless_packet_fn_service]
    exact ⟨rfl, rfl⟩

/-- C26, with `getMaxPacketSize() = 2`: the fragments of the payload 1, 2, 3 from the
peer 5 on channel 0, of 7, 8, 9 from the peer 5 on channel 3 and of 4, 5, 6 from the
peer 7 on channel 0, interleaved, reassemble to these three payloads. -/
theorem C26_channels_and_peers_independent_witness :
    (Inbox (ingest_lossless env_2 st_lossless
        [(5, [161, 1, 1, 2]), (5, [164, 1, 7, 8]), (7, [161, 1, 4, 5]), (5, [161, 2, 3]),
          (7, [161, 2, 6]), (5, [164, 2, 9])]) 5 ⟨0, by decide⟩
      = Inbox st_lossless 5 ⟨0, by decide⟩
        ++ [FragmentBuffer st_lossless 5 ⟨0, by decide⟩ ++ [1, 2, 3]] ∧
      FragmentBuffer (ingest_lossless env_2 st_lossless
        [(5, [161, 1, 1, 2]), (5, [164, 1, 7, 8]), (7, [161, 1, 4, 5]), (5, [161, 2, 3]),
          (7, [161, 2, 6]), (5, [164, 2, 9])]) 5 ⟨0, by decide⟩ = [] ∧
      Inbox (ingest_lossless env_2 st_lossless
        [(5, [161, 1, 1, 2]), (5, [164, 1, 7, 8]), (7, [161, 1, 4, 5]), (5, [161, 2, 3]),
          (7, [161, 2, 6]), (5, [164, 2, 9])]) 7 ⟨0, by decide⟩
      = Inbox st_lossless 7 ⟨0, by decide⟩
        ++ [FragmentBuffer st_lossless 7 ⟨0, by decide⟩ ++ [4, 5, 6]] ∧
      FragmentBuffer (ingest_lossless env_2 st_lossless
        [(5, [161, 1, 1, 2]), (5, [164, 1, 7, 8]), (7, [161, 1, 4, 5]), (5, [161, 2, 3]),
          (7, [161, 2, 6]), (5, [164, 2, 9])]) 7 ⟨0, by decide⟩ = [] ∧
      ∀ (q d : Nat) (hd : d < 10),
        packets_for q d
          [(5, [161, 1, 1, 2]), (5, [164, 1, 7, 8]), (7, [161, 1, 4, 5]), (5, [161, 2, 3]),
            (7, [161, 2, 6]), (5, [164, 2, 9])] = [] →
        Inbox (ingest_lossless env_2 st_lossless
          [(5, [161, 1, 1, 2]), (5, [164, 1, 7, 8]), (7, [161, 1, 4, 5]), (5, [161, 2, 3]),
            (7, [161, 2, 6]), (5, [164, 2, 9])]) q ⟨d, hd⟩ = Inbox st_lossless q ⟨d, hd⟩ ∧
        FragmentBuffer (ingest_lossless env_2 st_lossless
          [(5, [161, 1, 1, 2]), (5, [164, 1, 7, 8]), (7, [161, 1, 4, 5]), (5, [161, 2, 3]),
            (7, [161, 2, 6]), (5, [164, 2, 9])]) q ⟨d, hd⟩
          = FragmentBuffer st_lossless q ⟨d, hd⟩) ∧
    Inbox (ingest_lossless env_2 st_lossless
        [(5, [161, 1, 1, 2]), (5, [164, 1, 7, 8]), (7, [161, 1, 4, 5]), (5, [161, 2, 3]),
          (7, [161, 2, 6]), (5, [164, 2, 9])]) 5 ⟨3, by decide⟩ = [[7, 8, 9]] ∧
    Inbox (receive_lossless env_2 st_lossless (toTox 5)
        [[161, 1, 1, 2], [164, 1, 7, 8], [161, 2, 3], [164, 2, 9]]) 5 ⟨0, by decide⟩
      = [[1, 2, 3]] ∧
    Inbox (receive_lossless env_2 st_lossless (toTox 5)
        [[161, 1, 1, 2], [164, 1, 7, 8], [161, 2, 3], [164, 2, 9]]) 5 ⟨3, by decide⟩
      = [[7, 8, 9]] :=
  ⟨(C26_channels_and_peers_independent env_2 st_lossless).2.2.1
      [(5, [161, 1, 1, 2]), (5, [164, 1, 7, 8]), (7, [161, 1, 4, 5]), (5, [161, 2, 3]),
        (7, [161, 2, 6]), (5, [164, 2, 9])] 2 5 0 7 0 (by decide) (by decide) [1, 2, 3]
      [4, 5, 6] (by decide) (by decide) (by decide) (by decide) (by decide) (by decide),
    by decide, by decide, by decide⟩

/-- C27: bytes left in the FragmentBuffer of a peer and a channel `c < 10` are put in
front of the next large payload. When the frames of a fully successful `sendPacketLarge`
of a payload `p` longer than `getMaxPacketSize() >= 1` arrive, in the order sent, at a
receiver with empty queues that knows the sender as `peer`, one run of
`pull_fresh_packages` appends exactly one entry to the Inbox bucket of `peer` and `c`:
the bytes the FragmentBuffer held, followed by `p` (which is not `p` when the buffer held
bytes), and leaves the buffer empty. Such bytes are what the first `k` fragments of a
payload with more than `k` fragments leave behind when the others never arrive (a
transfer aborted after `k` sends): the first `k * getMaxPacketSize()` bytes of that
payload. And no FragmentBuffer is changed by `sendPacket`, `sendPacketLarge`, the three
`forEachPacket` functions, `clearPackets`, a lossless packet with marker 0, a lossy
packet, or a lossless packet of another peer or channel. -/
theorem C27_leftover_buffer_is_prepended (env renv : Env) (snd rcv : ToxNetChanneled)
    (dest peer c fuel : Nat) (p : List Nat) (hc : c < 10)
    (hl : snd._c_type_arr ⟨c, hc⟩ = channel_type.LOSSLESS)
    (hM : 1 ≤ getMaxPacketSize env) (hp : getMaxPacketSize env < p.length)
    (hfuel : chunk_count (getMaxPacketSize env) p.length ≤ fuel)
    (hok : ∀ j, j < chunk_count (getMaxPacketSize env) p.length →
      env.tox_friend_send_lossless_packet (snd._tox_service.sends.length + j) (toTox dest)
        (fragment (getMaxPacketSize env) c p j) = true)
    (hq : queues_empty rcv._tox_service) (hk : known_peer rcv peer) :
    (∃ snd1, sendPacketLarge fuel env snd dest c (some p) = some (true, snd1) ∧
      Inbox (receive_lossless renv rcv (toTox peer)
          ((new_sends snd._tox_service snd1._tox_service).map SendCall.mem)) peer ⟨c, hc⟩
        = Inbox rcv peer ⟨c, hc⟩ ++ [FragmentBuffer rcv peer ⟨c, hc⟩ ++ p] ∧
      (FragmentBuffer rcv peer ⟨c, hc⟩ ≠ [] → FragmentBuffer rcv peer ⟨c, hc⟩ ++ p ≠ p) ∧
      FragmentBuffer (receive_lossless renv rcv (toTox peer)
          ((new_sends snd._tox_service snd1._tox_service).map SendCall.mem)) peer ⟨c, hc⟩
        = []) ∧
    (∀ (p0 : List Nat) (k : Nat), k * getMaxPacketSize env < p0.length →
      FragmentBuffer (receive_lossless renv rcv (toTox peer)
          ((List.range k).map (fragment (getMaxPacketSize env) c p0))) peer ⟨c, hc⟩
        = FragmentBuffer rcv peer ⟨c, hc⟩ ++ p0.take (k * getMaxPacketSize env) ∧
      ∀ (q : Nat) (d : Fin 10),
        Inbox (receive_lossless renv rcv (toTox peer)
          ((List.range k).map (fragment (getMaxPacketSize env) c p0))) q d = Inbox rcv q d) ∧
    (∀ (st : ToxNetChanneled) (q : Nat) (d : Fin 10),
      (∀ (peer1 c1 : Nat) (data : Option (List Nat)),
        FragmentBuffer (sendPacket env st peer1 c1 data).2 q d = FragmentBuffer st q d) ∧
      (∀ (fuel1 peer1 c1 : Nat) (data : Option (List Nat)) (r : Bool × ToxNetChanneled),
        sendPacketLarge fuel1 env st peer1 c1 data = some r →
        FragmentBuffer r.2 q d = FragmentBuffer st q d) ∧
      (∀ (σ : Type) (fuel1 : Nat) (fn : σ → Nat → Nat → List Nat → Bool × σ) (s : σ)
          (peer1 c1 : Nat) (r : Nat × σ × ToxNetChanneled),
        (forEachPacket fuel1 fn s st = Except.ok r ∨
          forEachPacketPeer fuel1 fn s st peer1 = Except.ok r ∨
          forEachPacketPeerChannel fuel1 fn s st peer1 c1 = Except.ok r) →
        FragmentBuffer r.2.2 q d = FragmentBuffer st q d) ∧
      FragmentBuffer (clearPackets st) q d = FragmentBuffer st q d ∧
      (∀ (peer1 : Nat) (pk : List Nat), pk.getD 1 0 = 0 →
        FragmentBuffer (lossless_packet_fn renv peer1 st pk) q d = FragmentBuffer st q d) ∧
      (∀ (peer1 : Nat) (pk : List Nat),
        FragmentBuffer (lossy_packet_fn renv peer1 st pk) q d = FragmentBuffer st q d) ∧
      (∀ (peer1 : Nat) (pk : List Nat), pk.getD 0 0 < 256 →
        (q ≠ peer1 ∨ pk.getD 0 0 ≠ 161 + d.val) →
        FragmentBuffer (lossless_packet_fn renv peer1 st pk) q d = FragmentBuffer st q d)) := by
  refine ⟨?_, ?_, ?_⟩
  · have hsend := send_in_order_all env (toTox dest) (getMaxPacketSize env) c p hc
      (chunk_count (getMaxPacketSize env) p.length) 0 snd._tox_service
      (by intro i hi; simpa using hok i hi)
    have hrun := sendPacketLarge_large_eq env snd dest c fuel p hc hl hM hp hfuel
    simp only [fragments, List.range_eq_range', hsend] at hrun
    have hpos := chunk_count_pos (getMaxPacketSize env) p.length hM (by omega)
    refine ⟨_, hrun, ?_⟩
    simp only [new_sends_append, List.map_map]
    have hframes : (List.range' 0 (chunk_count (getMaxPacketSize env) p.length)).map
        (SendCall.mem ∘ fun i =>
          (⟨true, toTox dest, fragment (getMaxPacketSize env) c p i, true, true⟩ : SendCall))
        = (List.range' 0 (chunk_count (getMaxPacketSize env) p.length - 1 + 1)).map
            (fragment (getMaxPacketSize env) c p) := by
      rw [Nat.sub_add_cancel hpos]
      apply List.map_congr_left
      intro i _
      rfl
    rw [hframes]
    obtain ⟨r1, r2⟩ := receive_lossless_fold renv rcv peer _ hq hk
      (fragment_head_ne_160 (getMaxPacketSize env) c p hc _) peer ⟨c, hc⟩
    obtain ⟨i1, i2, _⟩ := ingest_fragments renv peer c hc (getMaxPacketSize env) p hM
      (chunk_count (getMaxPacketSize env) p.length - 1) 0 rcv (by omega)
    rw [r1, r2, i1, i2]
    refine ⟨by simp, ?_, rfl⟩
    intro hne heq
    have hlen := congrArg List.length heq
    rw [List.length_append] at hlen
    exact hne (List.length_eq_zero.1 (by omega))
  · intro p0 k hk0
    have hframes : (List.range k).map (fragment (getMaxPacketSize env) c p0)
        = (List.range' 0 k).map (fragment (getMaxPacketSize env) c p0) := by
      rw [List.range_eq_range']
    rw [hframes]
    obtain ⟨i1, i2, i3⟩ := ingest_fragments_partial renv peer c hc (getMaxPacketSize env) p0
      hM k 0 rcv (by simpa using hk0)
    refine ⟨?_, ?_⟩
    · rw [(receive_lossless_fold renv rcv peer _ hq hk
        (fragment_head_ne_160 (getMaxPacketSize env) c p0 hc _) peer ⟨c, hc⟩).2, i2]
      simp
    · intro q d
      rw [(receive_lossless_fold renv rcv peer _ hq hk
        (fragment_head_ne_160 (getMaxPacketSize env) c p0 hc _) q d).1]
      by_cases hqd : q = peer ∧ d = ⟨c, hc⟩
      · rw [hqd.1, hqd.2]; exact i1
      · exact (i3.2.2.2 q d (by tauto)).1
  · intro st q d
    refine ⟨?_, ?_, ?_, rfl, ?_, ?_, ?_⟩
    · intro peer1 c1 data
      unfold FragmentBuffer
      rw [(sendPacket_buffer env st peer1 c1 data).1]
    · intro fuel1 peer1 c1 data r h
      unfold FragmentBuffer
      rw [(sendPacketLarge_buffer env st fuel1 peer1 c1 data r h).1]
    · intro σ fuel1 fn s peer1 c1 r h
      obtain ⟨f1, f2, f3⟩ := forEachPacket_buffer fuel1 fn s st peer1 c1 r
      unfold FragmentBuffer
      rcases h with h | h | h
      · rw [f1 h]
      · rw [f2 h]
      · rw [f3 h]
    · intro peer1 pk h1
      unfold FragmentBuffer
      rw [lossless_packet_fn_marker_0_buffer renv peer1 st pk h1]
    · intro peer1 pk
      unfold FragmentBuffer
      rw [lossy_packet_fn_buffer renv peer1 st pk]
    · intro peer1 pk hb h
      exact (lossless_packet_fn_other_key renv peer1 st pk hb q d h).2

/-- C27, with `getMaxPacketSize() = 2`: at a receiver with the bytes 8, 8 in the
FragmentBuffer of the peer 5 and channel 0, the three frames of the payload 1, 2, 3, 4, 5
arrive as the one entry 8, 8, 1, 2, 3, 4, 5. And from the start: of a first transfer of
1, 2, 3, 4, 5, aborted when tox refuses the second send, only the frame 161, 1, 1, 2
arrives; after `pkg_cleanup` and `clearPackets` the FragmentBuffer still holds 1, 2, and
the retry of the whole payload arrives as 1, 2, 1, 2, 3, 4, 5. -/
theorem C27_leftover_buffer_is_prepended_witness :
    (∃ snd1, sendPacketLarge 3 env_2 st_lossless 9 0 (some [1, 2, 3, 4, 5])
        = some (true, snd1) ∧
      Inbox (receive_lossless env_2 st_inbox (toTox 5)
          ((new_sends st_lossless._tox_service snd1._tox_service).map SendCall.mem)) 5
          ⟨0, by decide⟩
        = Inbox st_inbox 5 ⟨0, by decide⟩
          ++ [FragmentBuffer st_inbox 5 ⟨0, by decide⟩ ++ [1, 2, 3, 4, 5]] ∧
      (FragmentBuffer st_inbox 5 ⟨0, by decide⟩ ≠ [] →
        FragmentBuffer st_inbox 5 ⟨0, by decide⟩ ++ [1, 2, 3, 4, 5] ≠ [1, 2, 3, 4, 5]) ∧
      FragmentBuffer (receive_lossless env_2 st_inbox (toTox 5)
          ((new_sends st_lossless._tox_service snd1._tox_service).map SendCall.mem)) 5
          ⟨0, by decide⟩
        = []) ∧
    Inbox (receive_lossless env_2 st_inbox (toTox 5)
        [[161, 1, 1, 2], [161, 1, 3, 4], [161, 2, 5]]) 5 ⟨0, by decide⟩
      = [[1, 1], [2], [1, 3], [8, 8, 1, 2, 3, 4, 5]] ∧
    (sendPacketLarge 3 env_2_fail st_lossless 5 0 (some [1, 2, 3, 4, 5])).map
        (fun r => (r.1, ((new_sends st_lossless._tox_service r.2._tox_service).filter
          (fun s => s.forwarded && s.result)).map SendCall.mem))
      = some (false, [[161, 1, 1, 2]]) ∧
    FragmentBuffer (clearPackets
        { receive_lossless env_2 st_lossless (toTox 5) [[161, 1, 1, 2]] with
          _tox_service :=
            (pkg_cleanup
              (receive_lossless env_2 st_lossless (toTox 5) [[161, 1, 1, 2]])._tox_service) })
      5 ⟨0, by decide⟩ = [1, 2] ∧
    Inbox (receive_lossless env_2
        (clearPackets
          { receive_lossless env_2 st_lossless (toTox 5) [[161, 1, 1, 2]] with
            _tox_service :=
              (pkg_cleanup
                (receive_lossless env_2 st_lossless (toTox 5) [[161, 1, 1, 2]])._tox_service) })
        (toTox 5) [[161, 1, 1, 2], [161, 1, 3, 4], [161, 2, 5]]) 5 ⟨0, by decide⟩
      = [[1, 2, 1, 2, 3, 4, 5]] :=
  ⟨(C27_leftover_buffer_is_prepended env_2 env_2 st_lossless st_inbox 9 5 0 3 [1, 2, 3, 4, 5]
      (by decide) rfl (by decide) (by decide) (by decide) (fun _ _ => rfl)
      (by intro e he; simp [st_inbox] at he)
      ⟨by simp [st_inbox], by simp [st_inbox],
        by intro q hq _; simp [st_inbox] at hq; rcases hq with h | h
           · exact h
           · subst h; rename_i h2; revert h2; decide⟩).1,
    by decide, by decide, by decide, by decide⟩

/-- C28: with `getMaxPacketSize() >= 1` and a payload whose size is a `size_t` value, the
loop of `sendPacketLarge` returns after at most one pass per chunk of the payload,
whatever tox answers, and the subtractions of `size_t` in it never wrap: the loop is the
same as the loop over the natural numbers; in each pass `data_this_pk` is the minimum of
the remaining byte count and `getMaxPacketSize()`, at least 1 and at most the remaining
count, the source offset `data_size - remaining_data_size` and the end of the copied
range are at most `data_size`; the first pass starts with `data_size` and each next pass
with the remaining count of the pass before minus its `data_this_pk`, which is strictly
less; and in a run that returns true the last pass takes all that remains, leaving
exactly 0, with the whole payload sent in `chunk_count` passes. -/
theorem C28_fragmentation_loop_terminates (env : Env) (fr c : Nat) (d : List Nat)
    (ts : ToxService) (hM : 1 ≤ getMaxPacketSize env) (hd : d.length < 2 ^ 64) :
    (∀ fuel, chunk_count (getMaxPacketSize env) d.length ≤ fuel →
      ∃ r, (sendPacketLarge_loop_iterations env fr c d fuel d.length true ts).1 = some r ∧
        sendPacketLarge_loop env fr c d fuel d.length true ts = some r) ∧
    (∀ fuel,
      (∀ it ∈ (sendPacketLarge_loop_iterations env fr c d fuel d.length true ts).2,
        it.data_this_pk = min it.remaining_data_size (getMaxPacketSize env) ∧
        1 ≤ it.data_this_pk ∧ it.data_this_pk ≤ it.remaining_data_size ∧
        it.remaining_data_size ≤ d.length ∧
        it.offset + it.remaining_data_size = d.length ∧
        it.offset ≤ d.length ∧ it.offset + it.data_this_pk ≤ d.length) ∧
      (∀ it ∈ (sendPacketLarge_loop_iterations env fr c d fuel d.length true ts).2.head?,
        it.remaining_data_size = d.length) ∧
      List.Chain' (fun a b : Iteration =>
          b.remaining_data_size + a.data_this_pk = a.remaining_data_size ∧
          b.remaining_data_size < a.remaining_data_size)
        (sendPacketLarge_loop_iterations env fr c d fuel d.length true ts).2 ∧
      (∀ ts1, (sendPacketLarge_loop_iterations env fr c d fuel d.length true ts).1
          = some (true, ts1) →
        (∀ it ∈ (sendPacketLarge_loop_iterations env fr c d fuel d.length true ts).2.getLast?,
          it.remaining_data_size - it.data_this_pk = 0) ∧
        ((sendPacketLarge_loop_iterations env fr c d fuel d.length true ts).2.map
          Iteration.data_this_pk).sum = d.length ∧
        (sendPacketLarge_loop_iterations env fr c d fuel d.length true ts).2.length
          = chunk_count (getMaxPacketSize env) d.length)) := by
  have hmem := sendPacketLarge_loop_iterations_mem env fr c d hd
  have hchain := sendPacketLarge_loop_iterations_chain env fr c d hd
  refine ⟨?_, fun fuel => ⟨?_, ?_, ?_, ?_⟩⟩
  · intro fuel hfuel
    rw [sendPacketLarge_loop_iterations_fst env fr c d hd fuel d.length true ts (Nat.le_refl _)]
    by_cases hn : 0 < d.length
    · have h := sendPacketLarge_loop_eq env fr c d hM fuel 0 ts (by simpa using hn)
        (by simpa using hfuel)
      simp only [Nat.zero_mul, Nat.sub_zero] at h
      exact ⟨_, h, h⟩
    · have h0 : d.length = 0 := by omega
      rw [h0, sendPacketLarge_loop_zero]
      exact ⟨_, rfl, rfl⟩
  · intro it hit
    obtain ⟨a1, a2, a3, a4, _⟩ := hmem fuel d.length true ts (Nat.le_refl _) it hit
    have := Nat.min_le_left it.remaining_data_size (getMaxPacketSize env)
    have : 1 ≤ min it.remaining_data_size (getMaxPacketSize env) :=
      Nat.le_min.2 ⟨a1, hM⟩
    refine ⟨a3, ?_, ?_, a2, a4, ?_, ?_⟩ <;> omega
  · exact (hchain fuel d.length true ts (Nat.le_refl _)).1
  · have hc := (hchain fuel d.length true ts (Nat.le_refl _)).2
    have hall := hmem fuel d.length true ts (Nat.le_refl _)
    generalize (sendPacketLarge_loop_iterations env fr c d fuel d.length true ts).2 = its
      at hc hall
    induction its with
    | nil => exact List.chain'_nil
    | cons a l ih =>
      rw [List.chain'_cons'] at hc ⊢
      refine ⟨?_, ih hc.2 (fun it hit => hall it (List.mem_cons_of_mem _ hit))⟩
      intro y hy
      have h1 := hc.1 y hy
      obtain ⟨a1, _, a3, _⟩ := hall a (List.mem_cons_self _ _)
      have : 1 ≤ min a.remaining_data_size (getMaxPacketSize env) :=
        Nat.le_min.2 ⟨a1, hM⟩
      exact ⟨h1, by omega⟩
  · intro ts1 hres
    obtain ⟨k1, k2, k3⟩ := sendPacketLarge_loop_iterations_done env fr c d hd hM fuel
      d.length true ts ts1 (Nat.le_refl _) hres
    refine ⟨?_, k3, k1⟩
    intro it hit
    rw [k2 it hit]
    exact Nat.sub_self _

/-- C28, on a payload of 5 bytes with `getMaxPacketSize() = 2`: three passes, with 5, 3
and 1 bytes remaining, 2, 2 and 1 bytes taken from the offsets 0, 2 and 4. -/
theorem C28_fragmentation_loop_terminates_witness :
    ((∀ fuel, chunk_count (getMaxPacketSize env_2) [1, 2, 3, 4, 5].length ≤ fuel →
      ∃ r, (sendPacketLarge_loop_iterations env_2 5 0 [1, 2, 3, 4, 5] fuel
            [1, 2, 3, 4, 5].length true st_lossless._tox_service).1 = some r ∧
        sendPacketLarge_loop env_2 5 0 [1, 2, 3, 4, 5] fuel [1, 2, 3, 4, 5].length true
          st_lossless._tox_service = some r) ∧
      chunk_count (getMaxPacketSize env_2) [1, 2, 3, 4, 5].length = 3) ∧
    (sendPacketLarge_loop_iterations env_2 5 0 [1, 2, 3, 4, 5] 3 5 true
        st_lossless._tox_service).2
      = [⟨5, 2, 0, [161, 1, 1, 2]⟩, ⟨3, 2, 2, [161, 1, 3, 4]⟩, ⟨1, 1, 4, [161, 2, 5]⟩] ∧
    (sendPacketLarge_loop_iterations env_2 5 0 [1, 2, 3, 4, 5] 3 5 true
        st_lossless._tox_service).1
      = sendPacketLarge_loop env_2 5 0 [1, 2, 3, 4, 5] 3 5 true st_lossless._tox_service :=
  ⟨⟨(C28_fragmentation_loop_terminates env_2 5 0 [1, 2, 3, 4, 5] st_lossless._tox_service
      (by decide) (by decide)).1, by decide⟩,
    by decide, rfl⟩

/-- C29: when `tox_max_custom_packet_size()` is at least `sizeof(channel_id) + 3`, every
frame `sendPacketLarge` hands to a send wrapper, and every frame `sendPacket` builds for
a payload of at most `getMaxPacketSize()` bytes, has a total length, the two bytes in
front of the payload included, of at most `tox_max_custom_packet_size()`: this holds for
the calls on record when `sendPacketLarge` returns, for the frame of every pass of its
loop whatever the iteration bound, and for the call of `sendPacket`; and with
`getMaxPacketSize() >= 1` and one pass per chunk allowed, `sendPacketLarge` returns. -/
theorem C29_frames_fit_transport (env : Env)
    (hT : env.sizeof_channel_id + 3 ≤ env.tox_max_custom_packet_size) :
    (∀ (fuel : Nat) (st : ToxNetChanneled) (peer c : Nat) (data : Option (List Nat))
        (r : Bool × ToxNetChanneled), sendPacketLarge fuel env st peer c data = some r →
      ∀ call ∈ new_sends st._tox_service r.2._tox_service,
        call.mem.length ≤ env.tox_max_custom_packet_size) ∧
    (∀ (fuel fr c : Nat) (d : List Nat) (ts : ToxService), d.length < 2 ^ 64 →
      ∀ it ∈ (sendPacketLarge_loop_iterations env fr c d fuel d.length true ts).2,
        it.new_data.length ≤ env.tox_max_custom_packet_size) ∧
    (∀ (st : ToxNetChanneled) (peer c : Nat) (p : List Nat),
      p.length ≤ getMaxPacketSize env →
      ∀ call ∈ new_sends st._tox_service (sendPacket env st peer c (some p)).2._tox_service,
        call.mem.length ≤ env.tox_max_custom_packet_size) ∧
    (1 ≤ getMaxPacketSize env →
      ∀ (fuel : Nat) (st : ToxNetChanneled) (peer c : Nat) (d : List Nat),
        chunk_count (getMaxPacketSize env) d.length ≤ fuel →
        ∃ r, sendPacketLarge fuel env st peer c (some d) = some r) := by
  have hM := getMaxPacketSize_add_le env hT
  refine ⟨?_, ?_, ?_, ?_⟩
  · intro fuel st peer c data r h call hcall
    have := sendPacketLarge_frame_length env st fuel peer c data r h call hcall
    omega
  · intro fuel fr c d ts hd it hit
    obtain ⟨_, _, a3, _, a5⟩ := sendPacketLarge_loop_iterations_mem env fr c d hd fuel
      d.length true ts (Nat.le_refl _) it hit
    rw [a5, List.length_append, List.length_take]
    have := Nat.min_le_right it.remaining_data_size (getMaxPacketSize env)
    have := Nat.min_le_left it.data_this_pk (d.drop it.offset).length
    simp only [List.length_cons, List.length_nil]
    omega
  · intro st peer c p hp call hcall
    obtain ⟨q, hq, hl⟩ := sendPacket_frame_length env st peer c (some p) call hcall
    simp only [Option.some.injEq] at hq
    subst hq
    omega
  · intro h1 fuel st peer c d hfuel
    by_cases hc : c < 10
    · by_cases hl : st._c_type_arr ⟨c, hc⟩ = channel_type.LOSSLESS
      · by_cases hp : getMaxPacketSize env < d.length
        · exact ⟨_, sendPacketLarge_large_eq env st peer c fuel d hc hl h1 hp hfuel⟩
        · have hn : ¬ c ≥ 10 := by omega
          unfold sendPacketLarge
          simp only [hn, dite_false, hl, ne_eq, not_true_eq_false, if_false,
            show d.length ≤ getMaxPacketSize env by omega, if_true]
          by_cases h0 : d.length < 1
          · exact ⟨_, by rw [if_pos h0]⟩
          · exact ⟨_, by rw [if_neg h0]⟩
      · have hn : ¬ c ≥ 10 := by omega
        unfold sendPacketLarge
        simp only [hn, dite_false, ne_eq, hl, not_false_eq_true, if_true]
        by_cases h0 : d.length < 1
        · exact ⟨_, by rw [if_pos h0]⟩
        · exact ⟨_, by rw [if_neg h0]⟩
    · have hn : c ≥ 10 := by omega
      unfold sendPacketLarge
      exact ⟨(false, st), by simp only [hn, dite_true]⟩

/-- C29, with `tox_max_custom_packet_size() = 6` and a `channel_id` of one byte
(`getMaxPacketSize() = 2`): the three frames of a payload of 5 bytes have 4, 4 and 3
bytes, the frame of a payload of 2 bytes has 4. -/
theorem C29_frames_fit_transport_witness :
    (∀ (fuel : Nat) (st : ToxNetChanneled) (peer c : Nat) (data : Option (List Nat))
        (r : Bool × ToxNetChanneled), sendPacketLarge fuel env_2 st peer c data = some r →
      ∀ call ∈ new_sends st._tox_service r.2._tox_service,
        call.mem.length ≤ env_2.tox_max_custom_packet_size) ∧
    ((sendPacketLarge 3 env_2 st_lossless 5 0 (some [1, 2, 3, 4, 5])).map
        (fun r => (new_sends st_lossless._tox_service r.2._tox_service).map
          (fun call => call.mem.length))) = some [4, 4, 3] ∧
    (new_sends st_lossless._tox_service
        (sendPacket env_2 st_lossless 5 0 (some [1, 2])).2._tox_service).map
      (fun call => call.mem.length) = [4] ∧
    env_2.tox_max_custom_packet_size = 6 :=
  ⟨(C29_frames_fit_transport env_2 (by decide)).1, by decide, by decide, rfl⟩

/-- C30: for a lossless packet of at least 3 bytes with first byte `161 + c` (`c < 10`)
the second byte decides: every marker other than 0 and 2 (1 and 3..255) appends the bytes
from index 2 on to the FragmentBuffer of the peer and `c` and leaves every Inbox bucket
as it is; marker 2 is the only one that moves the FragmentBuffer, with these bytes
appended, into the Inbox; marker 0 is the only one that leaves the FragmentBuffer as it
is, and appends the bytes to the Inbox. -/
theorem C30_other_markers_are_fragments (env : Env) (st : ToxNetChanneled) (peer c : Nat)
    (pk : List Nat) (hc : c < 10) (hlen : 3 ≤ pk.length) (h0 : pk.getD 0 0 = 161 + c) :
    ((pk.getD 1 0 ≠ 0 ∧ pk.getD 1 0 ≠ 2) →
      FragmentBuffer (lossless_packet_fn env peer st pk) peer ⟨c, hc⟩
        = FragmentBuffer st peer ⟨c, hc⟩ ++ pk.drop 2 ∧
      ∀ (q : Nat) (d : Fin 10), Inbox (lossless_packet_fn env peer st pk) q d = Inbox st q d) ∧
    (pk.getD 1 0 = 2 →
      Inbox (lossless_packet_fn env peer st pk) peer ⟨c, hc⟩
        = Inbox st peer ⟨c, hc⟩ ++ [FragmentBuffer st peer ⟨c, hc⟩ ++ pk.drop 2] ∧
      FragmentBuffer (lossless_packet_fn env peer st pk) peer ⟨c, hc⟩ = []) ∧
    (pk.getD 1 0 = 0 →
      Inbox (lossless_packet_fn env peer st pk) peer ⟨c, hc⟩
        = Inbox st peer ⟨c, hc⟩ ++ [pk.drop 2] ∧
      FragmentBuffer (lossless_packet_fn env peer st pk) peer ⟨c, hc⟩
        = FragmentBuffer st peer ⟨c, hc⟩) ∧
    (Inbox (lossless_packet_fn env peer st pk) peer ⟨c, hc⟩ ≠ Inbox st peer ⟨c, hc⟩ →
      pk.getD 1 0 = 0 ∨ pk.getD 1 0 = 2) ∧
    (FragmentBuffer (lossless_packet_fn env peer st pk) peer ⟨c, hc⟩
        = FragmentBuffer st peer ⟨c, hc⟩ ++ pk.drop 2 → pk.getD 1 0 ≠ 0) := by
  obtain ⟨b, rest, hpk, hdrop⟩ := packet_shape pk hlen
  rw [h0] at hpk
  have hfrag : (pk.getD 1 0 ≠ 0 ∧ pk.getD 1 0 ≠ 2) →
      FragmentBuffer (lossless_packet_fn env peer st pk) peer ⟨c, hc⟩
        = FragmentBuffer st peer ⟨c, hc⟩ ++ pk.drop 2 ∧
      ∀ (q : Nat) (d : Fin 10),
        Inbox (lossless_packet_fn env peer st pk) q d = Inbox st q d := by
    intro hm
    obtain ⟨s1, s2, s3⟩ := lossless_step_fragment env peer c hc st (pk.getD 1 0) b rest
      hm.1 hm.2
    rw [← hpk] at s1 s2 s3
    rw [← hdrop] at s2
    refine ⟨s2, ?_⟩
    intro q d
    by_cases h : q = peer ∧ d = ⟨c, hc⟩
    · rw [h.1, h.2]; exact s1
    · exact (s3.2.2.2 q d (by tauto)).1
  have hlast : pk.getD 1 0 = 2 →
      Inbox (lossless_packet_fn env peer st pk) peer ⟨c, hc⟩
        = Inbox st peer ⟨c, hc⟩ ++ [FragmentBuffer st peer ⟨c, hc⟩ ++ pk.drop 2] ∧
      FragmentBuffer (lossless_packet_fn env peer st pk) peer ⟨c, hc⟩ = [] := by
    intro hm
    rw [hm] at hpk
    obtain ⟨s1, s2, _⟩ := lossless_step_last env peer c hc st b rest
    rw [← hpk] at s1 s2
    rw [← hdrop] at s1
    exact ⟨s1, s2⟩
  have hzero : pk.getD 1 0 = 0 →
      Inbox (lossless_packet_fn env peer st pk) peer ⟨c, hc⟩
        = Inbox st peer ⟨c, hc⟩ ++ [pk.drop 2] ∧
      FragmentBuffer (lossless_packet_fn env peer st pk) peer ⟨c, hc⟩
        = FragmentBuffer st peer ⟨c, hc⟩ := by
    intro hm
    rw [hm] at hpk
    obtain ⟨s1, s2, _⟩ := lossless_step_standalone env peer c hc st b rest
    rw [← hpk] at s1 s2
    rw [← hdrop] at s1
    exact ⟨s1, s2⟩
  refine ⟨hfrag, hlast, hzero, ?_, ?_⟩
  · intro hne
    by_contra hm
    exact hne ((hfrag ⟨fun h => hm (Or.inl h), fun h => hm (Or.inr h)⟩).2 peer ⟨c, hc⟩)
  · intro hfb hm
    rw [(hzero hm).2, hdrop] at hfb
    have := congrArg List.length hfb
    simp at this

/-- C30, with the undocumented marker 7: the packet 161, 7, 6 is appended to the
FragmentBuffer 8, 8 of the peer 5 and channel 0 and adds nothing to the Inbox. -/
theorem C30_other_markers_are_fragments_witness :
    (FragmentBuffer (lossless_packet_fn env_2 5 st_inbox [161, 7, 6]) 5 ⟨0, by decide⟩
        = FragmentBuffer st_inbox 5 ⟨0, by decide⟩ ++ [161, 7, 6].drop 2 ∧
      ∀ (q : Nat) (d : Fin 10),
        Inbox (lossless_packet_fn env_2 5 st_inbox [161, 7, 6]) q d = Inbox st_inbox q d) ∧
    FragmentBuffer (lossless_packet_fn env_2 5 st_inbox [161, 7, 6]) 5 ⟨0, by decide⟩
      = [8, 8, 6] ∧
    FragmentBuffer (lossless_packet_fn env_2 5 st_inbox [161, 255, 6]) 5 ⟨0, by decide⟩
      = [8, 8, 6] :=
  ⟨(C30_other_markers_are_fragments env_2 st_inbox 5 0 [161, 7, 6] (by decide) (by decide)
      (by decide)).1 (by decide),
    by decide, by decide⟩

end MM.Tox.Services
